import Mathlib

/-!
# pdf2xml: a verification development

A shallow embedding of `pdf2xml.cpp` / `pdf2xml.h` (Mobipocket pdf2xml): the
rectangle geometry, the XML serializer state, the text coalescing state
machine of `MbpOutputDev`, the links, the picture registry and the file
names, the 1-bit and 24-bit raster paths of `drawImageOrMask`, and the
characters that the serializer writes (numbers, tags, metadata).

Modelling conventions:
* `int` values are `Int`; wrap-around is modelled in the sums, differences and
  products of `Rect::is_intersecting` and `Rect::surface` and in the negation of
  `write(int)`, not elsewhere;
* `double` values are exact rationals `ℚ`; the one `float` of the code, the cast in
  the overprint test of `drawString`, is rounded to 24 bits (`to_float`);
* a `GString` is the list of its `char`s;
* the XML file is the list of the elements written so far, one `XmlItem` per
  group of `write` calls that the source performs for that element;
  `XmlItem.render` gives the characters of these `write` calls;
* values that the code obtains from the xpdf engine (`GfxState`, `GfxFont`,
  `Stream`, `Object`) are fields of the callback argument records.
-/

namespace Pdf2Xml

/-- A `GString`: a sequence of `char`. -/
abbrev GString := List Char

/-- The conversion of a value to the type `int`: 32 bits, two's complement.
It gives the result of an `int` operation whose exact value leaves the range
of `int`. -/
def to_int (x : Int) : Int := (x + 2147483648) % 4294967296 - 2147483648

/-- The distance of two neighbouring `float` values at a magnitude `a` up to
2^31: a `float` has a significand of 24 bits. -/
def float_ulp (a : Nat) : Nat :=
  if a < 16777216 then 1
  else if a < 33554432 then 2
  else if a < 67108864 then 4
  else if a < 134217728 then 8
  else if a < 268435456 then 16
  else if a < 536870912 then 32
  else if a < 1073741824 then 64
  else if a < 2147483648 then 128
  else 256

/-- The conversion `(float)` of an `int`: the nearest value with a significand
of 24 bits, a tie going to the even significand. -/
def to_float (n : Int) : ℚ :=
  let a := n.natAbs
  let ulp := float_ulp a
  let q := a / ulp
  let r := a % ulp
  let m := if 2 * r > ulp ∨ (2 * r = ulp ∧ q % 2 = 1) then q + 1 else q
  if n < 0 then -((m * ulp : Nat) : ℚ) else ((m * ulp : Nat) : ℚ)

/-! ## Rect -/

/-- The class `Rect` of `pdf2xml.h`. -/
structure Rect where
  x : Int
  y : Int
  width : Int
  height : Int
deriving DecidableEq

/-- The method `Rect::surface`; the product is an `int`. -/
def Rect.surface (r : Rect) : Int := to_int (r.width * r.height)

/-- The method `Rect::is_intersecting`: the returned boolean and the out
parameter `rect`; the sums and differences are `int`s. -/
def Rect.is_intersecting (self other : Rect) : Bool × Rect :=
  let w0 := to_int (self.x + self.width)
  let temp := to_int (other.x + other.width)
  let w1 := if temp < w0 then temp else w0
  let rx := if self.x > other.x then self.x else other.x
  let w2 := to_int (w1 - rx)
  let h0 := to_int (self.y + self.height)
  let temp2 := to_int (other.y + other.height)
  let h1 := if temp2 < h0 then temp2 else h0
  let ry := if self.y > other.y then self.y else other.y
  let h2 := to_int (h1 - ry)
  (decide (w2 > 0) && decide (h2 > 0), { x := rx, y := ry, width := w2, height := h2 })

/-- The method `Rect::enlarge_to_contain`; the result is the new value of the
receiver. -/
def Rect.enlarge_to_contain (self contained : Rect) : Rect :=
  if self.height = 0 ∨ self.width = 0 then
    { x := contained.x, y := contained.y, width := contained.width, height := contained.height }
  else if contained.width ≠ 0 ∧ contained.height ≠ 0 then
    let cur_right := self.x + self.width
    let cur_bottom := self.y + self.height
    let width1 := if self.x > contained.x then self.width + (self.x - contained.x) else self.width
    let x1 := if self.x > contained.x then contained.x else self.x
    let height1 := if self.y > contained.y then self.height + (self.y - contained.y) else self.height
    let y1 := if self.y > contained.y then contained.y else self.y
    let i := contained.y + contained.height - cur_bottom
    let height2 := if i > 0 then height1 + i else height1
    let i2 := contained.x + contained.width - cur_right
    let width2 := if i2 > 0 then width1 + i2 else width1
    { x := x1, y := y1, width := width2, height := height2 }
  else self

/-! ## XmlOutput -/

/-- One element written to the XML file by a method of `XmlOutput`. -/
inductive XmlItem where
  | font_close
  | page_close
  | page_open (width height : Int)
  | font_open (face : GString) (size color : Int) (bold italic : Bool)
  | text_block (str : GString) (rect : Rect)
  | image_block (filename : GString) (rect : Rect)
  | link_dest (rect : Rect) (dest_page dest_x dest_y : Int)
  | link_url (rect : Rect) (dest_url : GString)
  | document_close
deriving DecidableEq

/-- The class `XmlOutput`: the file written so far and the two flags. -/
structure XmlOutput where
  file : List XmlItem
  page_opened : Bool
  font_opened : Bool
deriving DecidableEq

/-- The method `XmlOutput::start_page`. -/
def XmlOutput.start_page (o : XmlOutput) (width height : Int) : XmlOutput :=
  let f1 := if o.font_opened then o.file ++ [XmlItem.font_close] else o.file
  let f2 := if o.page_opened then f1 ++ [XmlItem.page_close] else f1
  { file := f2 ++ [XmlItem.page_open width height], page_opened := true, font_opened := false }

/-- The method `XmlOutput::change_font`. -/
def XmlOutput.change_font (o : XmlOutput) (face : GString) (size color : Int)
    (bold italic : Bool) : XmlOutput :=
  let f1 := if o.font_opened then o.file ++ [XmlItem.font_close] else o.file
  { o with file := f1 ++ [XmlItem.font_open face size color bold italic], font_opened := true }

/-- The method `XmlOutput::add_text_block`. -/
def XmlOutput.add_text_block (o : XmlOutput) (str : GString) (rect : Rect) : XmlOutput :=
  { o with file := o.file ++ [XmlItem.text_block str rect] }

/-- The value that `XmlOutput::add_text_block` returns: `error` after its
eleven `write` calls (one for the head of the tag, seven in `WRITE_BOUNDS`,
three for the text and the end of the tag), where `failed k` tells whether the
call number `k` wrote less than it was given.  The method reads neither
`page_opened` nor `font_opened`. -/
def XmlOutput.add_text_block_error (_o : XmlOutput) (failed : Nat → Bool) : Bool :=
  (List.range 11).any failed

/-- The method `XmlOutput::add_image_block`. -/
def XmlOutput.add_image_block (o : XmlOutput) (filename : GString) (rect : Rect) : XmlOutput :=
  { o with file := o.file ++ [XmlItem.image_block filename rect] }

/-- The method `XmlOutput::add_link` for a destination in the document. -/
def XmlOutput.add_link (o : XmlOutput) (rect : Rect) (dest_page dest_x dest_y : Int) :
    XmlOutput :=
  { o with file := o.file ++ [XmlItem.link_dest rect dest_page dest_x dest_y] }

/-- The method `XmlOutput::add_link` for an external link. -/
def XmlOutput.add_link_url (o : XmlOutput) (rect : Rect) (dest_url : GString) : XmlOutput :=
  { o with file := o.file ++ [XmlItem.link_url rect dest_url] }

/-- The tail of `XmlOutput::load_from_pdf`, after `displayPages` has returned:
the open font tag and the open page tag are closed, then the main tag. -/
def XmlOutput.load_from_pdf_finish (o : XmlOutput) : XmlOutput :=
  let f1 := if o.font_opened then o.file ++ [XmlItem.font_close] else o.file
  let f2 := if o.page_opened then f1 ++ [XmlItem.page_close] else f1
  { file := f2 ++ [XmlItem.document_close], page_opened := false, font_opened := false }

/-! ## MbpOutputDev -/

/-- The class `PictureReference`. -/
structure PictureReference where
  reference_number : Int
  picture_flip : Int
  picture_number : Int
  picture_extension : GString
deriving DecidableEq

/-- The three encodings among which `drawImageOrMask` chooses. -/
inductive ImageFormat where
  | jpg_copy
  | png_1bit
  | png_24bit
deriving DecidableEq

/-- The fields of the class `MbpOutputDev`.  `dev_page_state` records whether
the pointer is non-null; `written_files` lists the raster files created so far
(the effect of `fopen` and `save_png`). -/
structure MbpOutputDev where
  dev_output : XmlOutput
  dev_page_state : Bool
  dev_current_font_face : GString
  dev_current_font_bold : Bool
  dev_current_font_italic : Bool
  dev_current_font_size : Int
  dev_current_font_color : Int
  dev_font_has_changed : Bool
  last_x : ℚ
  last_y : ℚ
  last_w : ℚ
  last_h : ℚ
  last_page_w : ℚ
  last_page_h : ℚ
  last_rect : Rect
  dev_coalesc_content : GString
  dev_coalesc_rect : Rect
  dev_coalesc_valid : Bool
  dev_picture_references : List PictureReference
  dev_picture_base : GString
  dev_picture_number : Int
  dev_conversion_buffer : GString
  written_files : List (GString × ImageFormat)

/-- The static method `MbpOutputDev::round`: `(int)(x+0.5)`, a conversion that
truncates toward zero. -/
def round (x : ℚ) : Int :=
  let q := x + 1/2
  if 0 ≤ q then q.floor else -((-q).floor)

/-- The static method `MbpOutputDev::clamp`. -/
def clamp (x : Int) : Int :=
  if x > 255 then 255 else if x < 0 then 0 else x

/-- The method `MbpOutputDev::invalidate_coalesc_blocks`. -/
def invalidate_coalesc_blocks (dev : MbpOutputDev) : MbpOutputDev :=
  { dev with dev_coalesc_valid := false }

/-- The method `MbpOutputDev::flush_coalesc_blocks`. -/
def flush_coalesc_blocks (dev : MbpOutputDev) : MbpOutputDev :=
  let dev1 :=
    if dev.dev_coalesc_valid then
      { dev with dev_output := dev.dev_output.add_text_block dev.dev_coalesc_content dev.dev_coalesc_rect }
    else dev
  invalidate_coalesc_blocks dev1

/-- The scanning loop of `MbpOutputDev::compare_with_coalesc`: the values of
`i` and `j` when the loop is left.  Every iteration that does not leave the
loop increases `i + j`, so `s.length + t.length` iterations are enough
(`compare_scan_fuel`). -/
def compare_scan (s t : GString) : Nat → Nat → Nat → Nat × Nat
  | 0, i, j => (i, j)
  | fuel + 1, i, j =>
    if i < s.length ∧ j < t.length then
      if s.getD i default = Char.ofNat 0x20 then compare_scan s t fuel (i + 1) j
      else if t.getD j default = Char.ofNat 0x20 then compare_scan s t fuel i (j + 1)
      else if s.getD i default = t.getD j default then compare_scan s t fuel (i + 1) (j + 1)
      else (i, j)
    else (i, j)

/-- The method `MbpOutputDev::compare_with_coalesc`. -/
def compare_with_coalesc (dev : MbpOutputDev) (str : GString) : Bool :=
  if !dev.dev_coalesc_valid then false
  else
    let r := compare_scan str dev.dev_coalesc_content
      (str.length + dev.dev_coalesc_content.length) 0 0
    decide (r.1 = str.length) && decide (r.2 = dev.dev_coalesc_content.length)

/-- The scanning loop of `MbpOutputDev::compare_with_coalesc` with its reads
made explicit: `s[i]` is read first, `t[j]` only when `s[i]` is not 0x20, and
a read at an index that is not below the length of the text makes the result
`none`. -/
def compare_scan_checked (s t : GString) : Nat → Nat → Nat → Option (Nat × Nat)
  | 0, i, j => some (i, j)
  | fuel + 1, i, j =>
    if i < s.length ∧ j < t.length then
      match s[i]? with
      | none => none
      | some si =>
        if si = Char.ofNat 0x20 then compare_scan_checked s t fuel (i + 1) j
        else
          match t[j]? with
          | none => none
          | some tj =>
            if tj = Char.ofNat 0x20 then compare_scan_checked s t fuel i (j + 1)
            else if si = tj then compare_scan_checked s t fuel (i + 1) (j + 1)
            else some (i, j)
    else some (i, j)

/-- The method `MbpOutputDev::append_coalesc_block`. -/
def append_coalesc_block (dev : MbpOutputDev) (str : GString) (rect : Rect)
    (prepend_space : Bool) : MbpOutputDev :=
  let content0 := if !dev.dev_coalesc_valid then [] else dev.dev_coalesc_content
  let rect0 : Rect :=
    if !dev.dev_coalesc_valid then { x := 0, y := 0, width := 0, height := 0 }
    else dev.dev_coalesc_rect
  let content1 := if prepend_space then content0 ++ [Char.ofNat 0x20] else content0
  { dev with
    dev_coalesc_content := content1 ++ str
    dev_coalesc_rect := rect0.enlarge_to_contain rect
    dev_coalesc_valid := true }

/-- The scan of `MbpOutputDev::append_image_block` for the last backslash or
slash of the file name: the value of `last_path_separator_index`. -/
def last_path_separator_index (pic_chars : GString) : Int :=
  (List.range pic_chars.length).foldl
    (fun last index =>
      if pic_chars.getD index default = Char.ofNat 0x5C
          ∨ pic_chars.getD index default = Char.ofNat 0x2F then (index : Int) else last)
    (-1)

/-- The method `MbpOutputDev::append_image_block`. -/
def append_image_block (dev : MbpOutputDev) (x y width height : Int)
    (pic_filename : GString) : MbpOutputDev :=
  let relname := pic_filename.drop (last_path_separator_index pic_filename + 1).toNat
  let dev1 := flush_coalesc_blocks dev
  { dev1 with dev_output :=
      dev1.dev_output.add_image_block relname { x := x, y := y, width := width, height := height } }

/-- The method `MbpOutputDev::startPage`; `page_w` and `page_h` are the page
dimensions reported by the graphics state. -/
def startPage (dev : MbpOutputDev) (page_w page_h : ℚ) : MbpOutputDev :=
  let dev1 : MbpOutputDev :=
    { dev with
      dev_page_state := true
      last_page_w := page_w
      last_page_h := page_h
      last_x := -1000
      last_y := -1000
      last_w := -1000
      last_h := -1000
      last_rect := { x := 0, y := 0, width := 0, height := 0 }
      dev_font_has_changed := true
      dev_current_font_bold := false
      dev_current_font_italic := false
      dev_current_font_size := 0
      dev_current_font_color := 0
      dev_current_font_face := [] }
  let dev2 := invalidate_coalesc_blocks dev1
  { dev2 with dev_output := dev2.dev_output.start_page (round page_w) (round page_h) }

/-- The method `MbpOutputDev::endPage`. -/
def endPage (dev : MbpOutputDev) : MbpOutputDev :=
  { flush_coalesc_blocks dev with dev_page_state := false }

/-- What `updateFont` reads from the font of the graphics state. -/
structure FontInfo where
  name : GString
  bold : Bool
  italic : Bool
  font_size : ℚ

/-- The method `MbpOutputDev::updateFont`; the argument is `none` when the
font is null, not ok, or has no name. -/
def updateFont (dev : MbpOutputDev) (font : Option FontInfo) : MbpOutputDev :=
  match font with
  | none => dev
  | some f =>
    let int_size := round (-f.font_size)
    if f.bold ≠ dev.dev_current_font_bold ∨ f.italic ≠ dev.dev_current_font_italic
        ∨ int_size ≠ dev.dev_current_font_size ∨ dev.dev_current_font_face ≠ f.name then
      { dev with
        dev_font_has_changed := true
        dev_current_font_bold := f.bold
        dev_current_font_italic := f.italic
        dev_current_font_size := int_size
        dev_current_font_face := f.name }
    else dev

/-- What `drawString` obtains from the graphics state and from
`handle_string`: the converted text with the width and height of the string,
the width of a space (`0` when the font is null or not ok), the device
position of the top-left corner of the line box, the horizontal component of
the transformed text-space vertical (the italic test), the transformed font
size and the fill colour. -/
structure TextRun where
  text_content : GString
  width : ℚ
  height : ℚ
  current_space : ℚ
  x : ℚ
  y : ℚ
  italic_dx : ℚ
  font_size : ℚ
  rgb_r : Int
  rgb_g : Int
  rgb_b : Int

/-- The blank test at the head of `drawString`. -/
def all_blanks : GString → Bool
  | [] => true
  | c :: cs =>
    if c ≠ Char.ofNat 0x20 ∧ c ≠ Char.ofNat 0x0A ∧ c ≠ Char.ofNat 0x0D then false
    else all_blanks cs

/-- The local `rect` of `drawString` before stitching. -/
def TextRun.rect (g : TextRun) : Rect :=
  { x := round g.x, y := round g.y, width := round g.width, height := round g.height }

/-- The local `rgb_color` of `drawString`. -/
def TextRun.rgb_color (g : TextRun) : Int :=
  clamp (g.rgb_r / 256) * 65536 + clamp (g.rgb_g / 256) * 256 + clamp (g.rgb_b / 256)

/-- The part of `drawString` that compares the italic flag, the colour and the
size of the run with the current font and sets `dev_font_has_changed`. -/
def font_check (dev : MbpOutputDev) (g : TextRun) : MbpOutputDev :=
  let new_italic := decide (g.italic_dx ≠ 0)
  let dev1 :=
    if dev.dev_current_font_italic ≠ new_italic then
      { dev with dev_current_font_italic := new_italic, dev_font_has_changed := true }
    else dev
  let int_size := round (-g.font_size)
  let dev2 :=
    if g.rgb_color ≠ dev1.dev_current_font_color then
      { dev1 with dev_current_font_color := g.rgb_color, dev_font_has_changed := true }
    else dev1
  if int_size ≠ dev2.dev_current_font_size then
    { dev2 with dev_current_font_size := int_size, dev_font_has_changed := true }
  else dev2

/-- The local `overprint` of `drawString`: the test
`(float)rinter.surface() > 0.5 * rect.surface()` compares the surface of the
intersection, converted to `float`, with half of the surface of the run, a
`double` that is exact. -/
def overprint (dev : MbpOutputDev) (g : TextRun) : Bool :=
  let r := g.rect.is_intersecting dev.last_rect
  if r.1 then
    if to_float r.2.surface > (1/2 : ℚ) * (g.rect.surface : Int) then
      compare_with_coalesc dev g.text_content
    else false
  else false

/-- The local `spacing` of `drawString`. -/
def spacing (dev : MbpOutputDev) (g : TextRun) : ℚ := g.x - (dev.last_x + dev.last_w)

/-- The local `horizontal_intersect` of `drawString`. -/
def horizontal_intersect (dev : MbpOutputDev) (g : TextRun) : Bool :=
  (decide (dev.last_y + dev.last_h ≥ g.y) && decide (dev.last_y + dev.last_h ≤ g.y + g.height))
  || (decide (g.y + g.height ≥ dev.last_y) && decide (g.y + g.height ≤ dev.last_y + dev.last_h))

/-- The condition of the first branch of the adjacency test of `drawString`. -/
def same_line (dev : MbpOutputDev) (g : TextRun) : Bool :=
  decide (g.y = dev.last_y) && decide (spacing dev g > -g.current_space)
    && decide (spacing dev g < (3/4 : ℚ) * g.current_space)

/-- The condition of the second branch of the adjacency test of `drawString`. -/
def near_line (dev : MbpOutputDev) (g : TextRun) : Bool :=
  horizontal_intersect dev g && decide (spacing dev g > -g.current_space)
    && decide (spacing dev g < (12/5 : ℚ) * g.current_space)

/-- The local `stitch_blocks` of `drawString`; `dev` is the device after
`font_check`. -/
def stitch_blocks (dev : MbpOutputDev) (g : TextRun) : Bool :=
  if same_line dev g then dev.dev_font_has_changed
  else if near_line dev g then dev.dev_font_has_changed
  else false

/-- The local `append` of `drawString`; `dev` is the device after
`font_check`. -/
def append (dev : MbpOutputDev) (g : TextRun) : Bool :=
  if same_line dev g then !dev.dev_font_has_changed
  else if near_line dev g then !dev.dev_font_has_changed
  else false

/-- The local `prepend_space` of `drawString`. -/
def prepend_space (dev : MbpOutputDev) (g : TextRun) : Bool :=
  if same_line dev g then false
  else if near_line dev g then decide (spacing dev g ≥ (3/4 : ℚ) * g.current_space)
  else false

/-- The local `rect` of `drawString` after the stitching step. -/
def stitched_rect (dev : MbpOutputDev) (g : TextRun) : Rect :=
  if stitch_blocks dev g then
    let old_right := g.rect.x + g.rect.width
    let x1 := round dev.last_x + round dev.last_w
    { g.rect with x := x1, width := old_right - x1 }
  else g.rect

/-- The step of `drawString` under the comment "append the new string": when
the run is not appended, the pending block is invalidated (overprint) or
flushed. -/
def start_block (dev : MbpOutputDev) (g : TextRun) : MbpOutputDev :=
  if !append dev g then
    if overprint dev g then invalidate_coalesc_blocks dev else flush_coalesc_blocks dev
  else dev

/-- The step of `drawString` that writes the font tag when the font has
changed. -/
def font_tag (dev : MbpOutputDev) : MbpOutputDev :=
  if dev.dev_font_has_changed then
    { dev with
      dev_font_has_changed := false
      dev_output := dev.dev_output.change_font dev.dev_current_font_face
        dev.dev_current_font_size dev.dev_current_font_color
        dev.dev_current_font_bold dev.dev_current_font_italic }
  else dev

/-- The last step of `drawString`: the geometry of the run is saved. -/
def save_geometry (dev : MbpOutputDev) (g : TextRun) (rect : Rect) : MbpOutputDev :=
  { dev with last_x := g.x, last_y := g.y, last_w := g.width, last_h := g.height,
             last_rect := rect }

/-- The method `MbpOutputDev::drawString`: `handle_string` fills the
conversion buffer, a blank text returns at once, and otherwise the font is
compared, the adjacency is tested on the device `dev2` so obtained, the
pending block is broken or kept, the font tag is written, the text is appended
and the geometry saved. -/
def drawString (dev0 : MbpOutputDev) (g : TextRun) : MbpOutputDev :=
  let dev1 := { dev0 with dev_conversion_buffer := g.text_content }
  if all_blanks dev1.dev_conversion_buffer then dev1
  else
    let dev2 := font_check dev1 g
    save_geometry
      (append_coalesc_block (font_tag (start_block dev2 g)) dev1.dev_conversion_buffer
        (stitched_rect dev2 g) (prepend_space dev2 g))
      g (stitched_rect dev2 g)

/-! ### Images -/

/-- The table `HEXADECIMAL_CHARACTERS`. -/
def HEXADECIMAL_CHARACTERS : List Char :=
  ['0', '1', '2', '3', '4', '5', '6', '7', '8', '9', 'A', 'B', 'C', 'D', 'E', 'F']

/-- The method `MbpOutputDev::compose_image_filename`. -/
def compose_image_filename (base_name : GString) (num : Int) (ext : GString) : GString :=
  base_name ++ ['_', 'p', 'i', 'c']
    ++ (List.range 4).map
        (fun (i : Nat) =>
          HEXADECIMAL_CHARACTERS.getD ((num >>> ((3 - i) * 4)) % 16).toNat default)
    ++ ['.'] ++ ext

/-- What `drawImageOrMask` obtains from its arguments and from the graphics
state: the device images of the corners `(0,1)` and `(1,0)`, the reference
number when `ref` is a reference, whether the stream is a DCT stream, the
number of components and bits of the colour map, and the two flags. -/
structure ImageCall where
  x1 : ℚ
  y1 : ℚ
  x2 : ℚ
  y2 : ℚ
  ref : Option Int
  is_dct : Bool
  num_pixel_comps : Int
  bits : Int
  inline_img : Bool
  mask : Bool

/-- The local `flip` of `drawImageOrMask`. -/
def ImageCall.flip (c : ImageCall) : Int :=
  (if c.x1 > c.x2 then 1 else 0) + (if c.y1 > c.y2 then 2 else 0)

/-- The registry scan of `drawImageOrMask`: the first entry with the same
reference number and the same flip. -/
def find_picture (refs : List PictureReference) (reference flip : Int) :
    Option PictureReference :=
  refs.find? (fun p => decide (p.reference_number = reference) && decide (p.picture_flip = flip))

/-- The method `MbpOutputDev::drawImageOrMask` (the pixel buffers are modelled
separately below). -/
def drawImageOrMask (dev : MbpOutputDev) (c : ImageCall) : MbpOutputDev :=
  let flip_x := decide (c.x1 > c.x2)
  let flip_y := decide (c.y1 > c.y2)
  let x1 := if flip_x then c.x2 else c.x1
  let x2 := if flip_x then c.x1 else c.x2
  let y1 := if flip_y then c.y2 else c.y1
  let y2 := if flip_y then c.y1 else c.y2
  let reference : Int := match c.ref with
    | some n => n
    | none => -1
  let found : Option PictureReference := match c.ref with
    | some n => find_picture dev.dev_picture_references n c.flip
    | none => none
  let r : MbpOutputDev × GString :=
    match found with
    | some p =>
      (dev, compose_image_filename dev.dev_picture_base p.picture_number p.picture_extension)
    | none =>
      let format : ImageFormat :=
        if c.is_dct && (c.mask || decide (c.num_pixel_comps = 3)) && !c.inline_img then
          ImageFormat.jpg_copy
        else if c.mask || (decide (c.num_pixel_comps = 1) && decide (c.bits = 1)) then
          ImageFormat.png_1bit
        else ImageFormat.png_24bit
      let extension : GString := match format with
        | ImageFormat.jpg_copy => ['j', 'p', 'g']
        | _ => ['p', 'n', 'g']
      let number := dev.dev_picture_number + 1
      let pic_file := compose_image_filename dev.dev_picture_base number extension
      let refs :=
        if reference ≠ -1 then
          dev.dev_picture_references ++ [PictureReference.mk reference c.flip number extension]
        else dev.dev_picture_references
      ({ dev with
          dev_picture_number := number
          dev_picture_references := refs
          written_files := dev.written_files ++ [(pic_file, format)] }, pic_file)
  append_image_block r.1 (round x1) (round y1) (round (x2 - x1)) (round (y2 - y1)) r.2

/-! ### Links -/

/-- The kinds `LinkDestKind` of a destination. -/
inductive LinkDestKind where
  | destXYZ
  | destFit
  | destFitH
  | destFitV
  | destFitR
  | destFitB
  | destFitBH
  | destFitBV
deriving DecidableEq

/-- What `drawLink` reads from a `LinkDest`: `isOk`, `isPageRef`, the page
that `catalog->findPage` finds for the page reference, `getPageNum`, the kind,
the two flags, and the device image `(x, y)` of the point
`(getLeft, getTop)` under `dev_page_state->transform`. -/
structure LinkDestInfo where
  is_ok : Bool
  is_page_ref : Bool
  found_page : Int
  page_num : Int
  kind : LinkDestKind
  change_left : Bool
  change_top : Bool
  x : ℚ
  y : ℚ

/-- What `drawLink` reads from the action of a link: `none_or_bad` when the
action is null or not ok; for a URI action `isOk` and `getURI`; for a go-to
action `isOk`, `getDest`, whether there is a named destination and a catalog,
and what `catalog->findDest` returns for the name; `go_to_r` for a link to
another file; `other` for every other kind. -/
inductive LinkActionInfo where
  | none_or_bad
  | uri (is_ok : Bool) (dest : Option GString)
  | go_to (is_ok : Bool) (dest : Option LinkDestInfo) (named : Bool)
      (found_dest : Option LinkDestInfo)
  | go_to_r
  | other

/-- What `drawLink` obtains from its arguments: whether the link is non-null
and ok, the device image `(x, y)` of the corner `(x1, y1)` of the link
rectangle, the device image `(dx, dy)` of its diagonal, and the action. -/
structure LinkCall where
  is_ok : Bool
  x : ℚ
  y : ℚ
  dx : ℚ
  dy : ℚ
  action : LinkActionInfo

/-- The local `active_rect` of `drawLink`. -/
def LinkCall.active_rect (l : LinkCall) : Rect :=
  { x := round l.x, y := round l.y, width := round l.dx, height := round l.dy }

/-- The local `page` of `drawLink`: the destination page counted from 1. -/
def LinkDestInfo.page (d : LinkDestInfo) : Int :=
  if d.is_page_ref then d.found_page else d.page_num

/-- The method `MbpOutputDev::drawLink`. -/
def drawLink (dev : MbpOutputDev) (l : LinkCall) : MbpOutputDev :=
  if l.is_ok && dev.dev_page_state then
    match l.action with
    | LinkActionInfo.uri is_ok dest =>
      if is_ok then
        match dest with
        | some url => { dev with dev_output := dev.dev_output.add_link_url l.active_rect url }
        | none => dev
      else dev
    | LinkActionInfo.go_to is_ok dest named found_dest =>
      if is_ok then
        let link_dest := if named then found_dest else dest
        match link_dest with
        | some d =>
          if d.is_ok then
            match d.kind with
            | LinkDestKind.destXYZ =>
              if d.change_left && d.change_top then
                { dev with dev_output :=
                    dev.dev_output.add_link l.active_rect (d.page - 1) (round d.x) (round d.y) }
              else dev
            | _ =>
              { dev with dev_output := dev.dev_output.add_link l.active_rect (d.page - 1) 0 0 }
          else dev
        | none => dev
      else dev
    | _ => dev
  else dev

/-! ### Callback sequences -/

/-- The callbacks that the traversal of a document sends to the device. -/
inductive Callback where
  | startPage (page_w page_h : ℚ)
  | endPage
  | updateFont (font : Option FontInfo)
  | drawString (g : TextRun)
  | drawImage (c : ImageCall)
  | drawLink (l : LinkCall)

/-- One callback. -/
def step (dev : MbpOutputDev) : Callback → MbpOutputDev
  | Callback.startPage w h => startPage dev w h
  | Callback.endPage => endPage dev
  | Callback.updateFont f => updateFont dev f
  | Callback.drawString g => drawString dev g
  | Callback.drawImage c => drawImageOrMask dev c
  | Callback.drawLink l => drawLink dev l

/-- A sequence of callbacks, in order. -/
def run (dev : MbpOutputDev) (cs : List Callback) : MbpOutputDev :=
  cs.foldl step dev

/-! ### The 1-bit path of `drawImageOrMask` -/

/-- The pixel buffer `data`: the byte stored at each index. -/
abbrev Buffer := Int → Nat

/-- The conversion `(unsigned char) str->getChar()`. -/
def to_uchar (c : Int) : Nat := (c % 256).toNat

/-- The text with every 0x20 byte deleted. -/
def strip_spaces (s : GString) : GString := s.filter (fun c => decide (c ≠ Char.ofNat 0x20))

/-- The text does not end with a 0x20 byte. -/
def no_trailing_space (s : GString) : Prop := s.getLast? ≠ some (Char.ofNat 0x20)

/-- Whether an element of the XML file is a text block. -/
def is_text_block : XmlItem → Bool
  | XmlItem.text_block _ _ => true
  | _ => false

/-- The number of text blocks in a part of the XML file. -/
def text_block_count (items : List XmlItem) : Nat := items.countP is_text_block

/-- The text carried by an element of the XML file: the text of a text block,
nothing for any other element. -/
def item_text : XmlItem → GString
  | XmlItem.text_block str _ => str
  | _ => []

/-- The concatenation, in file order, of the texts of the text blocks. -/
def emitted_text : List XmlItem → GString
  | [] => []
  | it :: rest => item_text it ++ emitted_text rest

/-- The elements written to the XML file between two states of the device. -/
def emitted (before after : MbpOutputDev) : List XmlItem :=
  after.dev_output.file.drop before.dev_output.file.length

/-- The text of the pending block: its content when it is valid. -/
def pending_text (dev : MbpOutputDev) : GString :=
  if dev.dev_coalesc_valid then dev.dev_coalesc_content else []

/-- The concatenation, in call order, of the texts of the non-blank fragments
of a callback sequence. -/
def fragment_text : List Callback → GString
  | [] => []
  | Callback.drawString g :: cs =>
    (if all_blanks g.text_content then [] else g.text_content) ++ fragment_text cs
  | _ :: cs => fragment_text cs

/-- The callbacks that may occur between the start and the end of a page
without ending the pending block's page: text, images and font updates. -/
def is_content_callback : Callback → Bool
  | Callback.drawString _ => true
  | Callback.drawImage _ => true
  | Callback.updateFont _ => true
  | _ => false

/-- No fragment of the sequence is classified as an overprint duplicate by
`drawString` (the local `overprint` stays false at every non-blank fragment). -/
def no_overprint : MbpOutputDev → List Callback → Prop
  | _, [] => True
  | d, Callback.drawString g :: cs =>
    (all_blanks g.text_content = true ∨ overprint d g = false)
      ∧ no_overprint (drawString d g) cs
  | d, c :: cs => no_overprint (step d c) cs

/-- The callbacks that write nothing and leave the pending block alone: font
updates and blank text. -/
def writes_nothing : Callback → Bool
  | Callback.updateFont _ => true
  | Callback.drawString g => all_blanks g.text_content
  | _ => false

/-- The callbacks that may come between two fragments of a page without
being a fragment themselves: font updates, blank text and images. -/
def draws_no_text : Callback → Bool
  | Callback.updateFont _ => true
  | Callback.drawString g => all_blanks g.text_content
  | Callback.drawImage _ => true
  | _ => false

/-! ### Concrete devices and runs -/

/-- The constructor `XmlOutput::XmlOutput`. -/
def XmlOutput.new : XmlOutput := { file := [], page_opened := false, font_opened := false }

/-- The constructor `MbpOutputDev::MbpOutputDev`.  The fields that the
constructor leaves uninitialised (`startPage` sets them before use) are given
the value zero or false here. -/
def MbpOutputDev.new (target : XmlOutput) (picture_base_name : GString) : MbpOutputDev :=
  { dev_output := target
    dev_page_state := false
    dev_current_font_face := []
    dev_current_font_bold := false
    dev_current_font_italic := false
    dev_current_font_size := 0
    dev_current_font_color := 0
    dev_font_has_changed := false
    last_x := 0
    last_y := 0
    last_w := 0
    last_h := 0
    last_page_w := 0
    last_page_h := 0
    last_rect := { x := 0, y := 0, width := 0, height := 0 }
    dev_coalesc_content := []
    dev_coalesc_rect := { x := 0, y := 0, width := 0, height := 0 }
    dev_coalesc_valid := false
    dev_picture_references := []
    dev_picture_base := picture_base_name
    dev_picture_number := 0
    dev_conversion_buffer := []
    written_files := [] }

/-- A text run in a 12 unit black upright font whose space is 4 units wide. -/
def sample_run (text : GString) (x y width height : ℚ) : TextRun :=
  { text_content := text, width := width, height := height, current_space := 4,
    x := x, y := y, italic_dx := 0, font_size := -12, rgb_r := 0, rgb_g := 0, rgb_b := 0 }

/-- A device at the start of a page of 612 by 792 units. -/
def sample_page : MbpOutputDev := startPage (MbpOutputDev.new XmlOutput.new ['d', 'o', 'c']) 612 792

/-- The run "Hello" at (100, 100), 50 by 12 units. -/
def sample_hello : TextRun := sample_run ['H', 'e', 'l', 'l', 'o'] 100 100 50 12

/-- The device after "Hello" has been drawn on the sample page. -/
def sample_pending : MbpOutputDev := drawString sample_page sample_hello

/-- The run "World", 50 by 12 units, drawn at half a space after "Hello". -/
def sample_world : TextRun := sample_run ['W', 'o', 'r', 'l', 'd'] 152 100 50 12

/-- An image of a stencil mask drawn at (200, 300), 40 by 30 units, with the
reference number 7. -/
def sample_image : ImageCall :=
  { x1 := 200, y1 := 300, x2 := 240, y2 := 330, ref := some 7, is_dct := false,
    num_pixel_comps := 1, bits := 1, inline_img := false, mask := true }

/-- The device with the pending block "a" on the sample page. -/
def sample_a : MbpOutputDev := drawString sample_page (sample_run ['a'] 100 100 6 12)

/-- "Hello" drawn again 20 units to the right: half of each rectangle overlaps. -/
def sample_half_over : TextRun := sample_run ['H', 'e', 'l', 'l', 'o'] 140 100 80 12

/-- "Hello", 80 units wide. -/
def sample_wide : TextRun := sample_run ['H', 'e', 'l', 'l', 'o'] 100 100 80 12

/-- "Hello" drawn again two units to the right and one unit lower. -/
def sample_shadow : TextRun := sample_run ['H', 'e', 'l', 'l', 'o'] 102 101 50 12

/-- A font update to a bold face named "F" of the same size. -/
def sample_bold : Callback :=
  Callback.updateFont (some { name := ['F'], bold := true, italic := false, font_size := -12 })

/-! ### File names and the picture registry: vocabulary and samples -/

/-- The value of an uppercase hexadecimal digit (zero for any other
character). -/
def hex_digit_value (c : Char) : Nat :=
  if 48 ≤ c.toNat ∧ c.toNat ≤ 57 then c.toNat - 48
  else if 65 ≤ c.toNat ∧ c.toNat ≤ 70 then c.toNat - 55
  else 0

/-- A sequence of hexadecimal digits read as a number, the most significant
digit first. -/
def read_hex (s : List Char) : Nat := s.foldl (fun acc c => 16 * acc + hex_digit_value c) 0

/-- The uppercase hexadecimal digit of a value below 16. -/
def hex_digit (d : Nat) : Char := if d < 10 then Char.ofNat (48 + d) else Char.ofNat (55 + d)

/-- The four-character zero-padded uppercase hexadecimal representation of a
number, as the specification of the file names words it. -/
def hex4 (n : Nat) : List Char :=
  [hex_digit (n / 4096 % 16), hex_digit (n / 256 % 16), hex_digit (n / 16 % 16),
   hex_digit (n % 16)]

/-- An inline picture in a DCT stream with three colour components. -/
def sample_inline_dct : ImageCall :=
  { x1 := 0, y1 := 0, x2 := 10, y2 := 10, ref := none, is_dct := true,
    num_pixel_comps := 3, bits := 8, inline_img := true, mask := false }

/-- A stencil mask in a DCT stream, with the reference number 9. -/
def sample_mask_dct : ImageCall :=
  { x1 := 0, y1 := 0, x2 := 10, y2 := 10, ref := some 9, is_dct := true,
    num_pixel_comps := 1, bits := 1, inline_img := false, mask := true }

/-- The local `relname` of `append_image_block`: the file name after its last
path separator. -/
def relname (pic_filename : GString) : GString :=
  pic_filename.drop (last_path_separator_index pic_filename + 1).toNat

/-- The sample image drawn again at another place. -/
def sample_image_again : ImageCall := { sample_image with x1 := 50, y1 := 60, x2 := 90, y2 := 90 }

/-- The sample image drawn flipped in x. -/
def sample_image_flipped : ImageCall := { sample_image with x1 := 240, x2 := 200 }

/-! ### The 24-bit path of `drawImageOrMask` -/

/-- The C string that starts at the index `i` of a buffer: the bytes up to the
first zero byte; `fuel` bounds the number of bytes read. -/
def c_string (buf : Buffer) : Nat → Int → GString
  | 0, _ => []
  | fuel + 1, i => if buf i = 0 then [] else Char.ofNat (buf i) :: c_string buf fuel (i + 1)

/-- The state of the loop of `XmlOutput::write(int)`: the buffer
`char_number`, `index` and `number`. -/
structure DigitState where
  char_number : Buffer
  index : Int
  number : Int

/-- One pass through `for (index = 10; (index >= 0) && (number != 0); index--)`
of `XmlOutput::write(int)`: the body when the condition holds; once the loop
has been left the state stays.  The operators `%` and `/` of C truncate toward
zero. -/
def write_digit (st : DigitState) : DigitState :=
  if st.index ≥ 0 ∧ st.number ≠ 0 then
    { char_number :=
        Function.update st.char_number st.index (to_uchar (48 + st.number.tmod 10))
      index := st.index - 1
      number := st.number.tdiv 10 }
  else st

/-- The method `XmlOutput::write(int)`: the characters that it hands to
`write(const char*)`.  `char_number0` is the content of the static buffer
before the call; `number = -number` is computed in `int`; as `index` goes down
from 10 the loop is left after 11 passes at most. -/
def write_int (char_number0 : Buffer) (number : Int) : GString :=
  let b0 := Function.update char_number0 11 0
  if number = 0 then c_string (Function.update b0 10 48) 2 10
  else
    let negative := decide (number < 0)
    let number1 := if number < 0 then to_int (-number) else number
    let st := write_digit^[11] { char_number := b0, index := 10, number := number1 }
    let st1 : DigitState :=
      if negative then
        { st with
          char_number := Function.update st.char_number st.index 45
          index := st.index - 1 }
      else st
    c_string st1.char_number 12 (st1.index + 1)

/-- The canonical decimal representation of an integer, as the specification
words it: the single character "0" for zero, and otherwise a leading '-' when
the number is negative followed by the decimal digits of its absolute value,
the most significant first, without leading zeros. -/
def decimal (n : Int) : GString :=
  if n = 0 then ['0']
  else (if n < 0 then ['-'] else [])
    ++ ((Nat.digits 10 n.natAbs).reverse.map (fun d => Char.ofNat (48 + d)))

/-- The characters that `write(const char*)` writes for the content of a
`GString`: those before the first zero byte. -/
def c_str (s : GString) : GString := s.takeWhile (fun c => decide (c ≠ Char.ofNat 0))

/-- The characters written by `XmlOutput::write(int)`; the static buffer is
taken to hold zeros, as what is written does not depend on its content
(`write_int_static`). -/
def write_number (number : Int) : GString := write_int (fun _ => 0) number

/-- The characters written by the macro `WRITE_BOUNDS`. -/
def write_bounds (rect : Rect) : GString :=
  write_number rect.x ++ "\" y=\"".toList ++ write_number rect.y
    ++ "\" width=\"".toList ++ write_number rect.width
    ++ "\" height=\"".toList ++ write_number rect.height

/-- The local `number` of `XmlOutput::change_font`: the six characters
`HEXADECIMAL_CHARACTERS[(color >> ((5 - i) << 2)) & 0x0F]`. -/
def color_number (color : Int) : GString :=
  (List.range 6).map
    (fun (i : Nat) =>
      HEXADECIMAL_CHARACTERS.getD ((color >>> ((5 - i) <<< 2 : Nat)) % 16).toNat default)

/-- The characters that the methods of `XmlOutput` write for an element: the
sequence of the `write` calls of `start_page`, `change_font`, `add_link`,
`add_text_block`, `add_image_block` and of the tail of `load_from_pdf`. -/
def XmlItem.render : XmlItem → GString
  | XmlItem.font_close => "    </font>\n".toList
  | XmlItem.page_close => "  </page>\n".toList
  | XmlItem.page_open width height =>
    "  <page width=\"".toList ++ write_number width ++ "\" height=\"".toList
      ++ write_number height ++ "\">\n".toList
  | XmlItem.font_open face size color bold italic =>
    "    <font size=\"".toList ++ write_number size
      ++ (if face.length > 0 then "\" face=\"".toList ++ c_str face else [])
      ++ (if color ≠ 0 then "\" color=\"#".toList ++ color_number color else [])
      ++ (if bold then "\" bold=\"true".toList else [])
      ++ (if italic then "\" italic=\"true".toList else [])
      ++ "\">\n".toList
  | XmlItem.text_block str rect =>
    "      <text x=\"".toList ++ write_bounds rect ++ "\">".toList ++ c_str str
      ++ "</text>\n".toList
  | XmlItem.image_block filename rect =>
    "      <img x=\"".toList ++ write_bounds rect ++ "\" src=\"".toList ++ c_str filename
      ++ "\"/>\n".toList
  | XmlItem.link_dest rect dest_page dest_x dest_y =>
    "      <link x=\"".toList ++ write_bounds rect ++ "\" dest_page=\"".toList
      ++ write_number dest_page ++ "\" dest_x=\"".toList ++ write_number dest_x
      ++ "\" dest_y=\"".toList ++ write_number dest_y ++ "\"/>".toList
  | XmlItem.link_url rect dest_url =>
    "      <link x=\"".toList ++ write_bounds rect ++ "\" href=\"".toList ++ c_str dest_url
      ++ "\"/>".toList
  | XmlItem.document_close => "</pdf2xml>\n".toList

/-- An attribute of an XML tag, as the specification words the tags: a blank,
the name, and the value between double quotes. -/
def xml_attribute (name value : GString) : GString :=
  [' '] ++ name ++ ['=', '"'] ++ value ++ ['"']

/-- The six-character zero-padded uppercase hexadecimal representation of a
number, as the specification words the colour of a font. -/
def hex6 (n : Nat) : List Char :=
  [hex_digit (n / 1048576 % 16), hex_digit (n / 65536 % 16), hex_digit (n / 4096 % 16),
   hex_digit (n / 256 % 16), hex_digit (n / 16 % 16), hex_digit (n % 16)]

/-- A link to the address "http://x.org/?a=1&b=2" over the rectangle at
(10, 20), 30 by 12 units. -/
def sample_uri_link : LinkCall :=
  { is_ok := true, x := 10, y := 20, dx := 30, dy := 12,
    action := LinkActionInfo.uri true (some "http://x.org/?a=1&b=2".toList) }

/-- A destination of kind XYZ on the page 3 (counted from 1) with both flags
set, at the device point (50, 60). -/
def sample_dest : LinkDestInfo :=
  { is_ok := true, is_page_ref := false, found_page := 0, page_num := 3,
    kind := LinkDestKind.destXYZ, change_left := true, change_top := true, x := 50, y := 60 }

/-- A go-to link to `sample_dest` over the rectangle at (10, 20), 30 by 12
units. -/
def sample_goto_link : LinkCall :=
  { is_ok := true, x := 10, y := 20, dx := 30, dy := 12,
    action := LinkActionInfo.go_to true (some sample_dest) false none }

/-! ### Metadata -/

/-- Modelled from the spec: `mapUTF8` of xpdf, whose source is not among the
files; the specification has the value transcoded to UTF-8.  The bytes of the
UTF-8 encoding of the code point `u`, which `add_metatag` appends to
`utf8_value` (the buffer, of six bytes per byte of the value, is long
enough): one byte up to 0x7F, two up to 0x7FF, three up to 0xFFFF, four up to
0x10FFFF, none beyond. -/
def mapUTF8 (u : Nat) : List Nat :=
  if u ≤ 0x7F then [u]
  else if u ≤ 0x7FF then [0xC0 + u / 64, 0x80 + u % 64]
  else if u ≤ 0xFFFF then [0xE0 + u / 4096, 0x80 + u / 64 % 64, 0x80 + u % 64]
  else if u ≤ 0x10FFFF then
    [0xF0 + u / 262144, 0x80 + u / 4096 % 64, 0x80 + u / 64 % 64, 0x80 + u % 64]
  else []

/-- The values of `u` in the loop of `XmlOutput::add_metatag` over a UTF-16
value: one for every two bytes, the low byte first when `endianness` is true. -/
def metatag_units (endianness : Bool) : List Nat → List Nat
  | a :: b :: rest =>
    (if endianness then a + b * 256 else a * 256 + b) :: metatag_units endianness rest
  | _ => []

/-- The conversion `(Unicode) char_value[i]` of a `char`, a signed byte, to
`Unicode`, an unsigned number of 32 bits. -/
def char_to_unicode (b : Nat) : Nat := if b < 128 then b else b + 4294967040

/-- The `switch (u)` of `XmlOutput::add_metatag`: the bytes appended to
`utf8_value` for one value of `u`. -/
def metatag_bytes (is_unicode : Bool) (u : Nat) : List Nat :=
  if u = 0x3C then [0x26, 0x6C, 0x74, 0x3B]
  else if u = 0x3E then [0x26, 0x67, 0x74, 0x3B]
  else if u = 0x26 then [0x26, 0x61, 0x6D, 0x70, 0x3B]
  else if is_unicode then mapUTF8 u
  else [u % 256]

/-- The method `XmlOutput::add_metatag`: the value returned and the
characters written; `value` is `none` for a null pointer.  The method does not
collect the results of its `write` calls. -/
def add_metatag (tag : GString) (value : Option GString) : Bool × GString :=
  match value with
  | none => (true, [])
  | some v =>
    let char_value := v.map Char.toNat
    let length := char_value.length
    let start_index0 :=
      if length ≥ 3 ∧ char_value.getD 0 0 = 0xEF ∧ char_value.getD 1 0 = 0xBB
          ∧ char_value.getD 2 0 = 0xBF then 3 else 0
    let is_utf16 := decide (start_index0 = 0 ∧ length ≥ 2)
    let little := is_utf16 && decide (char_value.getD 0 0 = 0xFF ∧ char_value.getD 1 0 = 0xFE)
    let big := is_utf16 && !little
      && decide (char_value.getD 0 0 = 0xFE ∧ char_value.getD 1 0 = 0xFF)
    let is_unicode := little || big
    let endianness := little
    let start_index := if is_unicode then 2 else start_index0
    let end_index := if is_unicode then (length >>> 1) <<< 1 else length
    let read := (char_value.take end_index).drop start_index
    let units :=
      if is_unicode then metatag_units endianness read else read.map char_to_unicode
    let utf8_value := (units.map (metatag_bytes is_unicode)).flatten
    (false, "  <".toList ++ c_str tag ++ ">".toList ++ c_str (utf8_value.map Char.ofNat)
      ++ "</".toList ++ c_str tag ++ ">\n".toList)

/-- The UTF-16 code units of a Unicode scalar value, as the standard defines
them: the value itself below 0x10000, a pair of surrogates above. -/
def utf16_units (c : Nat) : List Nat :=
  if c < 0x10000 then [c]
  else [0xD800 + (c - 0x10000) / 1024, 0xDC00 + (c - 0x10000) % 1024]

/-- The bytes of the big-endian UTF-16 encoding of a text, given by its
scalar values. -/
def utf16be (text : List Nat) : List Nat :=
  ((text.map utf16_units).flatten.map (fun u => [u / 256, u % 256])).flatten

/-- The bytes of the UTF-8 encoding of a Unicode scalar value, as the
standard defines them. -/
def utf8_bytes (c : Nat) : List Nat :=
  if c < 0x80 then [c]
  else if c < 0x800 then [0xC0 + c / 64, 0x80 + c % 64]
  else if c < 0x10000 then [0xE0 + c / 4096, 0x80 + c / 64 % 64, 0x80 + c % 64]
  else [0xF0 + c / 262144, 0x80 + c / 4096 % 64, 0x80 + c / 64 % 64, 0x80 + c % 64]

/-- The bytes that the specification has written for a text: its UTF-8
encoding with each '<', '>' and '&' replaced by "&lt;", "&gt;" and "&amp;". -/
def escaped_utf8 (text : List Nat) : List Nat :=
  (text.map (fun c =>
    if c = 0x3C then "&lt;".toList.map Char.toNat
    else if c = 0x3E then "&gt;".toList.map Char.toNat
    else if c = 0x26 then "&amp;".toList.map Char.toNat
    else utf8_bytes c)).flatten

/-- The characters of a sequence of bytes. -/
def bytes_string (bytes : List Nat) : GString := bytes.map Char.ofNat

/-- The text "a<é€": four characters of the Basic Multilingual Plane. -/
def sample_bmp_text : List Nat := [0x61, 0x3C, 0xE9, 0x20AC]

/-- The text of the one character U+1F600, which lies beyond the Basic
Multilingual Plane. -/
def sample_astral_text : List Nat := [0x1F600]

/-! ### Pages -/

/-- Whether a callback may come next in a traversal made of pages, each a
`startPage`, then font updates, text, images and links in any order, then an
`endPage`; `inside` tells whether a page has been started and not ended, and
the result whether that is so after the callback. -/
def page_step (inside : Bool) : Callback → Option Bool
  | Callback.startPage _ _ => if inside then none else some true
  | Callback.endPage => if inside then some false else none
  | _ => if inside then some true else none

/-- A sequence of callbacks made of pages; it starts inside a page when
`inside` is true and ends outside of any page. -/
def page_sequence : Bool → List Callback → Bool
  | inside, [] => !inside
  | inside, c :: cs =>
    match page_step inside c with
    | some next => page_sequence next cs
    | none => false

/-- The state of the device inside a page: the page tag is open, and the font
tag is open when there is a pending block and when the font is not marked as
changed. -/
def page_invariant (inside : Bool) (d : MbpOutputDev) : Prop :=
  inside = true →
    d.dev_output.page_opened = true
    ∧ (d.dev_coalesc_valid = true → d.dev_output.font_opened = true)
    ∧ (d.dev_font_has_changed = false → d.dev_output.font_opened = true)

/-- Two pages: "Hello" and an image on the first, a link on the second. -/
def sample_pages : List Callback :=
  [Callback.startPage 612 792, Callback.drawString sample_hello, Callback.drawImage sample_image,
   Callback.endPage, Callback.startPage 612 792, Callback.drawLink sample_uri_link,
   Callback.endPage]

/-- "Hello" in a rectangle of 512 by 65536 units at the origin. -/
def sample_large : TextRun := sample_run ['H', 'e', 'l', 'l', 'o'] 0 0 512 65536

/-- "Hello" in a rectangle of 512 by 65536 units at (255, 255): it shares
16777217 of its 33554432 square units with `sample_large`. -/
def sample_large_over : TextRun := sample_run ['H', 'e', 'l', 'l', 'o'] 255 255 512 65536

/-- "Hello", 6 by 12 units, at the height -1000 that `startPage` gives to the
previous fragment, three units left of the end of that fragment. -/
def sample_sentinel : TextRun := sample_run ['H', 'e', 'l', 'l', 'o'] (-2003) (-1000) 6 12

theorem all_blanks_iff (t : GString) :
    all_blanks t = true ↔
      ∀ c ∈ t, c = Char.ofNat 0x20 ∨ c = Char.ofNat 0x0A ∨ c = Char.ofNat 0x0D := by
  induction t with
  | nil => simp [all_blanks]
  | cons c cs ih =>
    simp only [all_blanks, List.mem_cons, forall_eq_or_imp]
    split_ifs with h
    · simp only [Bool.false_eq_true, false_iff, not_and]
      intro h1
      exfalso
      tauto
    · rw [ih]
      constructor
      · intro h'
        refine ⟨?_, h'⟩
        by_contra h2
        exact h (by tauto)
      · exact fun h' => h'.2

theorem font_check_eq (dev : MbpOutputDev) (g : TextRun) :
    font_check dev g =
      { dev with
        dev_current_font_italic := decide (g.italic_dx ≠ 0)
        dev_current_font_color := g.rgb_color
        dev_current_font_size := round (-g.font_size)
        dev_font_has_changed :=
          dev.dev_font_has_changed
          || decide (dev.dev_current_font_italic ≠ decide (g.italic_dx ≠ 0))
          || decide (g.rgb_color ≠ dev.dev_current_font_color)
          || decide (round (-g.font_size) ≠ dev.dev_current_font_size) } := by
  unfold font_check
  generalize decide (g.italic_dx ≠ 0) = ni
  rcases dev with ⟨o, ps, face, bold, it, sz, col, ch⟩
  simp only []
  by_cases h1 : it = ni <;> by_cases h2 : g.rgb_color = col <;>
    by_cases h3 : round (-g.font_size) = sz <;> simp [h1, h2, h3]

theorem font_check_conv (dev : MbpOutputDev) (t : GString) (g : TextRun) :
    font_check { dev with dev_conversion_buffer := t } g
      = { font_check dev g with dev_conversion_buffer := t } := by
  simp only [font_check_eq]

theorem font_check_frame (dev : MbpOutputDev) (g : TextRun) :
    (font_check dev g).dev_output = dev.dev_output
    ∧ (font_check dev g).dev_coalesc_valid = dev.dev_coalesc_valid
    ∧ (font_check dev g).dev_coalesc_content = dev.dev_coalesc_content
    ∧ (font_check dev g).dev_coalesc_rect = dev.dev_coalesc_rect
    ∧ overprint (font_check dev g) g = overprint dev g
    ∧ prepend_space (font_check dev g) g = prepend_space dev g
    ∧ same_line (font_check dev g) g = same_line dev g
    ∧ near_line (font_check dev g) g = near_line dev g
    ∧ (font_check dev g).last_x = dev.last_x
    ∧ (font_check dev g).last_w = dev.last_w
    ∧ (font_check dev g).last_rect = dev.last_rect := by
  rw [font_check_eq]
  exact ⟨rfl, rfl, rfl, rfl, rfl, rfl, rfl, rfl, rfl, rfl, rfl⟩

theorem append_conv (d : MbpOutputDev) (t : GString) (g : TextRun) :
    append { d with dev_conversion_buffer := t } g = append d g := rfl

theorem overprint_conv (d : MbpOutputDev) (t : GString) (g : TextRun) :
    overprint { d with dev_conversion_buffer := t } g = overprint d g := rfl

theorem prepend_space_conv (d : MbpOutputDev) (t : GString) (g : TextRun) :
    prepend_space { d with dev_conversion_buffer := t } g = prepend_space d g := rfl

theorem stitched_rect_conv (d : MbpOutputDev) (t : GString) (g : TextRun) :
    stitched_rect { d with dev_conversion_buffer := t } g = stitched_rect d g := rfl

theorem flush_coalesc_blocks_eq (dev : MbpOutputDev) :
    flush_coalesc_blocks dev =
      { dev with
        dev_output :=
          { dev.dev_output with
            file := dev.dev_output.file
              ++ (if dev.dev_coalesc_valid = true
                  then [XmlItem.text_block dev.dev_coalesc_content dev.dev_coalesc_rect]
                  else []) }
        dev_coalesc_valid := false } := by
  unfold flush_coalesc_blocks invalidate_coalesc_blocks XmlOutput.add_text_block
  cases dev
  simp only []
  split_ifs <;> simp

theorem start_block_eq (dev : MbpOutputDev) (g : TextRun) :
    start_block dev g =
      { dev with
        dev_output :=
          { dev.dev_output with
            file := dev.dev_output.file
              ++ (if (!append dev g && !overprint dev g && dev.dev_coalesc_valid) = true
                  then [XmlItem.text_block dev.dev_coalesc_content dev.dev_coalesc_rect]
                  else []) }
        dev_coalesc_valid := append dev g && dev.dev_coalesc_valid } := by
  unfold start_block
  rw [flush_coalesc_blocks_eq]
  unfold invalidate_coalesc_blocks
  cases append dev g <;> cases overprint dev g <;> cases dev <;> simp

theorem font_tag_eq (dev : MbpOutputDev) :
    font_tag dev =
      { dev with
        dev_font_has_changed := false
        dev_output :=
          { file := dev.dev_output.file
              ++ (if dev.dev_font_has_changed = true
                  then (if dev.dev_output.font_opened = true then [XmlItem.font_close] else [])
                    ++ [XmlItem.font_open dev.dev_current_font_face dev.dev_current_font_size
                          dev.dev_current_font_color dev.dev_current_font_bold
                          dev.dev_current_font_italic]
                  else [])
            page_opened := dev.dev_output.page_opened
            font_opened := dev.dev_output.font_opened || dev.dev_font_has_changed } } := by
  unfold font_tag XmlOutput.change_font
  rcases dev with ⟨⟨file, po, fo⟩, _⟩
  simp only []
  split_ifs <;> simp_all

theorem drawString_spec (dev : MbpOutputDev) (g : TextRun)
    (hnb : all_blanks g.text_content = false) :
    (drawString dev g).dev_output.file
      = dev.dev_output.file
        ++ (if (!append (font_check dev g) g && !overprint dev g && dev.dev_coalesc_valid) = true
            then [XmlItem.text_block dev.dev_coalesc_content dev.dev_coalesc_rect] else [])
        ++ (if (font_check dev g).dev_font_has_changed = true
            then (if dev.dev_output.font_opened = true then [XmlItem.font_close] else [])
              ++ [XmlItem.font_open (font_check dev g).dev_current_font_face
                    (font_check dev g).dev_current_font_size
                    (font_check dev g).dev_current_font_color
                    (font_check dev g).dev_current_font_bold
                    (font_check dev g).dev_current_font_italic]
            else [])
    ∧ (drawString dev g).dev_coalesc_valid = true
    ∧ (drawString dev g).dev_coalesc_content
        = (if (append (font_check dev g) g && dev.dev_coalesc_valid) = true
            then dev.dev_coalesc_content else [])
          ++ (if prepend_space dev g = true then [Char.ofNat 0x20] else []) ++ g.text_content
    ∧ (drawString dev g).dev_coalesc_rect
        = (if (append (font_check dev g) g && dev.dev_coalesc_valid) = true
            then dev.dev_coalesc_rect
            else { x := 0, y := 0, width := 0, height := 0 }).enlarge_to_contain
            (stitched_rect (font_check dev g) g)
    ∧ (drawString dev g).last_rect = stitched_rect (font_check dev g) g
    ∧ (drawString dev g).last_x = g.x ∧ (drawString dev g).last_y = g.y
    ∧ (drawString dev g).last_w = g.width ∧ (drawString dev g).last_h = g.height
    ∧ (drawString dev g).dev_font_has_changed = false
    ∧ (drawString dev g).dev_output.page_opened = dev.dev_output.page_opened
    ∧ (drawString dev g).dev_output.font_opened
        = (dev.dev_output.font_opened || (font_check dev g).dev_font_has_changed) := by
  obtain ⟨h1, h2, h3, h4, h5, h6, -⟩ := font_check_frame dev g
  unfold drawString
  simp only [hnb, Bool.false_eq_true, if_false, font_check_conv, save_geometry,
    append_coalesc_block, font_tag_eq, start_block_eq, append_conv, overprint_conv,
    prepend_space_conv, stitched_rect_conv]
  rw [← h1, ← h2, ← h3, ← h4, ← h5, ← h6]
  generalize font_check dev g = d2
  generalize append d2 g = ap
  generalize overprint d2 g = ov
  generalize prepend_space d2 g = ps
  generalize stitched_rect d2 g = sr
  cases ap <;> cases ov <;> cases ps <;> cases hv : d2.dev_coalesc_valid <;>
    cases hch : d2.dev_font_has_changed <;> simp [hv, hch]

theorem append_image_block_eq (dev : MbpOutputDev) (x y width height : Int)
    (pic_filename : GString) :
    append_image_block dev x y width height pic_filename =
      { dev with
        dev_output :=
          { dev.dev_output with
            file := dev.dev_output.file
              ++ (if dev.dev_coalesc_valid = true
                  then [XmlItem.text_block dev.dev_coalesc_content dev.dev_coalesc_rect]
                  else [])
              ++ [XmlItem.image_block
                    (pic_filename.drop (last_path_separator_index pic_filename + 1).toNat)
                    { x := x, y := y, width := width, height := height }] }
        dev_coalesc_valid := false } := by
  unfold append_image_block XmlOutput.add_image_block
  simp only [flush_coalesc_blocks_eq]

/-- The effect of an image callback on the XML file and on the text state. -/
theorem drawImageOrMask_spec (dev : MbpOutputDev) (c : ImageCall) :
    (∃ name r, (drawImageOrMask dev c).dev_output.file
        = dev.dev_output.file
          ++ (if dev.dev_coalesc_valid = true
              then [XmlItem.text_block dev.dev_coalesc_content dev.dev_coalesc_rect] else [])
          ++ [XmlItem.image_block name r])
    ∧ (drawImageOrMask dev c).dev_coalesc_valid = false
    ∧ (drawImageOrMask dev c).dev_output.page_opened = dev.dev_output.page_opened
    ∧ (drawImageOrMask dev c).dev_output.font_opened = dev.dev_output.font_opened
    ∧ (drawImageOrMask dev c).dev_font_has_changed = dev.dev_font_has_changed := by
  unfold drawImageOrMask
  simp only [append_image_block_eq]
  split <;> exact ⟨⟨_, _, rfl⟩, trivial, rfl, rfl, rfl⟩

theorem endPage_eq (dev : MbpOutputDev) :
    endPage dev =
      { dev with
        dev_output :=
          { dev.dev_output with
            file := dev.dev_output.file
              ++ (if dev.dev_coalesc_valid = true
                  then [XmlItem.text_block dev.dev_coalesc_content dev.dev_coalesc_rect]
                  else []) }
        dev_coalesc_valid := false
        dev_page_state := false } := by
  unfold endPage
  simp only [flush_coalesc_blocks_eq]


theorem stitched_rect_right (d : MbpOutputDev) (g : TextRun) :
    (stitched_rect d g).x + (stitched_rect d g).width = g.rect.x + g.rect.width
    ∧ (stitched_rect d g).y = g.rect.y ∧ (stitched_rect d g).height = g.rect.height := by
  unfold stitched_rect
  split_ifs
  · refine ⟨?_, rfl, rfl⟩
    simp only []
    omega
  · exact ⟨rfl, rfl, rfl⟩

theorem stitch_blocks_true (d : MbpOutputDev) (g : TextRun) (h : stitch_blocks d g = true) :
    d.dev_font_has_changed = true ∧ append d g = false
    ∧ (stitched_rect d g).x = round d.last_x + round d.last_w := by
  have hx : (stitched_rect d g).x = round d.last_x + round d.last_w := by
    simp only [stitched_rect, h, if_true]
  unfold stitch_blocks at h
  unfold append
  split_ifs at h ⊢ with h1 h2
  · exact ⟨h, by simp [h], hx⟩
  · exact ⟨h, by simp [h], hx⟩


theorem strip_spaces_cons_space (l : GString) :
    strip_spaces (Char.ofNat 0x20 :: l) = strip_spaces l := by
  simp [strip_spaces]

theorem strip_spaces_cons_other (c : Char) (l : GString) (h : c ≠ Char.ofNat 0x20) :
    strip_spaces (c :: l) = c :: strip_spaces l := by
  simp [strip_spaces, h]

theorem strip_spaces_append (a b : GString) :
    strip_spaces (a ++ b) = strip_spaces a ++ strip_spaces b := by
  simp [strip_spaces]

theorem no_trailing_space_tail (c : Char) (l : GString) (h : no_trailing_space (c :: l)) :
    no_trailing_space l := by
  unfold no_trailing_space at *
  cases l with
  | nil => simp
  | cons d l => rwa [List.getLast?_cons_cons] at h

theorem no_trailing_space_nil_of_strip (l : GString) (h : no_trailing_space l)
    (hs : strip_spaces l = []) : l = [] := by
  by_contra hne
  obtain ⟨ys, a, rfl⟩ : ∃ ys a, l = ys ++ [a] := by
    rcases List.eq_nil_or_concat l with h | ⟨ys, a, h⟩
    · exact absurd h hne
    · exact ⟨ys, a, by simpa using h⟩
  unfold no_trailing_space at h
  have : a = Char.ofNat 0x20 := by
    have hm := (List.filter_eq_nil_iff.1 hs) a (by simp)
    simpa using hm
  exact h (by rw [this]; simp)

/-- Completeness of the scan of `compare_with_coalesc` on texts without a
trailing space: with enough fuel it reaches both ends. -/
theorem compare_scan_complete (s t : GString) :
    ∀ (fuel i j : Nat) (a b : GString), s.drop i = a → t.drop j = b →
      i ≤ s.length → j ≤ t.length → a.length + b.length ≤ fuel →
      strip_spaces a = strip_spaces b → no_trailing_space a → no_trailing_space b →
      compare_scan s t fuel i j = (s.length, t.length) := by
  intro fuel
  induction fuel with
  | zero =>
    intro i j a b ha hb hi hj hf _ _ _
    have h1 : a = [] := List.length_eq_zero.1 (by omega)
    have h2 : b = [] := List.length_eq_zero.1 (by omega)
    rw [h1, List.drop_eq_nil_iff] at ha
    rw [h2, List.drop_eq_nil_iff] at hb
    simp only [compare_scan]
    rw [show i = s.length by omega, show j = t.length by omega]
  | succ fuel ih =>
    intro i j a b ha hb hi hj hf hst hna hnb
    unfold compare_scan
    by_cases hc : i < s.length ∧ j < t.length
    · rw [if_pos hc]
      have ea := List.drop_eq_getElem_cons hc.1
      have eb := List.drop_eq_getElem_cons hc.2
      rw [List.getD_eq_getElem s default hc.1, List.getD_eq_getElem t default hc.2]
      rw [ea] at ha
      rw [eb] at hb
      subst ha hb
      by_cases h1 : s[i] = Char.ofNat 0x20
      · rw [if_pos h1]
        refine ih (i + 1) j _ _ rfl eb (by omega) hj ?_ ?_ (no_trailing_space_tail _ _ hna) hnb
        · simp only [List.length_cons] at hf ⊢; omega
        · rw [← hst, h1, strip_spaces_cons_space]
      · rw [if_neg h1]
        by_cases h2 : t[j] = Char.ofNat 0x20
        · rw [if_pos h2]
          refine ih i (j + 1) _ _ ea rfl hi (by omega) ?_ ?_ hna (no_trailing_space_tail _ _ hnb)
          · simp only [List.length_cons] at hf ⊢; omega
          · rw [hst, h2, strip_spaces_cons_space]
        · rw [if_neg h2]
          rw [strip_spaces_cons_other _ _ h1, strip_spaces_cons_other _ _ h2] at hst
          injection hst with hhead htail
          rw [if_pos hhead]
          refine ih (i + 1) (j + 1) _ _ rfl rfl (by omega) (by omega) ?_ htail
            (no_trailing_space_tail _ _ hna) (no_trailing_space_tail _ _ hnb)
          simp only [List.length_cons] at hf; omega
    · rw [if_neg hc]
      have : i = s.length ∨ j = t.length := by omega
      rcases this with h | h
      · have ha' : a = [] := by rw [← ha, h]; simp
        rw [ha'] at hst
        have hb' : b = [] := no_trailing_space_nil_of_strip b hnb (by rw [← hst]; rfl)
        rw [hb', List.drop_eq_nil_iff] at hb
        rw [h, show j = t.length by omega]
      · have hb' : b = [] := by rw [← hb, h]; simp
        rw [hb'] at hst
        have ha' : a = [] := no_trailing_space_nil_of_strip a hna (by rw [hst]; rfl)
        rw [ha', List.drop_eq_nil_iff] at ha
        rw [h, show i = s.length by omega]

/-- On a valid pending block and texts without trailing space,
`compare_with_coalesc` accepts every text that equals the pending text when
spaces are ignored. -/
theorem compare_with_coalesc_complete (dev : MbpOutputDev) (str : GString)
    (hv : dev.dev_coalesc_valid = true)
    (hst : strip_spaces str = strip_spaces dev.dev_coalesc_content)
    (h1 : no_trailing_space str) (h2 : no_trailing_space dev.dev_coalesc_content) :
    compare_with_coalesc dev str = true := by
  unfold compare_with_coalesc
  simp only [hv, Bool.not_true, Bool.false_eq_true, if_false]
  rw [compare_scan_complete str dev.dev_coalesc_content _ 0 0 str dev.dev_coalesc_content
    rfl rfl (Nat.zero_le _) (Nat.zero_le _) (le_refl _) hst h1 h2]
  simp

/-- With enough fuel the scan of `compare_with_coalesc` has left its loop:
more fuel does not change the result. -/
theorem compare_scan_fuel (s t : GString) :
    ∀ (fuel k i j : Nat), (s.length - i) + (t.length - j) ≤ fuel →
      compare_scan s t (fuel + k) i j = compare_scan s t fuel i j := by
  intro fuel
  induction fuel with
  | zero =>
    intro k i j h
    cases k with
    | zero => rfl
    | succ k =>
      have hc : ¬ (i < s.length ∧ j < t.length) := by omega
      simp only [Nat.zero_add, compare_scan, hc, if_false]
  | succ fuel ih =>
    intro k i j h
    rw [show fuel + 1 + k = (fuel + k) + 1 by omega]
    unfold compare_scan
    by_cases hc : i < s.length ∧ j < t.length
    · simp only [hc, and_self, if_true]
      rw [ih k (i + 1) j (by omega), ih k i (j + 1) (by omega), ih k (i + 1) (j + 1) (by omega)]
    · simp only [hc, if_false]

theorem startPage_spec (dev : MbpOutputDev) (w h : ℚ) :
    (startPage dev w h).dev_output.file
      = dev.dev_output.file
        ++ (if dev.dev_output.font_opened = true then [XmlItem.font_close] else [])
        ++ (if dev.dev_output.page_opened = true then [XmlItem.page_close] else [])
        ++ [XmlItem.page_open (round w) (round h)]
    ∧ (startPage dev w h).dev_coalesc_valid = false
    ∧ (startPage dev w h).last_rect = { x := 0, y := 0, width := 0, height := 0 } := by
  unfold startPage invalidate_coalesc_blocks XmlOutput.start_page
  dsimp only
  refine ⟨?_, rfl, rfl⟩
  cases dev.dev_output.font_opened <;> cases dev.dev_output.page_opened <;> simp

theorem updateFont_frame (dev : MbpOutputDev) (f : Option FontInfo) :
    (updateFont dev f).dev_output = dev.dev_output
    ∧ (updateFont dev f).dev_coalesc_valid = dev.dev_coalesc_valid
    ∧ (updateFont dev f).dev_coalesc_content = dev.dev_coalesc_content
    ∧ (updateFont dev f).dev_coalesc_rect = dev.dev_coalesc_rect := by
  unfold updateFont
  cases f with
  | none => exact ⟨rfl, rfl, rfl, rfl⟩
  | some f =>
    dsimp only
    split_ifs <;> exact ⟨rfl, rfl, rfl, rfl⟩

theorem drawString_blank_eq (dev : MbpOutputDev) (g : TextRun)
    (h : all_blanks g.text_content = true) :
    drawString dev g = { dev with dev_conversion_buffer := g.text_content } := by
  unfold drawString
  simp only [h, if_true]

theorem emitted_text_append (a b : List XmlItem) :
    emitted_text (a ++ b) = emitted_text a ++ emitted_text b := by
  induction a with
  | nil => rfl
  | cons x a ih => simp [emitted_text, ih]

theorem emitted_append (before after : MbpOutputDev) (delta : List XmlItem)
    (h : after.dev_output.file = before.dev_output.file ++ delta) :
    emitted before after = delta := by
  unfold emitted
  rw [h, List.drop_left]

theorem no_trailing_space_prefix (p t : GString) (hne : t ≠ [])
    (h : no_trailing_space t) : no_trailing_space (p ++ t) := by
  unfold no_trailing_space at *
  rw [List.getLast?_append_of_ne_nil _ hne]
  exact h

theorem all_blanks_nil : all_blanks [] = true := rfl


/-- A link callback appends at most one element, a link, to the XML file and
changes nothing else. -/
theorem drawLink_eq (dev : MbpOutputDev) (l : LinkCall) :
    ∃ items, drawLink dev l
        = { dev with dev_output := { dev.dev_output with file := dev.dev_output.file ++ items } }
      ∧ (∀ t r, XmlItem.text_block t r ∉ items) ∧ items.length ≤ 1 := by
  have h0 : dev
      = { dev with dev_output := { dev.dev_output with file := dev.dev_output.file ++ [] } } := by
    simp
  unfold drawLink XmlOutput.add_link XmlOutput.add_link_url
  repeat' first | split | (dsimp only; split)
  all_goals first
    | exact ⟨[], h0, by simp, by simp⟩
    | exact ⟨[_], rfl, by simp, by simp⟩

theorem run_cons (d : MbpOutputDev) (c : Callback) (cs : List Callback) :
    run d (c :: cs) = run (step d c) cs := rfl

theorem run_append (d : MbpOutputDev) (a b : List Callback) :
    run d (a ++ b) = run (run d a) b := by
  unfold run
  rw [List.foldl_append]

theorem strip_spaces_single_space : strip_spaces [Char.ofNat 0x20] = [] := by
  rw [strip_spaces_cons_space]
  rfl

/-- One text, image or font callback keeps the text written so far together
with the pending text, up to spaces, and adds the text of the fragment. -/
theorem step_text (d : MbpOutputDev) (c : Callback) (hc : is_content_callback c = true)
    (hno : no_overprint d [c]) :
    ∃ delta, (step d c).dev_output.file = d.dev_output.file ++ delta
      ∧ strip_spaces (emitted_text delta ++ pending_text (step d c))
          = strip_spaces (pending_text d) ++ strip_spaces (fragment_text [c]) := by
  cases c with
  | startPage w h => simp [is_content_callback] at hc
  | endPage => simp [is_content_callback] at hc
  | drawLink l => simp [is_content_callback] at hc
  | updateFont f =>
    obtain ⟨u1, u2, u3, -⟩ := updateFont_frame d f
    refine ⟨[], ?_, ?_⟩
    · simp only [step, u1, List.append_nil]
    · simp only [step, pending_text, u2, u3, emitted_text, fragment_text, List.nil_append,
        strip_spaces_append]
      simp [strip_spaces]
  | drawImage i =>
    obtain ⟨⟨name, r, i1⟩, i2, -⟩ := drawImageOrMask_spec d i
    refine ⟨_, by simpa only [step, List.append_assoc] using i1, ?_⟩
    simp only [step, pending_text, i2, fragment_text, emitted_text_append]
    cases d.dev_coalesc_valid <;> simp [emitted_text, item_text, strip_spaces]
  | drawString g =>
    by_cases hb : all_blanks g.text_content = true
    · refine ⟨[], ?_, ?_⟩
      · simp only [step, drawString_blank_eq _ _ hb, List.append_nil]
      · simp only [step, drawString_blank_eq _ _ hb, pending_text, emitted_text, fragment_text,
          hb, if_true, List.nil_append, List.append_nil]
        simp [strip_spaces]
    · have hb' : all_blanks g.text_content = false := by simpa using hb
      have hov : overprint d g = false := by
        rcases hno.1 with h | h
        · exact absurd h hb
        · exact h
      obtain ⟨s1, s2, s3, -⟩ := drawString_spec d g hb'
      refine ⟨_, by simpa only [step, List.append_assoc] using s1, ?_⟩
      simp only [step, pending_text, s2, s3, if_true, fragment_text, hb', hov, Bool.not_false,
        Bool.and_true, Bool.true_and, emitted_text_append, strip_spaces_append,
        Bool.false_eq_true, if_false, List.append_nil]
      cases append (font_check d g) g <;> cases d.dev_coalesc_valid <;>
        cases prepend_space d g <;>
        cases (font_check d g).dev_font_has_changed <;>
        cases d.dev_output.font_opened <;>
        simp [emitted_text, item_text, strip_spaces_single_space, strip_spaces]

theorem no_overprint_cons (d : MbpOutputDev) (c : Callback) (cs : List Callback)
    (h : no_overprint d (c :: cs)) : no_overprint d [c] ∧ no_overprint (step d c) cs := by
  cases c <;> simp_all [no_overprint, step]

/-- A sequence of text, image and font callbacks keeps the text written so far
together with the pending text, up to spaces, and adds the texts of the
non-blank fragments in call order. -/
theorem run_text : ∀ (cs : List Callback) (d : MbpOutputDev),
    (∀ c ∈ cs, is_content_callback c = true) → no_overprint d cs →
    ∃ delta, (run d cs).dev_output.file = d.dev_output.file ++ delta
      ∧ strip_spaces (emitted_text delta ++ pending_text (run d cs))
          = strip_spaces (pending_text d) ++ strip_spaces (fragment_text cs) := by
  intro cs
  induction cs with
  | nil =>
    intro d _ _
    refine ⟨[], by simp [run], ?_⟩
    simp [run, emitted_text, fragment_text, strip_spaces]
  | cons c cs ih =>
    intro d hcs hno
    obtain ⟨hno1, hno2⟩ := no_overprint_cons d c cs hno
    obtain ⟨d1, f1, t1⟩ := step_text d c (hcs c (List.mem_cons_self _ _)) hno1
    obtain ⟨d2, f2, t2⟩ := ih (step d c) (fun x hx => hcs x (List.mem_cons_of_mem _ hx)) hno2
    refine ⟨d1 ++ d2, ?_, ?_⟩
    · rw [run_cons, f2, f1, List.append_assoc]
    · have hfrag : fragment_text (c :: cs) = fragment_text [c] ++ fragment_text cs := by
        cases c <;> simp [fragment_text]
      rw [run_cons, hfrag, emitted_text_append, List.append_assoc, strip_spaces_append, t2,
        ← List.append_assoc, ← strip_spaces_append, t1, strip_spaces_append, List.append_assoc]


theorem updateFont_geometry (dev : MbpOutputDev) (f : Option FontInfo) :
    (updateFont dev f).last_x = dev.last_x ∧ (updateFont dev f).last_w = dev.last_w
    ∧ (updateFont dev f).last_rect = dev.last_rect := by
  unfold updateFont
  cases f with
  | none => exact ⟨rfl, rfl, rfl⟩
  | some f =>
    dsimp only
    split_ifs <;> exact ⟨rfl, rfl, rfl⟩

theorem drawImageOrMask_geometry (dev : MbpOutputDev) (c : ImageCall) :
    (drawImageOrMask dev c).last_x = dev.last_x ∧ (drawImageOrMask dev c).last_w = dev.last_w
    ∧ (drawImageOrMask dev c).last_rect = dev.last_rect := by
  unfold drawImageOrMask
  simp only [append_image_block_eq]
  split <;> exact ⟨rfl, rfl, rfl⟩

/-- Font updates, blank text and images leave the geometry of the previous
fragment as it is. -/
theorem run_geometry : ∀ (cs : List Callback) (d : MbpOutputDev),
    (∀ c ∈ cs, draws_no_text c = true) →
    (run d cs).last_x = d.last_x ∧ (run d cs).last_w = d.last_w
    ∧ (run d cs).last_rect = d.last_rect := by
  intro cs
  induction cs with
  | nil =>
    intro d _
    exact ⟨rfl, rfl, rfl⟩
  | cons c cs ih =>
    intro d hcs
    obtain ⟨a1, a2, a3⟩ := ih (step d c) (fun x hx => hcs x (List.mem_cons_of_mem _ hx))
    have hc := hcs c (List.mem_cons_self _ _)
    rw [run_cons, a1, a2, a3]
    cases c with
    | startPage w h => simp [draws_no_text] at hc
    | endPage => simp [draws_no_text] at hc
    | drawLink l => simp [draws_no_text] at hc
    | updateFont f => exact updateFont_geometry d f
    | drawImage i => exact drawImageOrMask_geometry d i
    | drawString g =>
      simp only [draws_no_text] at hc
      simp only [step, drawString_blank_eq _ _ hc, and_self]

/-- Font updates and blank text write nothing and leave the pending block as
it is. -/
theorem run_writes_nothing : ∀ (cs : List Callback) (d : MbpOutputDev),
    (∀ c ∈ cs, writes_nothing c = true) →
    (run d cs).dev_output = d.dev_output
    ∧ (run d cs).dev_coalesc_valid = d.dev_coalesc_valid
    ∧ (run d cs).dev_coalesc_content = d.dev_coalesc_content
    ∧ (run d cs).dev_coalesc_rect = d.dev_coalesc_rect := by
  intro cs
  induction cs with
  | nil =>
    intro d _
    exact ⟨rfl, rfl, rfl, rfl⟩
  | cons c cs ih =>
    intro d hcs
    obtain ⟨a1, a2, a3, a4⟩ := ih (step d c) (fun x hx => hcs x (List.mem_cons_of_mem _ hx))
    have hc := hcs c (List.mem_cons_self _ _)
    rw [run_cons, a1, a2, a3, a4]
    cases c with
    | startPage w h => simp [writes_nothing] at hc
    | endPage => simp [writes_nothing] at hc
    | drawLink l => simp [writes_nothing] at hc
    | drawImage i => simp [writes_nothing] at hc
    | updateFont f => exact updateFont_frame d f
    | drawString g =>
      simp only [writes_nothing] at hc
      simp only [step, drawString_blank_eq _ _ hc, and_self]

/-- The font fields after a non-blank `drawString` are those after the font
comparison. -/
theorem drawString_font (dev : MbpOutputDev) (g : TextRun)
    (hg : all_blanks g.text_content = false) :
    (drawString dev g).dev_current_font_face = (font_check dev g).dev_current_font_face
    ∧ (drawString dev g).dev_current_font_size = (font_check dev g).dev_current_font_size
    ∧ (drawString dev g).dev_current_font_color = (font_check dev g).dev_current_font_color
    ∧ (drawString dev g).dev_current_font_bold = (font_check dev g).dev_current_font_bold
    ∧ (drawString dev g).dev_current_font_italic
        = (font_check dev g).dev_current_font_italic := by
  unfold drawString
  simp only [hg, Bool.false_eq_true, if_false, font_check_conv, save_geometry,
    append_coalesc_block, font_tag_eq, start_block_eq, and_self]

/-- The rectangle and the boolean that `is_intersecting` computes: the larger
left edge and top, the `int` difference between the smaller of the two `int`
right edges (bottoms) and the larger left edge (top). -/
theorem is_intersecting_fields (a b : Rect) :
    (a.is_intersecting b).2.x = max a.x b.x
    ∧ (a.is_intersecting b).2.y = max a.y b.y
    ∧ (a.is_intersecting b).2.width
        = to_int (min (to_int (a.x + a.width)) (to_int (b.x + b.width)) - max a.x b.x)
    ∧ (a.is_intersecting b).2.height
        = to_int (min (to_int (a.y + a.height)) (to_int (b.y + b.height)) - max a.y b.y)
    ∧ (a.is_intersecting b).1
        = (decide (0 < (a.is_intersecting b).2.width)
            && decide (0 < (a.is_intersecting b).2.height)) := by
  unfold Rect.is_intersecting
  dsimp only
  refine ⟨?_, ?_, ?_, ?_, rfl⟩
  · simp only [max_def]
    split_ifs <;> omega
  · simp only [max_def]
    split_ifs <;> omega
  · congr 1
    simp only [min_def, max_def]
    split_ifs <;> omega
  · congr 1
    simp only [min_def, max_def]
    split_ifs <;> omega

theorem hex_table (d : Nat) (hd : d < 16) :
    HEXADECIMAL_CHARACTERS.getD d default = hex_digit d
    ∧ hex_digit_value (hex_digit d) = d := by
  have h : ∀ d : Fin 16, HEXADECIMAL_CHARACTERS.getD d.val default = hex_digit d.val
      ∧ hex_digit_value (hex_digit d.val) = d.val := by
    decide
  exact h ⟨d, hd⟩

theorem hex_shift (n : Int) (k : Nat) :
    ((n >>> k) % 16).toNat < 16 := by
  have h1 := Int.emod_nonneg (n >>> k) (by decide : (16 : Int) ≠ 0)
  have h2 := Int.emod_lt_of_pos (n >>> k) (by decide : (0 : Int) < 16)
  omega

/-- The file name that `compose_image_filename` builds for a sequence number
of at most four hexadecimal digits. -/
theorem compose_image_filename_eq (b e : GString) (n : Int) (h0 : 0 ≤ n) (h1 : n ≤ 0xFFFF) :
    compose_image_filename b n e = b ++ ['_', 'p', 'i', 'c'] ++ hex4 n.toNat ++ ['.'] ++ e := by
  have e3 : ((n >>> ((3 - 0) * 4 : Nat)) % 16).toNat = n.toNat / 4096 % 16 := by
    rw [Int.shiftRight_eq_div_pow]
    omega
  have e2 : ((n >>> ((3 - 1) * 4 : Nat)) % 16).toNat = n.toNat / 256 % 16 := by
    rw [Int.shiftRight_eq_div_pow]
    omega
  have e1 : ((n >>> ((3 - 2) * 4 : Nat)) % 16).toNat = n.toNat / 16 % 16 := by
    rw [Int.shiftRight_eq_div_pow]
    omega
  have e0 : ((n >>> ((3 - 3) * 4 : Nat)) % 16).toNat = n.toNat % 16 := by
    rw [Int.shiftRight_eq_div_pow]
    omega
  unfold compose_image_filename hex4
  rw [show List.range 4 = [0, 1, 2, 3] from rfl]
  simp only [List.map_cons, List.map_nil, e3, e2, e1, e0]
  rw [(hex_table _ (Nat.mod_lt _ (by decide))).1, (hex_table _ (Nat.mod_lt _ (by decide))).1,
    (hex_table _ (Nat.mod_lt _ (by decide))).1, (hex_table _ (Nat.mod_lt _ (by decide))).1]

theorem read_hex_hex4 (m : Nat) (hm : m ≤ 0xFFFF) : read_hex (hex4 m) = m := by
  unfold read_hex hex4
  simp only [List.foldl_cons, List.foldl_nil]
  rw [(hex_table _ (Nat.mod_lt _ (by decide))).2, (hex_table _ (Nat.mod_lt _ (by decide))).2,
    (hex_table _ (Nat.mod_lt _ (by decide))).2, (hex_table _ (Nat.mod_lt _ (by decide))).2]
  omega

/-- The effect of an image callback that misses the registry (the image has
no reference, or no entry has its reference number and flip): a new sequence
number, a new file in the chosen format, and a registry entry when the image
has a reference number other than -1. -/
theorem drawImageOrMask_miss (dev : MbpOutputDev) (c : ImageCall)
    (hmiss : ∀ r, c.ref = some r → find_picture dev.dev_picture_references r c.flip = none) :
    ∃ (format : ImageFormat) (extension : GString),
      format = (if (c.is_dct && (c.mask || decide (c.num_pixel_comps = 3)) && !c.inline_img) = true
          then ImageFormat.jpg_copy
          else if (c.mask || (decide (c.num_pixel_comps = 1) && decide (c.bits = 1))) = true
            then ImageFormat.png_1bit
            else ImageFormat.png_24bit)
      ∧ extension = (if format = ImageFormat.jpg_copy then ['j', 'p', 'g'] else ['p', 'n', 'g'])
      ∧ (drawImageOrMask dev c).dev_picture_number = dev.dev_picture_number + 1
      ∧ (drawImageOrMask dev c).written_files
          = dev.written_files
            ++ [(compose_image_filename dev.dev_picture_base (dev.dev_picture_number + 1)
                  extension, format)]
      ∧ (drawImageOrMask dev c).dev_picture_references
          = (match c.ref with
              | some r =>
                if r ≠ -1 then
                  dev.dev_picture_references
                    ++ [PictureReference.mk r c.flip (dev.dev_picture_number + 1) extension]
                else dev.dev_picture_references
              | none => dev.dev_picture_references)
      ∧ (drawImageOrMask dev c).dev_picture_base = dev.dev_picture_base
      ∧ ∃ rect, (drawImageOrMask dev c).dev_output.file.getLast?
          = some (XmlItem.image_block
              (relname (compose_image_filename dev.dev_picture_base (dev.dev_picture_number + 1)
                  extension)) rect) := by
  have hfound : (match c.ref with
      | some n => find_picture dev.dev_picture_references n c.flip
      | none => none) = none := by
    cases hr : c.ref with
    | none => rfl
    | some r => exact hmiss r hr
  unfold drawImageOrMask relname
  simp only [append_image_block_eq, hfound]
  generalize (c.is_dct && (c.mask || decide (c.num_pixel_comps = 3)) && !c.inline_img) = ba
  generalize (c.mask || (decide (c.num_pixel_comps = 1) && decide (c.bits = 1))) = bb
  have hrefs : ∀ ext : GString, (if (match c.ref with
        | some n => n
        | none => -1) ≠ -1
      then dev.dev_picture_references
        ++ [PictureReference.mk (match c.ref with
              | some n => n
              | none => -1) c.flip (dev.dev_picture_number + 1) ext]
      else dev.dev_picture_references)
      = (match c.ref with
          | some r =>
            if r ≠ -1 then
              dev.dev_picture_references
                ++ [PictureReference.mk r c.flip (dev.dev_picture_number + 1) ext]
            else dev.dev_picture_references
          | none => dev.dev_picture_references) := by
    intro ext
    cases c.ref <;> simp
  cases ba <;> cases bb <;>
    exact ⟨_, _, rfl, rfl, trivial, rfl, hrefs _, trivial, ⟨_, List.getLast?_concat _⟩⟩

/-- The effect of an image callback that hits the registry: no new sequence
number, no new entry, no new file; the element names the file of the entry. -/
theorem drawImageOrMask_hit (dev : MbpOutputDev) (c : ImageCall) (r : Int)
    (p : PictureReference) (hr : c.ref = some r)
    (hp : find_picture dev.dev_picture_references r c.flip = some p) :
    (drawImageOrMask dev c).dev_picture_number = dev.dev_picture_number
    ∧ (drawImageOrMask dev c).dev_picture_references = dev.dev_picture_references
    ∧ (drawImageOrMask dev c).written_files = dev.written_files
    ∧ (drawImageOrMask dev c).dev_picture_base = dev.dev_picture_base
    ∧ ∃ rect, (drawImageOrMask dev c).dev_output.file.getLast?
        = some (XmlItem.image_block
            (relname (compose_image_filename dev.dev_picture_base p.picture_number
              p.picture_extension)) rect) := by
  have hfound : (match c.ref with
      | some n => find_picture dev.dev_picture_references n c.flip
      | none => none) = some p := by
    rw [hr]
    exact hp
  unfold drawImageOrMask relname
  simp only [append_image_block_eq, hfound]
  exact ⟨trivial, trivial, trivial, trivial, ⟨_, List.getLast?_concat _⟩⟩

theorem find_picture_append (refs extra : List PictureReference) (r f : Int)
    (p : PictureReference) (h : find_picture refs r f = some p) :
    find_picture (refs ++ extra) r f = some p := by
  unfold find_picture at *
  rw [List.find?_append, h]
  rfl

theorem find_picture_new (refs : List PictureReference) (r f n : Int) (ext : GString)
    (h : find_picture refs r f = none) :
    find_picture (refs ++ [PictureReference.mk r f n ext]) r f
      = some (PictureReference.mk r f n ext) := by
  unfold find_picture at *
  rw [List.find?_append, h]
  simp

/-- The registry only grows, and the base name of the pictures stays. -/
theorem step_registry (d : MbpOutputDev) (c : Callback) :
    (∃ extra, (step d c).dev_picture_references = d.dev_picture_references ++ extra)
    ∧ (step d c).dev_picture_base = d.dev_picture_base := by
  cases c with
  | startPage w h => exact ⟨⟨[], by simp [step, startPage, invalidate_coalesc_blocks]⟩, rfl⟩
  | endPage => exact ⟨⟨[], by simp [step, endPage_eq]⟩, by simp [step, endPage_eq]⟩
  | drawLink l =>
    obtain ⟨items, e, -, -⟩ := drawLink_eq d l
    simp only [step, e]
    exact ⟨⟨[], by simp⟩, trivial⟩
  | updateFont f =>
    cases f with
    | none => exact ⟨⟨[], by simp [step, updateFont]⟩, rfl⟩
    | some f =>
      simp only [step, updateFont]
      split_ifs <;> exact ⟨⟨[], by simp⟩, rfl⟩
  | drawImage i =>
    simp only [step]
    cases hr : i.ref with
    | none =>
      obtain ⟨format, ext, -, -, -, -, m3, m4, -⟩ := drawImageOrMask_miss d i
        (fun r' hr' => by rw [hr] at hr'; cases hr')
      rw [hr] at m3
      exact ⟨⟨[], by rw [m3]; simp⟩, m4⟩
    | some r =>
      cases hf : find_picture d.dev_picture_references r i.flip with
      | some p =>
        obtain ⟨-, n2, -, n4, -⟩ := drawImageOrMask_hit d i r p hr hf
        exact ⟨⟨[], by rw [n2]; simp⟩, n4⟩
      | none =>
        obtain ⟨format, ext, -, -, -, -, m3, m4, -⟩ := drawImageOrMask_miss d i
          (fun r' hr' => by
            rw [hr] at hr'
            injection hr' with hr'
            rw [← hr']
            exact hf)
        rw [hr] at m3
        refine ⟨?_, m4⟩
        rw [m3]
        dsimp only
        split_ifs
        · exact ⟨_, rfl⟩
        · exact ⟨[], by simp⟩
  | drawString g =>
    by_cases hb : all_blanks g.text_content = true
    · simp only [step, drawString_blank_eq _ _ hb]
      exact ⟨⟨[], by simp⟩, trivial⟩
    · have hb' : all_blanks g.text_content = false := by simpa using hb
      simp only [step]
      unfold drawString
      simp only [hb', Bool.false_eq_true, if_false, font_check_conv, save_geometry,
        append_coalesc_block, font_tag_eq, start_block_eq, font_check_eq]
      exact ⟨⟨[], by simp⟩, trivial⟩

theorem run_registry : ∀ (cs : List Callback) (d : MbpOutputDev),
    (∃ extra, (run d cs).dev_picture_references = d.dev_picture_references ++ extra)
    ∧ (run d cs).dev_picture_base = d.dev_picture_base := by
  intro cs
  induction cs with
  | nil =>
    intro d
    exact ⟨⟨[], by simp [run]⟩, rfl⟩
  | cons c cs ih =>
    intro d
    obtain ⟨⟨e1, h1⟩, b1⟩ := step_registry d c
    obtain ⟨⟨e2, h2⟩, b2⟩ := ih (step d c)
    rw [run_cons]
    exact ⟨⟨e1 ++ e2, by rw [h2, h1, List.append_assoc]⟩, by rw [b2, b1]⟩

/-- After an image callback with the reference number `r` (not -1) the
registry has an entry for `r` and the flip of the callback, and the element
written names the file of the first such entry. -/
theorem drawImageOrMask_registered (dev : MbpOutputDev) (c : ImageCall) (r : Int)
    (hr : c.ref = some r) (hne : r ≠ -1) :
    ∃ p rect, find_picture (drawImageOrMask dev c).dev_picture_references r c.flip = some p
      ∧ (drawImageOrMask dev c).dev_output.file.getLast?
          = some (XmlItem.image_block
              (relname (compose_image_filename dev.dev_picture_base p.picture_number
                p.picture_extension)) rect)
      ∧ (drawImageOrMask dev c).dev_picture_base = dev.dev_picture_base := by
  cases hf : find_picture dev.dev_picture_references r c.flip with
  | some p =>
    obtain ⟨-, h2, -, hb, rect, h4⟩ := drawImageOrMask_hit dev c r p hr hf
    refine ⟨p, rect, ?_, h4, hb⟩
    rw [h2]
    exact hf
  | none =>
    obtain ⟨format, ext, -, -, -, -, h5, h6, rect, h7⟩ := drawImageOrMask_miss dev c
      (fun r' hr' => by
        rw [hr] at hr'
        injection hr' with hr'
        rw [← hr']
        exact hf)
    rw [hr] at h5
    simp only [hne, ne_eq, not_false_eq_true, if_true] at h5
    refine ⟨PictureReference.mk r c.flip (dev.dev_picture_number + 1) ext, rect, ?_, h7, h6⟩
    rw [h5]
    exact find_picture_new _ _ _ _ _ hf

/-- Every read of the scan of `compare_with_coalesc` is below the length of
the text read: the scan with checked reads ends as the scan does. -/
theorem compare_scan_in_bounds (s t : GString) :
    ∀ (fuel i j : Nat),
      compare_scan_checked s t fuel i j = some (compare_scan s t fuel i j) := by
  intro fuel
  induction fuel with
  | zero =>
    intro i j
    rfl
  | succ fuel ih =>
    intro i j
    unfold compare_scan_checked compare_scan
    by_cases hc : i < s.length ∧ j < t.length
    · rw [if_pos hc, if_pos hc]
      rw [List.getD_eq_getElem s default hc.1, List.getD_eq_getElem t default hc.2,
        List.getElem?_eq_getElem hc.1, List.getElem?_eq_getElem hc.2]
      dsimp only
      by_cases h1 : s[i] = Char.ofNat 0x20
      · rw [if_pos h1, if_pos h1]
        exact ih _ _
      · rw [if_neg h1, if_neg h1]
        by_cases h2 : t[j] = Char.ofNat 0x20
        · rw [if_pos h2, if_pos h2]
          exact ih _ _
        · rw [if_neg h2, if_neg h2]
          by_cases h3 : s[i] = t[j]
          · rw [if_pos h3, if_pos h3]
            exact ih _ _
          · rw [if_neg h3, if_neg h3]
    · rw [if_neg hc, if_neg hc]

/-- Soundness of the scan of `compare_with_coalesc`: when it ends at both
ends, the parts of the two texts from where it started are equal once the
0x20 bytes are deleted. -/
theorem compare_scan_sound (s t : GString) :
    ∀ (fuel i j : Nat), i ≤ s.length → j ≤ t.length →
      compare_scan s t fuel i j = (s.length, t.length) →
      strip_spaces (s.drop i) = strip_spaces (t.drop j) := by
  intro fuel
  induction fuel with
  | zero =>
    intro i j _ _ h
    simp only [compare_scan, Prod.mk.injEq] at h
    rw [h.1, h.2, List.drop_length, List.drop_length]
  | succ fuel ih =>
    intro i j hi hj h
    unfold compare_scan at h
    by_cases hc : i < s.length ∧ j < t.length
    · rw [if_pos hc] at h
      have ea := List.drop_eq_getElem_cons hc.1
      have eb := List.drop_eq_getElem_cons hc.2
      rw [List.getD_eq_getElem s default hc.1, List.getD_eq_getElem t default hc.2] at h
      by_cases h1 : s[i] = Char.ofNat 0x20
      · rw [if_pos h1] at h
        rw [ea, h1, strip_spaces_cons_space]
        exact ih (i + 1) j (by omega) hj h
      · rw [if_neg h1] at h
        by_cases h2 : t[j] = Char.ofNat 0x20
        · rw [if_pos h2] at h
          rw [eb, h2, strip_spaces_cons_space]
          exact ih i (j + 1) hi (by omega) h
        · rw [if_neg h2] at h
          by_cases h3 : s[i] = t[j]
          · rw [if_pos h3] at h
            rw [ea, eb, strip_spaces_cons_other _ _ h1, strip_spaces_cons_other _ _ h2, h3,
              ih (i + 1) (j + 1) (by omega) (by omega) h]
          · rw [if_neg h3] at h
            simp only [Prod.mk.injEq] at h
            omega
    · rw [if_neg hc] at h
      simp only [Prod.mk.injEq] at h
      rw [h.1, h.2, List.drop_length, List.drop_length]

theorem startPage_geometry (dev : MbpOutputDev) (w h : ℚ) :
    (startPage dev w h).last_x = -1000 ∧ (startPage dev w h).last_y = -1000
    ∧ (startPage dev w h).last_w = -1000 ∧ (startPage dev w h).last_h = -1000 :=
  ⟨rfl, rfl, rfl, rfl⟩

/-- A fragment drawn first on a page at a height above -1000 is not stitched:
the rectangle recorded for it is its own. -/
theorem first_fragment_rect (dev : MbpOutputDev) (w h : ℚ) (g : TextRun)
    (hy : -1000 < g.y) :
    stitched_rect (font_check (startPage dev w h) g) g = g.rect := by
  obtain ⟨-, -, -, -, -, -, f7, f8, -⟩ := font_check_frame (startPage dev w h) g
  obtain ⟨-, g2, -, g4⟩ := startPage_geometry dev w h
  have h1 : same_line (startPage dev w h) g = false := by
    unfold same_line
    rw [g2]
    have : ¬ g.y = -1000 := by linarith
    simp [this]
  have h2 : near_line (startPage dev w h) g = false := by
    unfold near_line horizontal_intersect
    rw [g2, g4]
    have a1 : ¬ ((-1000 : ℚ) + -1000 ≥ g.y) := by linarith
    have a2 : ¬ (g.y + g.height ≥ (-1000 : ℚ) ∧ g.y + g.height ≤ (-1000 : ℚ) + -1000) := by
      rintro ⟨b1, b2⟩
      linarith
    have e1 : (decide ((-1000 : ℚ) + -1000 ≥ g.y)
        && decide ((-1000 : ℚ) + -1000 ≤ g.y + g.height)) = false := by
      simp [a1]
    have e2 : (decide (g.y + g.height ≥ (-1000 : ℚ))
        && decide (g.y + g.height ≤ (-1000 : ℚ) + -1000)) = false := by
      rw [Bool.and_eq_false_iff]
      by_cases b1 : g.y + g.height ≥ (-1000 : ℚ)
      · right
        simpa using fun b2 => a2 ⟨b1, b2⟩
      · left
        simpa using b1
    rw [e1, e2]
    rfl
  unfold stitched_rect stitch_blocks
  rw [f7, f8, h1, h2]
  rfl

/-- A text that equals a blank text once the spaces are deleted is blank. -/
theorem all_blanks_of_strip (s t : GString) (h : strip_spaces t = strip_spaces s)
    (hs : all_blanks s = true) : all_blanks t = true := by
  rw [all_blanks_iff] at hs ⊢
  intro c hc
  by_cases h20 : c = Char.ofNat 0x20
  · exact Or.inl h20
  · have hm : c ∈ strip_spaces t := by
      unfold strip_spaces
      rw [List.mem_filter]
      exact ⟨hc, by simpa using h20⟩
    rw [h] at hm
    unfold strip_spaces at hm
    rw [List.mem_filter] at hm
    exact hs c hm.1

/-! ## Lemmas on the rectangles of the fragments -/

/-- For a value that is not below -1/2 the result of `round` is within 1/2 of
it. -/
theorem round_closest_of_nonneg (x : ℚ) (hx : -1/2 ≤ x) :
    |((round x : Int) : ℚ) - x| ≤ 1/2 := by
  unfold round
  have hq : (0 : ℚ) ≤ x + 1/2 := by linarith
  simp only [hq, if_true]
  have e : (x + 1/2).floor = ⌊x + 1/2⌋ := rfl
  rw [e]
  have h1 := Int.floor_le (x + 1/2)
  have h2 := Int.lt_floor_add_one (x + 1/2)
  rw [abs_le]
  constructor <;> linarith

/-- Once `number` is zero the loop of `write(int)` has been left. -/
theorem write_digit_done (k : Nat) (st : DigitState) (h : st.number = 0) :
    write_digit^[k] st = st := by
  induction k with
  | zero => rfl
  | succ k ih =>
    rw [Function.iterate_succ_apply', ih]
    unfold write_digit
    simp [h]

/-- The loop of `write(int)` on a number that is not negative: the digits are
stored downward from `index`, the least significant first. -/
theorem write_digit_loop : ∀ (m k : Nat) (b : Buffer) (i : Int),
    ((Nat.digits 10 m).length : Int) ≤ i + 1 → (Nat.digits 10 m).length ≤ k →
    (write_digit^[k] { char_number := b, index := i, number := (m : Int) }).index
        = i - (Nat.digits 10 m).length
    ∧ (∀ j (hj : j < (Nat.digits 10 m).length),
        (write_digit^[k] { char_number := b, index := i, number := (m : Int) }).char_number
            (i - j) = 48 + (Nat.digits 10 m)[j])
    ∧ (∀ idx, (idx ≤ i - (Nat.digits 10 m).length ∨ i < idx) →
        (write_digit^[k] { char_number := b, index := i, number := (m : Int) }).char_number idx
          = b idx) := by
  intro m
  induction m using Nat.strong_induction_on with
  | _ m ih =>
    intro k b i hi hk
    by_cases hm : m = 0
    · subst hm
      rw [write_digit_done k _ rfl]
      simp
    · have hd : Nat.digits 10 m = m % 10 :: Nat.digits 10 (m / 10) :=
        Nat.digits_def' (by norm_num) (Nat.pos_of_ne_zero hm)
      rw [hd] at hi hk ⊢
      simp only [List.length_cons] at hi hk ⊢
      obtain ⟨k, rfl⟩ : ∃ k0, k = k0 + 1 := ⟨k - 1, by omega⟩
      rw [Function.iterate_succ_apply]
      have hstep : write_digit { char_number := b, index := i, number := (m : Int) }
          = { char_number := Function.update b i (48 + m % 10), index := i - 1,
              number := ((m / 10 : Nat) : Int) } := by
        unfold write_digit
        have hc : i ≥ 0 ∧ (m : Int) ≠ 0 := ⟨by omega, by exact_mod_cast hm⟩
        rw [if_pos hc]
        have e1 : to_uchar (48 + (m : Int).tmod 10) = 48 + m % 10 := by
          rw [Int.tmod_eq_emod (Int.natCast_nonneg m) (by norm_num)]
          unfold to_uchar
          omega
        have e2 : (m : Int).tdiv 10 = ((m / 10 : Nat) : Int) := by
          rw [Int.tdiv_eq_ediv (Int.natCast_nonneg m) (by norm_num)]
          omega
        simp only [e1, e2]
      rw [hstep]
      obtain ⟨h1, h2, h3⟩ := ih (m / 10) (Nat.div_lt_self (Nat.pos_of_ne_zero hm) (by norm_num))
        k (Function.update b i (48 + m % 10)) (i - 1) (by omega) (by omega)
      refine ⟨?_, ?_, ?_⟩
      · rw [h1]
        push_cast
        omega
      · intro j hj
        cases j with
        | zero =>
          rw [h3 _ (Or.inr (by push_cast; omega))]
          rw [show i - ((0 : Nat) : Int) = i by omega, Function.update_same]
          rfl
        | succ j =>
          have := h2 j (by omega)
          rw [show i - ((j + 1 : Nat) : Int) = i - 1 - (j : Int) by push_cast; omega]
          rw [this]
          rfl
      · intro idx hidx
        rw [h3 idx (by push_cast at hidx ⊢; omega)]
        rw [Function.update_noteq]
        push_cast at hidx
        omega

/-- The C string of a buffer that holds the nonzero bytes `bytes` from `start`
on, followed by a zero byte. -/
theorem c_string_spec (buf : Buffer) : ∀ (bytes : List Nat) (fuel : Nat) (start : Int),
    (∀ j (hj : j < bytes.length), buf (start + j) = bytes[j]) → (∀ x ∈ bytes, x ≠ 0) →
    buf (start + bytes.length) = 0 → bytes.length < fuel →
    c_string buf fuel start = bytes.map Char.ofNat := by
  intro bytes
  induction bytes with
  | nil =>
    intro fuel start _ _ h0 hf
    obtain ⟨fuel, rfl⟩ : ∃ f, fuel = f + 1 := ⟨fuel - 1, by simp at hf; omega⟩
    simp only [List.length_nil, Nat.cast_zero, add_zero] at h0
    simp [c_string, h0]
  | cons a rest ih =>
    intro fuel start hb hn h0 hf
    simp only [List.length_cons] at hf h0
    obtain ⟨fuel, rfl⟩ : ∃ f, fuel = f + 1 := ⟨fuel - 1, by omega⟩
    have ha : buf start = a := by
      have := hb 0 (by simp)
      simpa using this
    have hne : a ≠ 0 := hn a (by simp)
    unfold c_string
    rw [ha, if_neg hne, List.map_cons]
    congr 1
    apply ih fuel (start + 1)
    · intro j hj
      have := hb (j + 1) (by simp; omega)
      rw [show start + 1 + (j : Int) = start + ((j + 1 : Nat) : Int) by push_cast; omega]
      simpa using this
    · intro x hx
      exact hn x (by simp [hx])
    · rw [← h0]
      congr 1
      push_cast
      omega
    · omega

/-- A number below 2^31 has at most ten decimal digits. -/
theorem digits_length_int (m : Nat) (hlt : m < 2147483648) : (Nat.digits 10 m).length ≤ 10 := by
  by_cases hm : m = 0
  · subst hm
    simp
  · have h := Nat.base_pow_length_digits_le 10 m (by norm_num) hm
    by_contra hc
    have h11 : 10 ^ 11 ≤ 10 ^ (Nat.digits 10 m).length :=
      Nat.pow_le_pow_right (by norm_num) (by omega)
    have : (10 : Nat) ^ 11 = 100000000000 := by norm_num
    omega

/-- The bytes that the loop of `write(int)` has stored, read upward: the
digits, the most significant first. -/
theorem digit_cells (buf : Buffer) (digits : List Nat) (i : Int)
    (h : ∀ j (hj : j < digits.length), buf (i - j) = 48 + digits[j]) :
    ∀ j (hj : j < (digits.reverse.map (fun d => 48 + d)).length),
      buf (i - digits.length + 1 + j) = (digits.reverse.map (fun d => 48 + d))[j] := by
  intro j hj
  simp only [List.length_map, List.length_reverse] at hj
  rw [List.getElem_map, List.getElem_reverse]
  have := h (digits.length - 1 - j) (by omega)
  rw [← this]
  congr 1
  omega

/-- For every `int` other than the least one, `write(int)` writes the
canonical decimal representation, whatever the static buffer held before. -/
theorem write_int_canonical (b : Buffer) (n : Int) (h1 : -2147483648 < n)
    (h2 : n < 2147483648) : write_int b n = decimal n := by
  by_cases h0 : n = 0
  · subst h0
    simp [write_int, decimal, c_string, Function.update_apply]
  · unfold write_int decimal
    simp only [h0, if_false]
    have hm0 : n.natAbs ≠ 0 := by omega
    have hlt : n.natAbs < 2147483648 := by omega
    have hnum : (if n < 0 then to_int (-n) else n) = (n.natAbs : Int) := by
      unfold to_int
      split_ifs <;> omega
    rw [hnum]
    have hlen := digits_length_int n.natAbs hlt
    obtain ⟨l1, l2, l3⟩ := write_digit_loop n.natAbs 11 (Function.update b 11 0) 10
      (by omega) (by omega)
    generalize write_digit^[11] _ = st at l1 l2 l3
    have hcells := digit_cells st.char_number (Nat.digits 10 n.natAbs) 10 l2
    have hnz : ∀ x ∈ (Nat.digits 10 n.natAbs).reverse.map (fun d => 48 + d), x ≠ 0 := by
      intro x hx
      simp only [List.mem_map, List.mem_reverse] at hx
      obtain ⟨d, -, rfl⟩ := hx
      omega
    have hend : st.char_number 11 = 0 := by
      rw [l3 11 (Or.inr (by norm_num))]
      simp
    by_cases hneg : n < 0
    · simp only [hneg, decide_True, if_true]
      rw [c_string_spec _ (45 :: (Nat.digits 10 n.natAbs).reverse.map (fun d => 48 + d)) 12]
      · simp [List.map_map, Function.comp_def]
      · intro j hj
        rw [l1]
        cases j with
        | zero =>
          rw [Function.update_apply, if_pos (by push_cast; omega)]
          rfl
        | succ j =>
          simp only [List.getElem_cons_succ]
          simp only [List.length_cons] at hj
          rw [Function.update_apply, if_neg (by push_cast; omega)]
          rw [← hcells j (by simpa using hj)]
          congr 1
          push_cast
          omega
      · intro x hx
        simp only [List.mem_cons] at hx
        rcases hx with rfl | hx
        · norm_num
        · exact hnz x hx
      · simp only [List.length_cons, List.length_map, List.length_reverse]
        rw [l1, Function.update_apply, if_neg (by push_cast; omega)]
        convert hend using 2
        simp only [List.length_map, List.length_reverse]
        push_cast
        omega
      · simp only [List.length_cons, List.length_map, List.length_reverse]
        omega
    · simp only [hneg, decide_False, Bool.false_eq_true, if_false, List.nil_append]
      rw [l1, c_string_spec _ ((Nat.digits 10 n.natAbs).reverse.map (fun d => 48 + d)) 12]
      · simp [List.map_map, Function.comp_def]
      · exact hcells
      · exact hnz
      · simp only [List.length_map, List.length_reverse]
        convert hend using 2
        omega
      · simp only [List.length_map, List.length_reverse]
        omega

/-- Two buffers that hold the same bytes from `start` to a zero byte at `last`
hold the same C string at `start`. -/
theorem c_string_congr (b1 b2 : Buffer) (last : Int) (h0 : b1 last = 0) :
    ∀ (fuel : Nat) (start : Int), start ≤ last →
      (∀ idx, start ≤ idx → idx ≤ last → b1 idx = b2 idx) →
      c_string b1 fuel start = c_string b2 fuel start := by
  intro fuel
  induction fuel with
  | zero =>
    intro start _ _
    rfl
  | succ fuel ih =>
    intro start hs hb
    unfold c_string
    rw [← hb start (le_refl _) hs]
    by_cases hz : b1 start = 0
    · rw [if_pos hz, if_pos hz]
    · rw [if_neg hz, if_neg hz]
      have hne : start ≠ last := fun e => hz (e ▸ h0)
      rw [ih (start + 1) (by omega) (fun idx h1 h2 => hb idx (by omega) h2)]

/-- The loop of `write(int)` run on two buffers stores the same bytes, and
none at the index 11. -/
theorem write_digit_congr (k : Nat) (st1 st2 : DigitState)
    (hi : st1.index = st2.index) (hn : st1.number = st2.number) (h10 : st1.index ≤ 10)
    (hb : ∀ idx, st1.index < idx → idx ≤ 11 → st1.char_number idx = st2.char_number idx) :
    (write_digit^[k] st1).index = (write_digit^[k] st2).index
    ∧ (write_digit^[k] st1).index ≤ 10
    ∧ (∀ idx, (write_digit^[k] st1).index < idx → idx ≤ 11 →
        (write_digit^[k] st1).char_number idx = (write_digit^[k] st2).char_number idx)
    ∧ (write_digit^[k] st1).char_number 11 = st1.char_number 11 := by
  induction k generalizing st1 st2 with
  | zero => exact ⟨hi, h10, hb, rfl⟩
  | succ k ih =>
    rw [Function.iterate_succ_apply, Function.iterate_succ_apply]
    by_cases hc : st1.index ≥ 0 ∧ st1.number ≠ 0
    · have s1 : write_digit st1
          = { char_number :=
                Function.update st1.char_number st1.index (to_uchar (48 + st1.number.tmod 10))
              index := st1.index - 1
              number := st1.number.tdiv 10 } := by
        unfold write_digit
        rw [if_pos hc]
      have s2 : write_digit st2
          = { char_number :=
                Function.update st2.char_number st1.index (to_uchar (48 + st1.number.tmod 10))
              index := st1.index - 1
              number := st1.number.tdiv 10 } := by
        unfold write_digit
        rw [← hi, ← hn, if_pos hc]
      rw [s1, s2]
      obtain ⟨a1, a2, a3, a4⟩ := ih
        { char_number :=
            Function.update st1.char_number st1.index (to_uchar (48 + st1.number.tmod 10))
          index := st1.index - 1
          number := st1.number.tdiv 10 }
        { char_number :=
            Function.update st2.char_number st1.index (to_uchar (48 + st1.number.tmod 10))
          index := st1.index - 1
          number := st1.number.tdiv 10 } rfl rfl
        (by
          show st1.index - 1 ≤ 10
          omega)
        (by
          intro idx hidx h11
          show Function.update st1.char_number st1.index _ idx
            = Function.update st2.char_number st1.index _ idx
          have hidx2 : st1.index - 1 < idx := hidx
          simp only [Function.update_apply]
          split_ifs
          · rfl
          · exact hb idx (by omega) h11)
      refine ⟨a1, a2, a3, ?_⟩
      rw [a4]
      show Function.update st1.char_number st1.index _ 11 = _
      rw [Function.update_noteq (by omega)]
    · have s1 : write_digit st1 = st1 := by
        unfold write_digit
        rw [if_neg hc]
      have s2 : write_digit st2 = st2 := by
        unfold write_digit
        rw [← hi, ← hn, if_neg hc]
      rw [s1, s2]
      exact ih st1 st2 hi hn h10 hb

/-- What `write(int)` writes does not depend on what the static buffer held
before the call. -/
theorem write_int_static (b1 b2 : Buffer) (n : Int) : write_int b1 n = write_int b2 n := by
  unfold write_int
  by_cases h0 : n = 0
  · simp [h0, c_string, Function.update_apply]
  · simp only [h0, if_false]
    obtain ⟨e1, e2, e3, e4⟩ := write_digit_congr 11
      { char_number := Function.update b1 11 0, index := 10,
        number := if n < 0 then to_int (-n) else n }
      { char_number := Function.update b2 11 0, index := 10,
        number := if n < 0 then to_int (-n) else n } rfl rfl (le_refl _)
      (by
        intro idx hidx h11
        have hidx2 : (10 : Int) < idx := hidx
        show Function.update b1 11 0 idx = Function.update b2 11 0 idx
        rw [show idx = 11 by omega, Function.update_same, Function.update_same])
    have e5 := e4.trans (Function.update_same (11 : Int) (0 : Nat) b1)
    generalize write_digit^[11] _ = s1 at e1 e2 e3 e5
    generalize write_digit^[11] _ = s2 at e1 e3
    by_cases hneg : n < 0
    · simp only [hneg, decide_True, if_true]
      rw [← e1]
      apply c_string_congr _ _ 11
      · rw [Function.update_noteq (by omega)]
        exact e5
      · omega
      · intro idx h1 h2
        simp only [Function.update_apply]
        split_ifs
        · rfl
        · exact e3 idx (by omega) h2
    · simp only [hneg, decide_False, Bool.false_eq_true, if_false]
      rw [← e1]
      apply c_string_congr _ _ 11 e5
      · omega
      · intro idx h1 h2
        exact e3 idx (by omega) h2

/-- The six characters that `change_font` writes for a colour of at most six
hexadecimal digits. -/
theorem color_number_eq (color : Int) (h0 : 0 ≤ color) (h1 : color ≤ 0xFFFFFF) :
    color_number color = hex6 color.toNat := by
  have s5 : ((5 - 0) <<< 2 : Nat) = 20 := rfl
  have s4 : ((5 - 1) <<< 2 : Nat) = 16 := rfl
  have s3 : ((5 - 2) <<< 2 : Nat) = 12 := rfl
  have s2 : ((5 - 3) <<< 2 : Nat) = 8 := rfl
  have s1 : ((5 - 4) <<< 2 : Nat) = 4 := rfl
  have s0 : ((5 - 5) <<< 2 : Nat) = 0 := rfl
  have e5 : ((color >>> (20 : Nat)) % 16).toNat = color.toNat / 1048576 % 16 := by
    rw [Int.shiftRight_eq_div_pow]
    omega
  have e4 : ((color >>> (16 : Nat)) % 16).toNat = color.toNat / 65536 % 16 := by
    rw [Int.shiftRight_eq_div_pow]
    omega
  have e3 : ((color >>> (12 : Nat)) % 16).toNat = color.toNat / 4096 % 16 := by
    rw [Int.shiftRight_eq_div_pow]
    omega
  have e2 : ((color >>> (8 : Nat)) % 16).toNat = color.toNat / 256 % 16 := by
    rw [Int.shiftRight_eq_div_pow]
    omega
  have e1 : ((color >>> (4 : Nat)) % 16).toNat = color.toNat / 16 % 16 := by
    rw [Int.shiftRight_eq_div_pow]
    omega
  have e0 : ((color >>> (0 : Nat)) % 16).toNat = color.toNat % 16 := by
    rw [Int.shiftRight_eq_div_pow]
    omega
  unfold color_number hex6
  rw [show List.range 6 = [0, 1, 2, 3, 4, 5] from rfl]
  simp only [List.map_cons, List.map_nil, s5, s4, s3, s2, s1, s0, e5, e4, e3, e2, e1, e0]
  rw [(hex_table _ (Nat.mod_lt _ (by decide))).1, (hex_table _ (Nat.mod_lt _ (by decide))).1,
    (hex_table _ (Nat.mod_lt _ (by decide))).1, (hex_table _ (Nat.mod_lt _ (by decide))).1,
    (hex_table _ (Nat.mod_lt _ (by decide))).1, (hex_table _ (Nat.mod_lt _ (by decide))).1]

theorem read_hex_hex6 (m : Nat) (hm : m ≤ 0xFFFFFF) : read_hex (hex6 m) = m := by
  unfold read_hex hex6
  simp only [List.foldl_cons, List.foldl_nil]
  rw [(hex_table _ (Nat.mod_lt _ (by decide))).2, (hex_table _ (Nat.mod_lt _ (by decide))).2,
    (hex_table _ (Nat.mod_lt _ (by decide))).2, (hex_table _ (Nat.mod_lt _ (by decide))).2,
    (hex_table _ (Nat.mod_lt _ (by decide))).2, (hex_table _ (Nat.mod_lt _ (by decide))).2]
  omega

/-! ## Lemmas on the metadata -/

theorem char_toNat_ofNat (b : Nat) (h : b < 256) : (Char.ofNat b).toNat = b := by
  unfold Char.ofNat
  have hv : b.isValidChar := Or.inl (by omega)
  rw [dif_pos hv]
  rfl

theorem bytes_string_toNat (bytes : List Nat) (h : ∀ b ∈ bytes, b < 256) :
    (bytes_string bytes).map Char.toNat = bytes := by
  induction bytes with
  | nil => rfl
  | cons a rest ih =>
    simp only [bytes_string, List.map_cons, List.map_map] at ih ⊢
    rw [char_toNat_ofNat a (h a (by simp)), ih (fun b hb => h b (by simp [hb]))]

/-- A sequence of bytes without a zero byte is written whole. -/
theorem c_str_bytes (bytes : List Nat) (h : ∀ b ∈ bytes, 0 < b ∧ b < 256) :
    c_str (bytes_string bytes) = bytes_string bytes := by
  unfold c_str
  rw [List.takeWhile_eq_self_iff]
  intro c hc
  simp only [bytes_string, List.mem_map] at hc
  obtain ⟨b, hb, rfl⟩ := hc
  simp only [ne_eq, decide_not, Bool.not_eq_true', decide_eq_false_iff_not]
  intro e
  have := congrArg Char.toNat e
  rw [char_toNat_ofNat b (h b hb).2, char_toNat_ofNat 0 (by norm_num)] at this
  have := (h b hb).1
  omega

theorem utf16be_cons (c : Nat) (rest : List Nat) (hc : c < 0x10000) :
    utf16be (c :: rest) = c / 256 :: c % 256 :: utf16be rest := by
  simp [utf16be, utf16_units, hc]

/-- The big-endian UTF-16 bytes of a text of the Basic Multilingual Plane:
two bytes for each character, from which the loop of `add_metatag` reads the
characters back. -/
theorem utf16be_bmp (text : List Nat) (h : ∀ c ∈ text, c < 0x10000) :
    (utf16be text).length = 2 * text.length
    ∧ (∀ b ∈ utf16be text, b < 256)
    ∧ metatag_units false (utf16be text) = text := by
  induction text with
  | nil => exact ⟨rfl, by simp [utf16be], rfl⟩
  | cons c rest ih =>
    have hc := h c (by simp)
    obtain ⟨i1, i2, i3⟩ := ih (fun x hx => h x (by simp [hx]))
    rw [utf16be_cons c rest hc]
    refine ⟨?_, ?_, ?_⟩
    · simp only [List.length_cons, i1]
      omega
    · intro b hb
      simp only [List.mem_cons] at hb
      rcases hb with rfl | rfl | hb
      · omega
      · omega
      · exact i2 b hb
    · simp only [metatag_units, Bool.false_eq_true, if_false, i3]
      congr 1
      omega

/-- For a character of the Basic Multilingual Plane the `switch` of
`add_metatag` appends the escaped UTF-8 bytes of the character. -/
theorem metatag_bytes_bmp (c : Nat) (hc : c < 0x10000) :
    metatag_bytes true c
      = (if c = 0x3C then "&lt;".toList.map Char.toNat
         else if c = 0x3E then "&gt;".toList.map Char.toNat
         else if c = 0x26 then "&amp;".toList.map Char.toNat
         else utf8_bytes c) := by
  unfold metatag_bytes mapUTF8 utf8_bytes
  by_cases h1 : c = 0x3C
  · rw [if_pos h1, if_pos h1]
    rfl
  · rw [if_neg h1, if_neg h1]
    by_cases h2 : c = 0x3E
    · rw [if_pos h2, if_pos h2]
      rfl
    · rw [if_neg h2, if_neg h2]
      by_cases h3 : c = 0x26
      · rw [if_pos h3, if_pos h3]
        rfl
      · rw [if_neg h3, if_neg h3]
        simp only [if_true]
        split_ifs <;> first | rfl | omega

/-- The escaped UTF-8 bytes of a text of the Basic Multilingual Plane without
U+0000 are neither zero nor above 0xEF. -/
theorem escaped_utf8_bytes (text : List Nat) (h : ∀ c ∈ text, 0 < c ∧ c < 0x10000) :
    ∀ b ∈ escaped_utf8 text, 0 < b ∧ b < 0xF0 := by
  intro b hb
  simp only [escaped_utf8, List.mem_flatten, List.mem_map] at hb
  obtain ⟨l, ⟨c, hc, rfl⟩, hbl⟩ := hb
  obtain ⟨c0, c1⟩ := h c hc
  unfold utf8_bytes at hbl
  split_ifs at hbl
  all_goals first
    | (simp only [List.mem_cons, List.mem_singleton, List.not_mem_nil, or_false] at hbl
       omega)
    | (revert hbl b
       decide)

/-- What `add_metatag` writes for a value that starts with the bytes FE FF:
the escaped UTF-8 bytes of the characters of the Basic Multilingual Plane that
the rest of the value holds in big-endian UTF-16. -/
theorem add_metatag_eq (tag : GString) (text : List Nat)
    (h : ∀ c ∈ text, 0 < c ∧ c < 0x10000) :
    add_metatag tag (some (bytes_string ([0xFE, 0xFF] ++ utf16be text)))
      = (false, "  <".toList ++ c_str tag ++ ">".toList ++ bytes_string (escaped_utf8 text)
          ++ "</".toList ++ c_str tag ++ ">\n".toList) := by
  obtain ⟨u1, u2, u3⟩ := utf16be_bmp text (fun c hc => (h c hc).2)
  have hbytes : (bytes_string ([0xFE, 0xFF] ++ utf16be text)).map Char.toNat
      = 0xFE :: 0xFF :: utf16be text := by
    rw [bytes_string_toNat]
    · rfl
    · intro b hb
      simp only [List.cons_append, List.nil_append, List.mem_cons] at hb
      rcases hb with rfl | rfl | hb
      · norm_num
      · norm_num
      · exact u2 b hb
  have hlen : (((0xFE :: 0xFF :: utf16be text).length >>> 1) <<< 1)
      = (0xFE :: 0xFF :: utf16be text).length := by
    simp only [List.length_cons, u1, Nat.shiftRight_eq_div_pow, Nat.shiftLeft_eq]
    omega
  have hesc : (text.map (metatag_bytes true)).flatten = escaped_utf8 text := by
    unfold escaped_utf8
    congr 1
    apply List.map_congr_left
    intro c hc
    exact metatag_bytes_bmp c (h c hc).2
  unfold add_metatag
  simp only [hbytes]
  simp only [List.getD_cons_zero, List.getD_cons_succ, hlen, List.take_length]
  simp only [show ¬ (254 = 239) by decide, show ¬ (254 = 255) by decide, false_and, and_false,
    if_false, true_and, decide_False, Bool.and_false, Bool.not_false, Bool.and_true, and_self,
    decide_True, Bool.false_or, if_true, Bool.true_and, Bool.or_true, Bool.or_false]
  have h2 : (0xFE :: 0xFF :: utf16be text).length ≥ 2 := by
    simp only [List.length_cons]
    omega
  have ht : List.take (0xFE :: 0xFF :: utf16be text).length (0xFE :: 0xFF :: utf16be text)
      = 0xFE :: 0xFF :: utf16be text := List.take_of_length_le (le_refl _)
  simp only [h2, decide_True, Bool.true_and, Bool.and_true, if_true, ht, List.drop_succ_cons,
    List.drop_zero, u3, hesc, Bool.or_true, Bool.true_or]
  rw [show List.map Char.ofNat (escaped_utf8 text) = bytes_string (escaped_utf8 text) from rfl,
    c_str_bytes _ (fun b hb => by
    have := escaped_utf8_bytes text h b hb
    omega)]

/-- No function of one UTF-16 code unit, called once for each unit as
`add_metatag` calls `mapUTF8`, yields the UTF-8 encoding of the characters
U+1F600, U+1F400 and U+1F200 from their surrogate pairs. -/
theorem no_unit_transcoder (f : Nat → List Nat) :
    ¬ (f 0xD83D ++ f 0xDE00 = utf8_bytes 0x1F600 ∧ f 0xD83D ++ f 0xDC00 = utf8_bytes 0x1F400
        ∧ f 0xD83C ++ f 0xDE00 = utf8_bytes 0x1F200) := by
  rw [show utf8_bytes 0x1F600 = [0xF0, 0x9F, 0x98, 0x80] by decide,
    show utf8_bytes 0x1F400 = [0xF0, 0x9F, 0x90, 0x80] by decide,
    show utf8_bytes 0x1F200 = [0xF0, 0x9F, 0x88, 0x80] by decide]
  generalize f 0xD83D = a
  generalize f 0xDE00 = b
  generalize f 0xDC00 = b2
  generalize f 0xD83C = c
  rintro ⟨h1, h2, h3⟩
  have r3 := congrArg List.reverse h3
  rw [List.reverse_append] at r3
  rcases a with _ | ⟨x, _ | ⟨y, _ | ⟨z, r⟩⟩⟩
  · simp only [List.nil_append] at h1
    subst h1
    simp at r3
  · simp only [List.singleton_append, List.cons.injEq] at h1
    rw [h1.2] at r3
    simp at r3
  · simp only [List.cons_append, List.nil_append, List.cons.injEq] at h1
    rw [h1.2.2] at r3
    simp at r3
  · simp only [List.cons_append, List.cons.injEq] at h1 h2
    omega

/-- For every metadata value that begins with the bytes FE FF
followed by the big-endian UTF-16 code units of a text whose characters all
lie below U+10000 (the Basic Multilingual Plane, where a character is one code
unit) and none of which is U+0000, `add_metatag` returns false and writes,
between the opening and the closing tag, exactly the UTF-8 encoding of the
text with each '<', '>' and '&' replaced by "&lt;", "&gt;" and "&amp;"; no
byte written for the text is FE or FF, so that the byte-order mark does not
appear. -/
theorem add_metatag_utf16be (tag : GString) (text : List Nat)
    (h : ∀ c ∈ text, 0 < c ∧ c < 0x10000) :
    add_metatag tag (some (bytes_string ([0xFE, 0xFF] ++ utf16be text)))
        = (false, "  <".toList ++ c_str tag ++ ">".toList ++ bytes_string (escaped_utf8 text)
            ++ "</".toList ++ c_str tag ++ ">\n".toList)
    ∧ ∀ b ∈ escaped_utf8 text, b ≠ 0xFE ∧ b ≠ 0xFF := by
  refine ⟨add_metatag_eq tag text h, ?_⟩
  intro b hb
  have := escaped_utf8_bytes text h b hb
  omega

/-- The title "a<é€" in big-endian UTF-16 after the bytes FE FF is written
in UTF-8 with its '<' escaped. -/
theorem add_metatag_utf16be_sample :
    add_metatag "title".toList
        (some (bytes_string [0xFE, 0xFF, 0, 0x61, 0, 0x3C, 0, 0xE9, 0x20, 0xAC]))
      = (false, "  <title>".toList
          ++ bytes_string [0x61, 0x26, 0x6C, 0x74, 0x3B, 0xC3, 0xA9, 0xE2, 0x82, 0xAC]
          ++ "</title>\n".toList) :=
  (add_metatag_utf16be "title".toList sample_bmp_text (by decide)).1

/-! ## Lemmas on pages -/

theorem emitted_of_append (before after : MbpOutputDev) (delta : List XmlItem)
    (h : after.dev_output.file = before.dev_output.file ++ delta) :
    emitted before after = delta := by
  unfold emitted
  rw [h, List.drop_left]

theorem startPage_flags (dev : MbpOutputDev) (w h : ℚ) :
    (startPage dev w h).dev_output.page_opened = true
    ∧ (startPage dev w h).dev_font_has_changed = true := ⟨rfl, rfl⟩

theorem updateFont_changed (dev : MbpOutputDev) (f : Option FontInfo)
    (h : (updateFont dev f).dev_font_has_changed = false) : dev.dev_font_has_changed = false := by
  cases f with
  | none => exact h
  | some f =>
    simp only [updateFont] at h
    split_ifs at h
    exact h

theorem font_check_changed (dev : MbpOutputDev) (g : TextRun)
    (h : (font_check dev g).dev_font_has_changed = false) : dev.dev_font_has_changed = false := by
  rw [font_check_eq] at h
  simp only [Bool.or_eq_false_iff] at h
  exact h.1.1.1

/-- One callback of a traversal made of pages: a text block that it writes is
the first element that it writes, and is written while the page tag and the
font tag are open; a non-blank `drawString` leaves the font unmarked; and the
invariant of the pages is kept. -/
theorem step_page (d : MbpOutputDev) (c : Callback) (inside next : Bool)
    (hs : page_step inside c = some next) (hinv : page_invariant inside d) :
    page_invariant next (step d c)
    ∧ (∀ t r, XmlItem.text_block t r ∈ emitted d (step d c) →
        (emitted d (step d c)).head? = some (XmlItem.text_block t r)
        ∧ d.dev_output.page_opened = true ∧ d.dev_output.font_opened = true)
    ∧ (∀ g, c = Callback.drawString g → all_blanks g.text_content = false →
        (step d c).dev_font_has_changed = false) := by
  cases c with
  | startPage w h =>
    cases inside
    · simp only [page_step, Bool.false_eq_true, if_false, Option.some.injEq] at hs
      subst hs
      obtain ⟨p1, p2, -⟩ := startPage_spec d w h
      obtain ⟨f1, f2⟩ := startPage_flags d w h
      refine ⟨?_, ?_, ?_⟩
      · intro _
        refine ⟨f1, ?_, ?_⟩
        · intro hv
          simp only [step, p2, Bool.false_eq_true] at hv
        · intro hc
          simp only [step, f2, Bool.true_eq_false] at hc
      · intro t r hm
        exfalso
        rw [emitted_of_append d _ _ (by simpa only [step, List.append_assoc] using p1)] at hm
        cases d.dev_output.font_opened <;> cases d.dev_output.page_opened <;> simp at hm
      · intro g hg
        cases hg
    · simp [page_step] at hs
  | endPage =>
    cases inside
    · simp [page_step] at hs
    · simp only [page_step, if_true, Option.some.injEq] at hs
      subst hs
      obtain ⟨i1, i2, -⟩ := hinv rfl
      have he : emitted d (step d Callback.endPage)
          = (if d.dev_coalesc_valid = true
              then [XmlItem.text_block d.dev_coalesc_content d.dev_coalesc_rect] else []) :=
        emitted_of_append d _ _ (by simp only [step, endPage_eq])
      refine ⟨fun hf => (by cases hf), ?_, ?_⟩
      · intro t r hm
        rw [he] at hm ⊢
        split_ifs at hm ⊢ with hv
        · simp only [List.mem_singleton] at hm
          rw [← hm]
          exact ⟨rfl, i1, i2 hv⟩
        · simp at hm
      · intro g hg
        cases hg
  | updateFont f =>
    cases inside
    · simp [page_step] at hs
    · simp only [page_step, if_true, Option.some.injEq] at hs
      subst hs
      obtain ⟨i1, i2, i3⟩ := hinv rfl
      obtain ⟨u1, u2, -, -⟩ := updateFont_frame d f
      refine ⟨?_, ?_, ?_⟩
      · intro _
        simp only [step, u1, u2]
        exact ⟨i1, i2, fun hc => i3 (updateFont_changed d f hc)⟩
      · intro t r hm
        rw [emitted_of_append d _ [] (by simp only [step, u1, List.append_nil])] at hm
        simp at hm
      · intro g hg
        cases hg
  | drawImage i =>
    cases inside
    · simp [page_step] at hs
    · simp only [page_step, if_true, Option.some.injEq] at hs
      subst hs
      obtain ⟨i1, i2, i3⟩ := hinv rfl
      obtain ⟨⟨name, rect, m1⟩, m2, m3, m4, m5⟩ := drawImageOrMask_spec d i
      refine ⟨?_, ?_, ?_⟩
      · intro _
        refine ⟨?_, ?_, ?_⟩
        · show (drawImageOrMask d i).dev_output.page_opened = true
          rw [m3]
          exact i1
        · intro hv
          have hv2 : (drawImageOrMask d i).dev_coalesc_valid = true := hv
          rw [m2] at hv2
          cases hv2
        · intro hc
          have hc2 : (drawImageOrMask d i).dev_font_has_changed = false := hc
          show (drawImageOrMask d i).dev_output.font_opened = true
          rw [m4]
          rw [m5] at hc2
          exact i3 hc2
      · intro t r hm
        rw [emitted_of_append d _ _ (by simpa only [step, List.append_assoc] using m1)] at hm ⊢
        split_ifs at hm ⊢ with hv
        · simp only [List.singleton_append, List.mem_cons, List.mem_singleton,
            List.not_mem_nil, or_false] at hm
          rcases hm with hm | hm
          · rw [← hm]
            exact ⟨rfl, i1, i2 hv⟩
          · cases hm
        · simp at hm
      · intro g hg
        cases hg
  | drawLink l =>
    cases inside
    · simp [page_step] at hs
    · simp only [page_step, if_true, Option.some.injEq] at hs
      subst hs
      obtain ⟨items, e, hn, -⟩ := drawLink_eq d l
      refine ⟨?_, ?_, ?_⟩
      · intro _
        simp only [step, e]
        exact hinv rfl
      · intro t r hm
        rw [emitted_of_append d _ items (by simp only [step, e])] at hm
        exact absurd hm (hn t r)
      · intro g hg
        cases hg
  | drawString g =>
    cases inside
    · simp [page_step] at hs
    · simp only [page_step, if_true, Option.some.injEq] at hs
      subst hs
      obtain ⟨i1, i2, i3⟩ := hinv rfl
      by_cases hb : all_blanks g.text_content = true
      · refine ⟨?_, ?_, ?_⟩
        · intro _
          simp only [step, drawString_blank_eq _ _ hb]
          exact ⟨i1, i2, i3⟩
        · intro t r hm
          rw [emitted_of_append d _ []
            (by simp only [step, drawString_blank_eq _ _ hb, List.append_nil])] at hm
          simp at hm
        · intro g2 hg hnb
          cases hg
          rw [hb] at hnb
          cases hnb
      · have hb2 : all_blanks g.text_content = false := by simpa using hb
        obtain ⟨s1, s2, -, -, -, -, -, -, -, s10, s11, s12⟩ := drawString_spec d g hb2
        refine ⟨?_, ?_, ?_⟩
        · intro _
          simp only [step, s2, s10, s11, s12]
          have hopen : (d.dev_output.font_opened || (font_check d g).dev_font_has_changed)
              = true := by
            cases hc : (font_check d g).dev_font_has_changed
            · rw [i3 (font_check_changed d g hc)]
              rfl
            · simp
          exact ⟨i1, fun _ => hopen, fun _ => hopen⟩
        · intro t r hm
          rw [emitted_of_append d _ _ (by simpa only [step, List.append_assoc] using s1)] at hm ⊢
          by_cases hcond : (!append (font_check d g) g && !overprint d g && d.dev_coalesc_valid)
              = true
          · rw [if_pos hcond] at hm ⊢
            have hv : d.dev_coalesc_valid = true := by
              simp only [Bool.and_eq_true] at hcond
              exact hcond.2
            simp only [List.singleton_append, List.mem_cons] at hm
            rcases hm with hm | hm
            · rw [← hm]
              exact ⟨rfl, i1, i2 hv⟩
            · exfalso
              cases (font_check d g).dev_font_has_changed <;> cases d.dev_output.font_opened
                <;> simp at hm
          · rw [if_neg hcond] at hm
            exfalso
            cases (font_check d g).dev_font_has_changed <;> cases d.dev_output.font_opened
              <;> simp at hm
        · intro g2 _ _
          exact s10

/-- The invariant of the pages holds after every part of a traversal made of
pages. -/
theorem run_page : ∀ (pre rest : List Callback) (inside : Bool) (d : MbpOutputDev),
    page_sequence inside (pre ++ rest) = true → page_invariant inside d →
    ∃ next, page_sequence next rest = true ∧ page_invariant next (run d pre) := by
  intro pre
  induction pre with
  | nil =>
    intro rest inside d hseq hinv
    exact ⟨inside, hseq, hinv⟩
  | cons c pre ih =>
    intro rest inside d hseq hinv
    simp only [List.cons_append, page_sequence] at hseq
    cases hs : page_step inside c with
    | none => simp [hs] at hseq
    | some next =>
      simp only [hs] at hseq
      rw [run_cons]
      exact ih rest next (step d c) hseq (step_page d c inside next hs hinv).1
/-! ## The claims -/

/-- C2 as stated fails in three ways.  At an overlap of exactly one half,
"Hello" drawn twice, each rectangle covering half of the other, gives two text
blocks where the first fragment alone gives one.  At an overlap of 16777217 of
33554432 square units, more than one half, the conversion of the overlap to
`float` yields 16777216, which is not more than one half, and two text blocks
are written.  And a first fragment at the height -1000, which `startPage`
gives to the previous fragment, is stitched to that fragment and recorded with
a rectangle of width 2 instead of 6, so that the same fragment drawn again, in
the same rectangle, is written as a second text block. -/
theorem overprint_half_overlap_counterexample :
    (strip_spaces sample_half_over.text_content = strip_spaces sample_wide.text_content
      ∧ (sample_half_over.rect.is_intersecting sample_wide.rect).1 = true
      ∧ 2 * (sample_half_over.rect.is_intersecting sample_wide.rect).2.surface
          ≥ sample_half_over.rect.surface
      ∧ 2 * (sample_wide.rect.is_intersecting sample_half_over.rect).2.surface
          ≥ sample_wide.rect.surface
      ∧ text_block_count (emitted (MbpOutputDev.new XmlOutput.new [])
          (run (MbpOutputDev.new XmlOutput.new [])
            [Callback.startPage 612 792, Callback.drawString sample_wide,
             Callback.drawString sample_half_over, Callback.endPage])) = 2
      ∧ text_block_count (emitted (MbpOutputDev.new XmlOutput.new [])
          (run (MbpOutputDev.new XmlOutput.new [])
            [Callback.startPage 612 792, Callback.drawString sample_wide,
             Callback.endPage])) = 1)
    ∧ (strip_spaces sample_large_over.text_content = strip_spaces sample_large.text_content
      ∧ (sample_large_over.rect.is_intersecting sample_large.rect).1 = true
      ∧ (sample_large_over.rect.is_intersecting sample_large.rect).2.surface = 16777217
      ∧ sample_large_over.rect.surface = 33554432
      ∧ sample_large.rect.surface = 33554432
      ∧ to_float 16777217 = 16777216
      ∧ text_block_count (emitted (MbpOutputDev.new XmlOutput.new [])
          (run (MbpOutputDev.new XmlOutput.new [])
            [Callback.startPage 612 792, Callback.drawString sample_large,
             Callback.drawString sample_large_over, Callback.endPage])) = 2
      ∧ text_block_count (emitted (MbpOutputDev.new XmlOutput.new [])
          (run (MbpOutputDev.new XmlOutput.new [])
            [Callback.startPage 612 792, Callback.drawString sample_large,
             Callback.endPage])) = 1)
    ∧ ((sample_sentinel.rect.is_intersecting sample_sentinel.rect).2 = sample_sentinel.rect
      ∧ sample_sentinel.rect = { x := -2002, y := -999, width := 6, height := 12 }
      ∧ (drawString (startPage (MbpOutputDev.new XmlOutput.new []) 612 792)
            sample_sentinel).last_rect = { x := -1998, y := -999, width := 2, height := 12 }
      ∧ text_block_count (emitted (MbpOutputDev.new XmlOutput.new [])
          (run (MbpOutputDev.new XmlOutput.new [])
            [Callback.startPage 612 792, Callback.drawString sample_sentinel,
             Callback.drawString sample_sentinel, Callback.endPage])) = 2
      ∧ text_block_count (emitted (MbpOutputDev.new XmlOutput.new [])
          (run (MbpOutputDev.new XmlOutput.new [])
            [Callback.startPage 612 792, Callback.drawString sample_sentinel,
             Callback.endPage])) = 1) := by
  refine ⟨by decide!, by decide!, by decide!⟩

/-- C2 (amended): when the first fragment is drawn at a height above -1000
(the height that `startPage` gives to the previous fragment), the second
fragment has the text of the first once spaces are ignored, neither text ends
with a space, `is_intersecting` finds that the rectangle of the second
fragment meets the rectangle of the first, and the surface of the
intersection, converted to `float` as `drawString` converts it, is more than
half of the surface of the rectangle of the second fragment, the page with
both fragments holds no more text blocks than the page with the first fragment
alone. -/
theorem overprint_idempotent (dev : MbpOutputDev) (w h : ℚ) (f1 f2 : TextRun)
    (hst : strip_spaces f2.text_content = strip_spaces f1.text_content)
    (hn1 : no_trailing_space f1.text_content) (hn2 : no_trailing_space f2.text_content)
    (hy : -1000 < f1.y)
    (hov : (f2.rect.is_intersecting f1.rect).1 = true)
    (harea : to_float (f2.rect.is_intersecting f1.rect).2.surface
        > (1/2 : ℚ) * (f2.rect.surface : Int)) :
    text_block_count (emitted dev
        (run dev [Callback.startPage w h, Callback.drawString f1, Callback.drawString f2,
          Callback.endPage]))
      ≤ text_block_count (emitted dev
        (run dev [Callback.startPage w h, Callback.drawString f1, Callback.endPage])) := by
  obtain ⟨p1, p2, p3⟩ := startPage_spec dev w h
  by_cases hb1 : all_blanks f1.text_content = true
  · have hb2 := all_blanks_of_strip _ _ hst hb1
    have e : run dev [Callback.startPage w h, Callback.drawString f1, Callback.drawString f2,
          Callback.endPage]
        = { run dev [Callback.startPage w h, Callback.drawString f1, Callback.endPage] with
            dev_conversion_buffer := f2.text_content } := by
      simp only [run, List.foldl, step, drawString_blank_eq _ f1 hb1,
        drawString_blank_eq _ f2 hb2, endPage_eq]
    rw [e]
    exact le_refl _
  · have hb1' : all_blanks f1.text_content = false := by simpa using hb1
    obtain ⟨s1, s2, s3, -, s5, -⟩ := drawString_spec (startPage dev w h) f1 hb1'
    rw [first_fragment_rect dev w h f1 hy] at s5
    simp only [p2, Bool.and_false, Bool.false_eq_true, if_false, List.append_nil,
      List.nil_append] at s1 s3
    have hne1 : f1.text_content ≠ [] := by
      intro h0
      rw [h0] at hb1
      exact hb1 all_blanks_nil
    have e1 : (run dev [Callback.startPage w h, Callback.drawString f1,
        Callback.endPage]).dev_output.file
        = dev.dev_output.file ++ ((drawString (startPage dev w h) f1).dev_output.file.drop
              dev.dev_output.file.length
            ++ [XmlItem.text_block (drawString (startPage dev w h) f1).dev_coalesc_content
                  (drawString (startPage dev w h) f1).dev_coalesc_rect]) := by
      simp only [run, List.foldl, step, endPage_eq, s2, if_true]
      rw [s1, p1]
      simp only [List.append_assoc, List.drop_left]
    rw [emitted_append _ _ _ e1]
    by_cases hb2 : all_blanks f2.text_content = true
    · have e2 : (run dev [Callback.startPage w h, Callback.drawString f1,
          Callback.drawString f2, Callback.endPage]).dev_output.file
          = dev.dev_output.file ++ ((drawString (startPage dev w h) f1).dev_output.file.drop
                dev.dev_output.file.length
              ++ [XmlItem.text_block (drawString (startPage dev w h) f1).dev_coalesc_content
                    (drawString (startPage dev w h) f1).dev_coalesc_rect]) := by
        simp only [run, List.foldl, step, drawString_blank_eq _ f2 hb2, endPage_eq, s2, if_true]
        rw [s1, p1]
        simp only [List.append_assoc, List.drop_left]
      rw [emitted_append _ _ _ e2]
    · have hb2' : all_blanks f2.text_content = false := by simpa using hb2
      obtain ⟨t1, t2, t3, t4, -⟩ := drawString_spec (drawString (startPage dev w h) f1) f2 hb2'
      have hcmp : compare_with_coalesc (drawString (startPage dev w h) f1) f2.text_content
          = true := by
        apply compare_with_coalesc_complete _ _ s2 _ hn2
        · rw [s3]
          exact no_trailing_space_prefix _ _ hne1 hn1
        · rw [s3, strip_spaces_append, hst]
          split_ifs
          · rw [show [Char.ofNat 0x20] = Char.ofNat 0x20 :: [] from rfl,
              strip_spaces_cons_space]
            rfl
          · rfl
      have hover : overprint (drawString (startPage dev w h) f1) f2 = true := by
        unfold overprint
        rw [s5]
        simp only [hov, if_true, harea, hcmp]
      have e2 : (run dev [Callback.startPage w h, Callback.drawString f1,
          Callback.drawString f2, Callback.endPage]).dev_output.file
          = dev.dev_output.file ++ ((drawString (startPage dev w h) f1).dev_output.file.drop
                dev.dev_output.file.length
              ++ (if (font_check (drawString (startPage dev w h) f1) f2).dev_font_has_changed
                    = true
                  then (if (drawString (startPage dev w h) f1).dev_output.font_opened = true
                      then [XmlItem.font_close] else [])
                    ++ [XmlItem.font_open
                          (font_check (drawString (startPage dev w h) f1) f2).dev_current_font_face
                          (font_check (drawString (startPage dev w h) f1) f2).dev_current_font_size
                          (font_check (drawString (startPage dev w h) f1) f2).dev_current_font_color
                          (font_check (drawString (startPage dev w h) f1) f2).dev_current_font_bold
                          (font_check (drawString (startPage dev w h) f1) f2).dev_current_font_italic]
                  else [])
              ++ [XmlItem.text_block
                    (drawString (drawString (startPage dev w h) f1) f2).dev_coalesc_content
                    (drawString (drawString (startPage dev w h) f1) f2).dev_coalesc_rect]) := by
        simp only [run, List.foldl, step, endPage_eq, t2, if_true]
        rw [t1]
        simp only [hover, Bool.not_true, Bool.and_false, Bool.false_and, Bool.false_eq_true,
          if_false, List.append_nil]
        rw [s1, p1]
        simp only [List.append_assoc, List.drop_left]
      rw [emitted_append _ _ _ e2]
      simp only [text_block_count, List.countP_append, List.countP_cons, List.countP_nil,
        is_text_block]
      split_ifs <;> simp [is_text_block]

/-- C2 (amended) at "Hello" drawn twice, the second time two units to the
right and one unit lower. -/
theorem overprint_idempotent_witness :
    text_block_count (emitted (MbpOutputDev.new XmlOutput.new [])
        (run (MbpOutputDev.new XmlOutput.new [])
          [Callback.startPage 612 792, Callback.drawString sample_hello,
           Callback.drawString sample_shadow, Callback.endPage]))
      ≤ text_block_count (emitted (MbpOutputDev.new XmlOutput.new [])
        (run (MbpOutputDev.new XmlOutput.new [])
          [Callback.startPage 612 792, Callback.drawString sample_hello,
           Callback.endPage])) :=
  overprint_idempotent (MbpOutputDev.new XmlOutput.new []) 612 792 sample_hello sample_shadow
    (by decide!) (by unfold no_trailing_space; decide!) (by unfold no_trailing_space; decide!)
    (by decide!) (by decide!) (by decide!)

/-- C3: when a fragment `g` passes the adjacency test against the previous
fragment `fp` of the page while the font dirty flag is set (`stitch_blocks`;
font updates, blank text and images may have come in between), `drawString`
moves the left edge of its rectangle to the right edge of the rectangle of
`fp` and keeps its right edge, top and height; the file receives the pending
block (when one is valid and `g` is no overprint), then the font tag, and the
text of `g` starts a new pending block, to be written after the font tag. -/
theorem stitch_correct (dev0 dev : MbpOutputDev) (fp g : TextRun) (cs : List Callback)
    (hdev : dev = run (drawString dev0 fp) cs)
    (hcs : ∀ c ∈ cs, draws_no_text c = true)
    (hp : all_blanks fp.text_content = false)
    (hg : all_blanks g.text_content = false)
    (hst : stitch_blocks (font_check dev g) g = true) :
    (drawString dev g).last_rect.x = dev.last_rect.x + dev.last_rect.width
    ∧ (drawString dev g).last_rect.x + (drawString dev g).last_rect.width
        = g.rect.x + g.rect.width
    ∧ (drawString dev g).last_rect.y = g.rect.y
    ∧ (drawString dev g).last_rect.height = g.rect.height
    ∧ (drawString dev g).dev_output.file
        = dev.dev_output.file
          ++ (if (!overprint dev g && dev.dev_coalesc_valid) = true
              then [XmlItem.text_block dev.dev_coalesc_content dev.dev_coalesc_rect] else [])
          ++ (if dev.dev_output.font_opened = true then [XmlItem.font_close] else [])
          ++ [XmlItem.font_open (drawString dev g).dev_current_font_face
                (drawString dev g).dev_current_font_size
                (drawString dev g).dev_current_font_color
                (drawString dev g).dev_current_font_bold
                (drawString dev g).dev_current_font_italic]
    ∧ (drawString dev g).dev_coalesc_valid = true
    ∧ (drawString dev g).dev_coalesc_content
        = (if prepend_space dev g = true then [Char.ofNat 0x20] else []) ++ g.text_content := by
  obtain ⟨-, -, -, -, p5, p6, -, p8, -⟩ := drawString_spec dev0 fp hp
  obtain ⟨g1, g2, g3⟩ := run_geometry cs (drawString dev0 fp) hcs
  rw [← hdev] at g1 g2 g3
  rw [p6] at g1
  rw [p8] at g2
  rw [p5] at g3
  obtain ⟨hch, hap, hx⟩ := stitch_blocks_true _ g hst
  obtain ⟨-, -, -, -, -, -, -, -, f9, f10, -⟩ := font_check_frame dev g
  obtain ⟨s1, s2, s3, -, s5, -⟩ := drawString_spec dev g hg
  obtain ⟨r1, r2, r3⟩ := stitched_rect_right (font_check dev g) g
  obtain ⟨q1, -, -⟩ := stitched_rect_right (font_check dev0 fp) fp
  obtain ⟨e1, e2, e3, e4, e5⟩ := drawString_font dev g hg
  rw [s5, e1, e2, e3, e4, e5]
  refine ⟨?_, r1, r2, r3, ?_, s2, ?_⟩
  · rw [hx, f9, f10, g1, g2, g3, q1]
    rfl
  · rw [s1]
    simp only [hap, hch, Bool.not_false, Bool.true_and, if_true, List.append_assoc]
  · rw [s3]
    simp [hap]

/-- C3 at "Hello", a font update to bold, "World". -/
theorem stitch_correct_witness :
    (drawString (run sample_pending [sample_bold]) sample_world).last_rect.x = 150
    ∧ (drawString (run sample_pending [sample_bold]) sample_world).dev_output.file
        = [XmlItem.page_open 612 792, XmlItem.font_open [] 12 0 false false,
           XmlItem.text_block ['H', 'e', 'l', 'l', 'o'] ⟨100, 100, 50, 12⟩,
           XmlItem.font_close, XmlItem.font_open ['F'] 12 0 true false] :=
  have h := stitch_correct sample_page (run sample_pending [sample_bold]) sample_hello
    sample_world [sample_bold] rfl (by decide) (by decide!) (by decide!) (by decide!)
  ⟨h.1.trans (by decide!), h.2.2.2.2.1.trans (by decide!)⟩

/-- C4 fails on a trailing space: the pending block is valid and holds "a",
the text "a " equals it once spaces are deleted, and `compare_with_coalesc`
returns false. -/
theorem compare_with_coalesc_trailing_space :
    sample_a.dev_coalesc_valid = true
    ∧ sample_a.dev_coalesc_content = ['a']
    ∧ strip_spaces ['a', Char.ofNat 0x20] = strip_spaces sample_a.dev_coalesc_content
    ∧ compare_with_coalesc sample_a ['a', Char.ofNat 0x20] = false := by
  decide!

/-- C5: an image callback writes the pending text block if it is valid, then
the image element, and leaves the pending block invalid (EMPTY); hence the
next non-blank fragment (font updates and blank text may come before it)
starts a new pending block that holds its text alone, `drawString` writes no
text block for it, and the end of the page writes that block after the image:
the order is text, image, text. -/
theorem image_breaks_text (dev d1 : MbpOutputDev) (c : ImageCall) (cs : List Callback)
    (g : TextRun)
    (hd1 : d1 = run (drawImageOrMask dev c) cs)
    (hcs : ∀ c ∈ cs, writes_nothing c = true)
    (hnb : all_blanks g.text_content = false) :
    (∃ name r, d1.dev_output.file
        = dev.dev_output.file
          ++ (if dev.dev_coalesc_valid = true
              then [XmlItem.text_block dev.dev_coalesc_content dev.dev_coalesc_rect] else [])
          ++ [XmlItem.image_block name r])
    ∧ d1.dev_coalesc_valid = false
    ∧ (drawString d1 g).dev_coalesc_valid = true
    ∧ (drawString d1 g).dev_coalesc_content
        = (if prepend_space d1 g = true then [Char.ofNat 0x20] else []) ++ g.text_content
    ∧ (∃ fonts, (drawString d1 g).dev_output.file = d1.dev_output.file ++ fonts
        ∧ ∀ t r, XmlItem.text_block t r ∉ fonts)
    ∧ (endPage (drawString d1 g)).dev_output.file
        = (drawString d1 g).dev_output.file
          ++ [XmlItem.text_block (drawString d1 g).dev_coalesc_content
                (drawString d1 g).dev_coalesc_rect] := by
  obtain ⟨i1, i2, -⟩ := drawImageOrMask_spec dev c
  obtain ⟨w1, w2, -, -⟩ := run_writes_nothing cs (drawImageOrMask dev c) hcs
  rw [← hd1] at w1 w2
  rw [← w1] at i1
  rw [← w2] at i2
  obtain ⟨s1, s2, s3, -⟩ := drawString_spec d1 g hnb
  refine ⟨i1, i2, s2, ?_, ?_, ?_⟩
  · rw [s3]
    simp [i2]
  · simp only [i2, Bool.and_false, Bool.false_eq_true, if_false, List.append_nil] at s1
    refine ⟨_, s1, ?_⟩
    intro t r
    split_ifs <;> simp
  · rw [endPage_eq]
    simp only [s2, if_true]

/-- C5 at "Hello", the sample image, a font update to bold, "World". -/
theorem image_breaks_text_witness :
    (endPage (drawString (run (drawImageOrMask sample_pending sample_image) [sample_bold])
        sample_world)).dev_output.file
      = [XmlItem.page_open 612 792, XmlItem.font_open [] 12 0 false false,
         XmlItem.text_block ['H', 'e', 'l', 'l', 'o'] ⟨100, 100, 50, 12⟩,
         XmlItem.image_block ['d', 'o', 'c', '_', 'p', 'i', 'c', '0', '0', '0', '1', '.', 'p', 'n', 'g']
           ⟨200, 300, 40, 30⟩,
         XmlItem.font_close, XmlItem.font_open ['F'] 12 0 true false,
         XmlItem.text_block ['W', 'o', 'r', 'l', 'd'] ⟨150, 100, 52, 12⟩] :=
  (image_breaks_text sample_pending (run (drawImageOrMask sample_pending sample_image) [sample_bold])
    sample_image [sample_bold] sample_world rfl
    (by decide) (by decide!)).2.2.2.2.2.trans (by decide!)

/-- C6 as stated fails: after `endPage` on the page that holds "Hello" the
serializer still has the page tag and the font tag open. -/
theorem endPage_leaves_tags_open :
    (endPage sample_pending).dev_output.page_opened = true
    ∧ (endPage sample_pending).dev_output.font_opened = true := by
  decide!

/-- C6 (amended): `endPage` writes the pending block if it is valid and
nothing else, leaves the pending block invalid and leaves both flags of the
serializer as they were; the font tag and then the page tag are closed by the
next `start_page` and, after the last page, by `load_from_pdf`, after which
no font tag (and for `load_from_pdf` no page tag) is open. -/
theorem endPage_defers_closing (dev : MbpOutputDev) (width height : Int) :
    (endPage dev).dev_output.file
      = dev.dev_output.file
        ++ (if dev.dev_coalesc_valid = true
            then [XmlItem.text_block dev.dev_coalesc_content dev.dev_coalesc_rect] else [])
    ∧ (endPage dev).dev_coalesc_valid = false
    ∧ (endPage dev).dev_output.page_opened = dev.dev_output.page_opened
    ∧ (endPage dev).dev_output.font_opened = dev.dev_output.font_opened
    ∧ (endPage dev).dev_output.load_from_pdf_finish.file
        = (endPage dev).dev_output.file
          ++ (if dev.dev_output.font_opened = true then [XmlItem.font_close] else [])
          ++ (if dev.dev_output.page_opened = true then [XmlItem.page_close] else [])
          ++ [XmlItem.document_close]
    ∧ (endPage dev).dev_output.load_from_pdf_finish.page_opened = false
    ∧ (endPage dev).dev_output.load_from_pdf_finish.font_opened = false
    ∧ ((endPage dev).dev_output.start_page width height).file
        = (endPage dev).dev_output.file
          ++ (if dev.dev_output.font_opened = true then [XmlItem.font_close] else [])
          ++ (if dev.dev_output.page_opened = true then [XmlItem.page_close] else [])
          ++ [XmlItem.page_open width height]
    ∧ ((endPage dev).dev_output.start_page width height).font_opened = false := by
  rw [endPage_eq]
  unfold XmlOutput.load_from_pdf_finish XmlOutput.start_page
  dsimp only
  refine ⟨rfl, rfl, rfl, rfl, ?_, rfl, rfl, ?_, rfl⟩ <;>
    cases dev.dev_output.font_opened <;> cases dev.dev_output.page_opened <;> simp

/-- C7: a fragment whose text consists only of the bytes 0x20, 0x0A and 0x0D
(the empty text included) makes `drawString` write nothing and leaves the
pending block, the geometry of the previous fragment and the font state,
dirty flag included, unchanged. -/
theorem drawString_blank_frame (dev : MbpOutputDev) (g : TextRun)
    (h : ∀ c ∈ g.text_content,
      c = Char.ofNat 0x20 ∨ c = Char.ofNat 0x0A ∨ c = Char.ofNat 0x0D) :
    (drawString dev g).dev_output = dev.dev_output
    ∧ (drawString dev g).dev_coalesc_content = dev.dev_coalesc_content
    ∧ (drawString dev g).dev_coalesc_rect = dev.dev_coalesc_rect
    ∧ (drawString dev g).dev_coalesc_valid = dev.dev_coalesc_valid
    ∧ (drawString dev g).last_x = dev.last_x
    ∧ (drawString dev g).last_y = dev.last_y
    ∧ (drawString dev g).last_w = dev.last_w
    ∧ (drawString dev g).last_h = dev.last_h
    ∧ (drawString dev g).last_rect = dev.last_rect
    ∧ (drawString dev g).dev_current_font_face = dev.dev_current_font_face
    ∧ (drawString dev g).dev_current_font_bold = dev.dev_current_font_bold
    ∧ (drawString dev g).dev_current_font_italic = dev.dev_current_font_italic
    ∧ (drawString dev g).dev_current_font_size = dev.dev_current_font_size
    ∧ (drawString dev g).dev_current_font_color = dev.dev_current_font_color
    ∧ (drawString dev g).dev_font_has_changed = dev.dev_font_has_changed := by
  have hb : all_blanks g.text_content = true := (all_blanks_iff _).2 h
  unfold drawString
  simp only [hb, if_true, and_self]

/-- C7 at a run of two spaces and a line feed drawn after "Hello". -/
theorem drawString_blank_frame_witness :
    (drawString sample_pending
        (sample_run [Char.ofNat 0x20, Char.ofNat 0x20, Char.ofNat 0x0A] 150 100 8 12)).dev_output
      = sample_pending.dev_output
    ∧ (drawString sample_pending
        (sample_run [Char.ofNat 0x20, Char.ofNat 0x20, Char.ofNat 0x0A] 150 100 8 12)).dev_coalesc_content
      = ['H', 'e', 'l', 'l', 'o'] :=
  have h := drawString_blank_frame sample_pending
    (sample_run [Char.ofNat 0x20, Char.ofNat 0x20, Char.ofNat 0x0A] 150 100 8 12) (by decide)
  ⟨h.1, h.2.1.trans (by decide!)⟩

/-- C8: on a page made of `startPage`, a sequence of `drawString` and image
callbacks (font updates are allowed too) in which no fragment is classified as
an overprint duplicate, and `endPage`, the texts of the text blocks written,
concatenated in file order with the 0x20 bytes removed, equal the texts of the
non-blank fragments concatenated in call order with the 0x20 bytes removed. -/
theorem no_content_lost (dev : MbpOutputDev) (w h : ℚ) (cs : List Callback)
    (hcs : ∀ c ∈ cs, is_content_callback c = true)
    (hno : no_overprint (startPage dev w h) cs) :
    strip_spaces (emitted_text (emitted dev
        (run dev (Callback.startPage w h :: cs ++ [Callback.endPage]))))
      = strip_spaces (fragment_text cs) := by
  obtain ⟨p1, p2, -⟩ := startPage_spec dev w h
  obtain ⟨delta, f, t⟩ := run_text cs (startPage dev w h) hcs hno
  have e : (run dev (Callback.startPage w h :: cs ++ [Callback.endPage])).dev_output.file
      = dev.dev_output.file
        ++ ((if dev.dev_output.font_opened = true then [XmlItem.font_close] else [])
          ++ (if dev.dev_output.page_opened = true then [XmlItem.page_close] else [])
          ++ [XmlItem.page_open (round w) (round h)] ++ delta
          ++ (if (run (startPage dev w h) cs).dev_coalesc_valid = true
              then [XmlItem.text_block (run (startPage dev w h) cs).dev_coalesc_content
                      (run (startPage dev w h) cs).dev_coalesc_rect]
              else [])) := by
    rw [List.cons_append, run_cons, run_append]
    simp only [step, run, List.foldl, endPage_eq]
    rw [show List.foldl step (startPage dev w h) cs = run (startPage dev w h) cs from rfl, f, p1]
    simp only [List.append_assoc]
  rw [emitted_append _ _ _ e]
  simp only [pending_text, p2, Bool.false_eq_true, if_false] at t
  simp only [emitted_text_append, strip_spaces_append, List.append_assoc] at t ⊢
  rw [show strip_spaces ([] : GString) = [] from rfl, List.nil_append] at t
  rw [← t]
  cases dev.dev_output.font_opened <;> cases dev.dev_output.page_opened <;>
    cases (run (startPage dev w h) cs).dev_coalesc_valid <;>
    simp [emitted_text, item_text, strip_spaces]

/-- C8 at the page "Hello", image, "World". -/
theorem no_content_lost_witness :
    strip_spaces (emitted_text (emitted (MbpOutputDev.new XmlOutput.new [])
        (run (MbpOutputDev.new XmlOutput.new [])
          (Callback.startPage 612 792
            :: [Callback.drawString sample_hello, Callback.drawImage sample_image,
                Callback.drawString sample_world] ++ [Callback.endPage]))))
      = ['H', 'e', 'l', 'l', 'o', 'W', 'o', 'r', 'l', 'd'] :=
  (no_content_lost (MbpOutputDev.new XmlOutput.new []) 612 792
    [Callback.drawString sample_hello, Callback.drawImage sample_image,
      Callback.drawString sample_world]
    (by decide) ⟨Or.inr (by decide!), Or.inr (by decide!), trivial⟩).trans (by decide!)

/-- C12: after an image callback with the reference number `r` (a durable
identity: not the marker -1) and some flip has been processed, and after any
further callbacks, a callback with the same reference number and the same flip
allocates no new sequence number, adds no registry entry, writes no file and
writes an image element with the file name of the first callback; a callback
with the reference number `r` and a flip for which the registry has no entry
allocates the next sequence number, adds a registry entry for it and writes a
new file. -/
theorem image_dedup (dev d1 d2 : MbpOutputDev) (c1 c2 c3 : ImageCall) (cs : List Callback)
    (r : Int) (hd1 : d1 = drawImageOrMask dev c1) (hd2 : d2 = run d1 cs)
    (hr : r ≠ -1) (h1 : c1.ref = some r) (h2 : c2.ref = some r) (h3 : c3.ref = some r)
    (hsame : c2.flip = c1.flip)
    (hnew : find_picture d2.dev_picture_references r c3.flip = none) :
    ((drawImageOrMask d2 c2).dev_picture_number = d2.dev_picture_number
      ∧ (drawImageOrMask d2 c2).dev_picture_references = d2.dev_picture_references
      ∧ (drawImageOrMask d2 c2).written_files = d2.written_files
      ∧ ∃ name rect1 rect2,
          d1.dev_output.file.getLast? = some (XmlItem.image_block name rect1)
          ∧ (drawImageOrMask d2 c2).dev_output.file.getLast?
              = some (XmlItem.image_block name rect2))
    ∧ ((drawImageOrMask d2 c3).dev_picture_number = d2.dev_picture_number + 1
      ∧ (∃ extension, (drawImageOrMask d2 c3).dev_picture_references
          = d2.dev_picture_references
            ++ [PictureReference.mk r c3.flip (d2.dev_picture_number + 1) extension])
      ∧ ∃ name format, (drawImageOrMask d2 c3).written_files
          = d2.written_files ++ [(name, format)]) := by
  obtain ⟨p, rect1, f1, l1, b1⟩ := drawImageOrMask_registered dev c1 r h1 hr
  rw [← hd1] at f1 l1 b1
  obtain ⟨⟨extra, e2⟩, b2⟩ := run_registry cs d1
  rw [← hd2] at e2 b2
  have f2 : find_picture d2.dev_picture_references r c2.flip = some p := by
    rw [e2, hsame]
    exact find_picture_append _ _ _ _ _ f1
  obtain ⟨n1, n2, n3, -, rect2, n4⟩ := drawImageOrMask_hit d2 c2 r p h2 f2
  rw [b2, b1] at n4
  refine ⟨⟨n1, n2, n3, _, rect1, rect2, l1, n4⟩, ?_⟩
  obtain ⟨format, ext, -, -, m1, m2, m3, -⟩ := drawImageOrMask_miss d2 c3
    (fun r' hr' => by
      rw [h3] at hr'
      injection hr' with hr'
      rw [← hr']
      exact hnew)
  rw [h3] at m3
  simp only [hr, ne_eq, not_false_eq_true, if_true] at m3
  exact ⟨m1, ⟨ext, m3⟩, ⟨_, _, m2⟩⟩

/-- C12 at the sample image drawn after "Hello", "World", the sample image
again and the sample image flipped. -/
theorem image_dedup_witness :
    (drawImageOrMask (run (drawImageOrMask sample_pending sample_image)
        [Callback.drawString sample_world]) sample_image_again).dev_picture_number = 1
    ∧ (drawImageOrMask (run (drawImageOrMask sample_pending sample_image)
        [Callback.drawString sample_world]) sample_image_flipped).dev_picture_number = 2 :=
  have h := image_dedup sample_pending (drawImageOrMask sample_pending sample_image)
    (run (drawImageOrMask sample_pending sample_image) [Callback.drawString sample_world])
    sample_image sample_image_again sample_image_flipped [Callback.drawString sample_world] 7
    rfl rfl (by decide) rfl rfl rfl (by decide!) (by decide!)
  ⟨h.1.1.trans (by decide!), h.2.1.trans (by decide!)⟩

/-- C13 as stated fails: an inline picture in a DCT stream with three colour
components is not a mask and is written through the 24-bit path, not copied
to a jpg file; and a stencil mask in a DCT stream is copied to a jpg file, not
written through the 1-bit path. -/
theorem format_selection_counterexample :
    sample_inline_dct.is_dct = true ∧ sample_inline_dct.mask = false
    ∧ sample_inline_dct.num_pixel_comps = 3
    ∧ (drawImageOrMask sample_page sample_inline_dct).written_files
        = [(['d', 'o', 'c', '_', 'p', 'i', 'c', '0', '0', '0', '1', '.', 'p', 'n', 'g'],
            ImageFormat.png_24bit)]
    ∧ sample_mask_dct.is_dct = true ∧ sample_mask_dct.mask = true
    ∧ (drawImageOrMask sample_page sample_mask_dct).written_files
        = [(['d', 'o', 'c', '_', 'p', 'i', 'c', '0', '0', '0', '1', '.', 'j', 'p', 'g'],
            ImageFormat.jpg_copy)] := by
  decide!

/-- C13 (amended): for every image that misses the registry,
`drawImageOrMask` picks the encoding by these tests in this order: (a) when
the stream is a DCT stream, the image is not inline and it is a mask or has
exactly 3 colour components, the file is a jpg copy; (b) otherwise, when the
image is a stencil mask or has 1 component of 1 bit, the 1-bit png path is
used; (c) otherwise the 24-bit png path is used. -/
theorem format_selection (dev : MbpOutputDev) (c : ImageCall)
    (hmiss : ∀ r, c.ref = some r → find_picture dev.dev_picture_references r c.flip = none) :
    ((c.is_dct = true ∧ c.inline_img = false ∧ (c.mask = true ∨ c.num_pixel_comps = 3)) →
      (drawImageOrMask dev c).written_files
        = dev.written_files
          ++ [(compose_image_filename dev.dev_picture_base (dev.dev_picture_number + 1)
                ['j', 'p', 'g'], ImageFormat.jpg_copy)])
    ∧ (¬ (c.is_dct = true ∧ c.inline_img = false ∧ (c.mask = true ∨ c.num_pixel_comps = 3)) →
        (c.mask = true ∨ (c.num_pixel_comps = 1 ∧ c.bits = 1)) →
        (drawImageOrMask dev c).written_files
          = dev.written_files
            ++ [(compose_image_filename dev.dev_picture_base (dev.dev_picture_number + 1)
                  ['p', 'n', 'g'], ImageFormat.png_1bit)])
    ∧ (¬ (c.is_dct = true ∧ c.inline_img = false ∧ (c.mask = true ∨ c.num_pixel_comps = 3)) →
        ¬ (c.mask = true ∨ (c.num_pixel_comps = 1 ∧ c.bits = 1)) →
        (drawImageOrMask dev c).written_files
          = dev.written_files
            ++ [(compose_image_filename dev.dev_picture_base (dev.dev_picture_number + 1)
                  ['p', 'n', 'g'], ImageFormat.png_24bit)]) := by
  obtain ⟨format, ext, hf, he, -, hw, -⟩ := drawImageOrMask_miss dev c hmiss
  rw [hw, he, hf]
  have ha : (c.is_dct && (c.mask || decide (c.num_pixel_comps = 3)) && !c.inline_img) = true
      ↔ (c.is_dct = true ∧ c.inline_img = false ∧ (c.mask = true ∨ c.num_pixel_comps = 3)) := by
    simp only [Bool.and_eq_true, Bool.or_eq_true, decide_eq_true_eq, Bool.not_eq_true']
    tauto
  have hb : (c.mask || (decide (c.num_pixel_comps = 1) && decide (c.bits = 1))) = true
      ↔ (c.mask = true ∨ (c.num_pixel_comps = 1 ∧ c.bits = 1)) := by
    simp only [Bool.and_eq_true, Bool.or_eq_true, decide_eq_true_eq]
  refine ⟨?_, ?_, ?_⟩
  · intro h
    rw [if_pos (ha.2 h)]
    rfl
  · intro h1 h2
    rw [if_neg (fun h => h1 (ha.1 h)), if_pos (hb.2 h2)]
    rfl
  · intro h1 h2
    rw [if_neg (fun h => h1 (ha.1 h)), if_neg (fun h => h2 (hb.1 h))]
    rfl

/-- C13 (amended) at the stencil mask of the sample image, which takes the
1-bit path. -/
theorem format_selection_witness :
    (drawImageOrMask sample_page sample_image).written_files
      = sample_page.written_files
        ++ [(compose_image_filename sample_page.dev_picture_base
              (sample_page.dev_picture_number + 1) ['p', 'n', 'g'], ImageFormat.png_1bit)] :=
  (format_selection sample_page sample_image (by intro r _; rfl)).2.1 (by decide) (by decide)

/-- C14: for every base name, extension and sequence number `n` with
`0 ≤ n ≤ 0xFFFF`, `compose_image_filename` yields the base name, "_pic", the
four-character zero-padded uppercase hexadecimal representation of `n`, "." and
the extension; the four characters read back as a hexadecimal number give `n`. -/
theorem compose_image_filename_hex (b e : GString) (n : Int) (h0 : 0 ≤ n) (h1 : n ≤ 0xFFFF) :
    compose_image_filename b n e = b ++ ['_', 'p', 'i', 'c'] ++ hex4 n.toNat ++ ['.'] ++ e
    ∧ (hex4 n.toNat).length = 4
    ∧ ((read_hex (hex4 n.toNat) : Nat) : Int) = n := by
  refine ⟨compose_image_filename_eq b e n h0 h1, rfl, ?_⟩
  rw [read_hex_hex4 _ (by omega)]
  omega

/-- C14 at the sequence number 0x1AF. -/
theorem compose_image_filename_hex_witness :
    compose_image_filename ['d', 'o', 'c'] 0x1AF ['p', 'n', 'g']
      = ['d', 'o', 'c', '_', 'p', 'i', 'c', '0', '1', 'A', 'F', '.', 'p', 'n', 'g']
    ∧ read_hex ['0', '1', 'A', 'F'] = 0x1AF :=
  have h := compose_image_filename_hex ['d', 'o', 'c'] ['p', 'n', 'g'] 0x1AF
    (by decide) (by decide)
  ⟨h.1.trans (by decide), by decide⟩

/-- C15 as stated fails: the sequence numbers 1 and 0x10001 are distinct and
`compose_image_filename` gives both the file name "doc_pic0001.png". -/
theorem compose_image_filename_wrap_counterexample :
    (1 : Int) ≠ 0x10001
    ∧ compose_image_filename ['d', 'o', 'c'] 1 ['p', 'n', 'g']
      = compose_image_filename ['d', 'o', 'c'] 0x10001 ['p', 'n', 'g'] := by
  decide

/-- C15 (amended): `compose_image_filename` gives two distinct sequence
numbers between 0 and 0xFFFF distinct file names; a sequence number beyond
0xFFFF is cut to its low sixteen bits without any flag, so that `n` and
`n + 0x10000` get the same file name. -/
theorem compose_image_filename_injective (b e : GString) (n m k : Int)
    (hn0 : 0 ≤ n) (hn1 : n ≤ 0xFFFF) (hm0 : 0 ≤ m) (hm1 : m ≤ 0xFFFF) :
    (compose_image_filename b n e = compose_image_filename b m e → n = m)
    ∧ compose_image_filename b (k + 0x10000) e = compose_image_filename b k e := by
  constructor
  · intro h
    rw [compose_image_filename_eq b e n hn0 hn1, compose_image_filename_eq b e m hm0 hm1] at h
    simp only [List.append_assoc] at h
    have h2 := List.append_cancel_left (List.append_cancel_left h)
    have h3 := (List.append_inj h2 rfl).1
    have h4 : read_hex (hex4 n.toNat) = read_hex (hex4 m.toNat) := by rw [h3]
    rw [read_hex_hex4 _ (by omega), read_hex_hex4 _ (by omega)] at h4
    omega
  · unfold compose_image_filename
    have hs : ∀ i : Nat, ((k + 0x10000) >>> ((3 - i) * 4 : Nat)) % 16
        = (k >>> ((3 - i) * 4 : Nat)) % 16 := by
      intro i
      have hi : (3 - i) * 4 = 0 ∨ (3 - i) * 4 = 4 ∨ (3 - i) * 4 = 8 ∨ (3 - i) * 4 = 12 := by
        omega
      rw [Int.shiftRight_eq_div_pow, Int.shiftRight_eq_div_pow]
      rcases hi with hi | hi | hi | hi <;> rw [hi] <;> omega
    simp only [hs]

/-- C15 (amended) at the sequence numbers 1 and 2. -/
theorem compose_image_filename_injective_witness :
    (compose_image_filename ['d'] 1 ['p'] = compose_image_filename ['d'] 2 ['p']
      → (1 : Int) = 2)
    ∧ compose_image_filename ['d'] (5 + 0x10000) ['p'] = compose_image_filename ['d'] 5 ['p'] :=
  compose_image_filename_injective ['d'] ['p'] 1 2 5 (by decide) (by decide) (by decide)
    (by decide)

/-- C16 as stated fails for a negative width: the accumulator (0, 0, -1, 5)
is degenerate and `enlarge_to_contain` does not turn it into the operand. -/
theorem enlarge_negative_accumulator_counterexample :
    (({ x := 0, y := 0, width := -1, height := 5 } : Rect).width ≤ 0
      ∨ ({ x := 0, y := 0, width := -1, height := 5 } : Rect).height ≤ 0)
    ∧ Rect.enlarge_to_contain { x := 0, y := 0, width := -1, height := 5 }
        { x := 10, y := 10, width := 2, height := 2 }
      = { x := 0, y := 0, width := 12, height := 12 }
    ∧ Rect.enlarge_to_contain { x := 0, y := 0, width := -1, height := 5 }
        { x := 10, y := 10, width := 2, height := 2 }
      ≠ { x := 10, y := 10, width := 2, height := 2 } := by
  decide

/-- C16 (amended): for every accumulator rectangle whose width or height is
zero and every operand rectangle, `enlarge_to_contain` sets the accumulator to
exactly the operand. -/
theorem enlarge_zero_accumulator (acc operand : Rect)
    (h : acc.width = 0 ∨ acc.height = 0) :
    acc.enlarge_to_contain operand = operand := by
  unfold Rect.enlarge_to_contain
  rw [if_pos (Or.symm h)]

/-- C16 (amended) at the accumulator (3, 4, 0, 7). -/
theorem enlarge_zero_accumulator_witness :
    Rect.enlarge_to_contain { x := 3, y := 4, width := 0, height := 7 }
        { x := 10, y := 10, width := 2, height := 2 }
      = { x := 10, y := 10, width := 2, height := 2 } :=
  enlarge_zero_accumulator _ _ (Or.inl rfl)

/-- C17 as stated fails for an operand of negative width: the operand
(20, 0, -5, 10) is degenerate and `enlarge_to_contain` widens the accumulator
(0, 0, 10, 10) to 15. -/
theorem enlarge_negative_operand_counterexample :
    0 < ({ x := 0, y := 0, width := 10, height := 10 } : Rect).width
    ∧ 0 < ({ x := 0, y := 0, width := 10, height := 10 } : Rect).height
    ∧ (({ x := 20, y := 0, width := -5, height := 10 } : Rect).width ≤ 0
      ∨ ({ x := 20, y := 0, width := -5, height := 10 } : Rect).height ≤ 0)
    ∧ Rect.enlarge_to_contain { x := 0, y := 0, width := 10, height := 10 }
        { x := 20, y := 0, width := -5, height := 10 }
      = { x := 0, y := 0, width := 15, height := 10 } := by
  decide

/-- C17 (amended): for every accumulator rectangle of positive width and
height and every operand rectangle whose width or height is zero,
`enlarge_to_contain` leaves the accumulator unchanged. -/
theorem enlarge_zero_operand (acc operand : Rect)
    (hw : 0 < acc.width) (hh : 0 < acc.height)
    (h : operand.width = 0 ∨ operand.height = 0) :
    acc.enlarge_to_contain operand = acc := by
  unfold Rect.enlarge_to_contain
  rw [if_neg (by omega), if_neg (by omega)]

/-- C17 (amended) at the operand (20, 0, 0, 10). -/
theorem enlarge_zero_operand_witness :
    Rect.enlarge_to_contain { x := 0, y := 0, width := 10, height := 10 }
        { x := 20, y := 0, width := 0, height := 10 }
      = { x := 0, y := 0, width := 10, height := 10 } :=
  enlarge_zero_operand _ _ (by decide) (by decide) (Or.inl rfl)

/-- C18: for two rectangles of positive width and height (the edge sums are
exact integers), `enlarge_to_contain` turns the accumulator into the bounding
rectangle of both: its left edge is the smaller left edge, its top the smaller
top, its right edge the larger right edge and its bottom the larger bottom. -/
theorem enlarge_bounding (acc operand : Rect)
    (haw : 0 < acc.width) (hah : 0 < acc.height)
    (how : 0 < operand.width) (hoh : 0 < operand.height) :
    (acc.enlarge_to_contain operand).x = min acc.x operand.x
    ∧ (acc.enlarge_to_contain operand).y = min acc.y operand.y
    ∧ (acc.enlarge_to_contain operand).x + (acc.enlarge_to_contain operand).width
        = max (acc.x + acc.width) (operand.x + operand.width)
    ∧ (acc.enlarge_to_contain operand).y + (acc.enlarge_to_contain operand).height
        = max (acc.y + acc.height) (operand.y + operand.height) := by
  have h1 : ¬ (acc.height = 0 ∨ acc.width = 0) := by omega
  have h2 : operand.width ≠ 0 ∧ operand.height ≠ 0 := by omega
  unfold Rect.enlarge_to_contain
  rw [if_neg h1, if_pos h2]
  dsimp only
  refine ⟨?_, ?_, ?_, ?_⟩
  · rw [min_def]
    split_ifs <;> omega
  · rw [min_def]
    split_ifs <;> omega
  · rw [max_def]
    split_ifs <;> omega
  · rw [max_def]
    split_ifs <;> omega

/-- C18 at the rectangles (0, 0, 10, 10) and (5, -3, 20, 8). -/
theorem enlarge_bounding_witness :
    (Rect.enlarge_to_contain { x := 0, y := 0, width := 10, height := 10 }
        { x := 5, y := -3, width := 20, height := 8 }).x = min 0 5
    ∧ (Rect.enlarge_to_contain { x := 0, y := 0, width := 10, height := 10 }
        { x := 5, y := -3, width := 20, height := 8 })
      = { x := 0, y := -3, width := 25, height := 13 } :=
  ⟨(enlarge_bounding { x := 0, y := 0, width := 10, height := 10 }
      { x := 5, y := -3, width := 20, height := 8 }
      (by decide) (by decide) (by decide) (by decide)).1, by decide⟩

/-- C19: for every pair of rectangles `a` and `b`, `a.is_intersecting(b)` and
`b.is_intersecting(a)` return the same boolean and result rectangles of the
same surface (indeed the same rectangle). -/
theorem is_intersecting_comm (a b : Rect) :
    (a.is_intersecting b).1 = (b.is_intersecting a).1
    ∧ (a.is_intersecting b).2.surface = (b.is_intersecting a).2.surface
    ∧ (a.is_intersecting b).2 = (b.is_intersecting a).2 := by
  obtain ⟨a1, a2, a3, a4, a5⟩ := is_intersecting_fields a b
  obtain ⟨b1, b2, b3, b4, b5⟩ := is_intersecting_fields b a
  have hx : (a.is_intersecting b).2.x = (b.is_intersecting a).2.x := by
    rw [a1, b1, max_comm]
  have hy : (a.is_intersecting b).2.y = (b.is_intersecting a).2.y := by
    rw [a2, b2, max_comm]
  have hw : (a.is_intersecting b).2.width = (b.is_intersecting a).2.width := by
    rw [a3, b3, min_comm, max_comm]
  have hh : (a.is_intersecting b).2.height = (b.is_intersecting a).2.height := by
    rw [a4, b4, min_comm, max_comm]
  refine ⟨?_, ?_, ?_⟩
  · rw [a5, b5, hw, hh]
  · unfold Rect.surface
    rw [hw, hh]
  · cases hr1 : (a.is_intersecting b).2
    cases hr2 : (b.is_intersecting a).2
    simp only [hr1, hr2] at hx hy hw hh
    rw [hx, hy, hw, hh]

/-- C21: for the least `int`, -2147483648, `write(int)` does not write the
canonical decimal representation "-2147483648": the negation overflows and
leaves the number negative, every `number % 10` is then negative or zero, and
the characters written are a '-' followed by ten characters below '0'. -/
theorem write_int_least :
    write_int (fun _ => 0) (-2147483648)
        = ['-', '.', '/', ',', ')', ',', '(', '-', '*', ',', '(']
    ∧ decimal (-2147483648) = ['-', '2', '1', '4', '7', '4', '8', '3', '6', '4', '8']
    ∧ write_int (fun _ => 0) (-2147483648) ≠ decimal (-2147483648) := by
  have h1 : write_int (fun _ => 0) (-2147483648)
      = ['-', '.', '/', ',', ')', ',', '(', '-', '*', ',', '('] := by decide!
  have h2 : decimal (-2147483648) = ['-', '2', '1', '4', '7', '4', '8', '3', '6', '4', '8'] := by
    simp [decimal]
  refine ⟨h1, h2, ?_⟩
  rw [h1, h2]
  decide

/-- C22: `add_metatag` does not transcode a character beyond the Basic
Multilingual Plane: for the text of the one character U+1F600 the value
FE FF D8 3D DE 00 holds its big-endian UTF-16 code units, its UTF-8 encoding
is F0 9F 98 80 (as `String.utf8EncodeChar` has it too), and `add_metatag`
writes ED A0 BD ED B8 80 between the tags, three bytes for each surrogate; and
for the text "a", U+0000, "b" it writes "a" only. -/
theorem add_metatag_astral :
    utf16be sample_astral_text = [0xD8, 0x3D, 0xDE, 0x00]
    ∧ escaped_utf8 sample_astral_text = [0xF0, 0x9F, 0x98, 0x80]
    ∧ escaped_utf8 sample_astral_text
        = (String.utf8EncodeChar (Char.ofNat 0x1F600)).map UInt8.toNat
    ∧ add_metatag "title".toList
          (some (bytes_string ([0xFE, 0xFF] ++ utf16be sample_astral_text)))
        = (false, "  <title>".toList ++ bytes_string [0xED, 0xA0, 0xBD, 0xED, 0xB8, 0x80]
            ++ "</title>\n".toList)
    ∧ add_metatag "title".toList
          (some (bytes_string ([0xFE, 0xFF] ++ utf16be sample_astral_text)))
        ≠ (false, "  <title>".toList ++ bytes_string (escaped_utf8 sample_astral_text)
            ++ "</title>\n".toList)
    ∧ add_metatag "title".toList
          (some (bytes_string ([0xFE, 0xFF] ++ utf16be [0x61, 0, 0x62])))
        = (false, "  <title>a</title>\n".toList) := by
  refine ⟨by decide, by decide, by decide, by decide!, by decide!, by decide!⟩

/-- C23: in every serializer state and for every width and height,
`start_page` appends to the file the font closing tag exactly when
`font_opened` was true, then the page closing tag exactly when `page_opened`
was true, then one page opening tag with the given width and height, and
leaves `page_opened` true and `font_opened` false. -/
theorem start_page_tags (o : XmlOutput) (width height : Int) :
    (o.start_page width height).file
        = o.file ++ (if o.font_opened = true then [XmlItem.font_close] else [])
          ++ (if o.page_opened = true then [XmlItem.page_close] else [])
          ++ [XmlItem.page_open width height]
    ∧ (o.start_page width height).page_opened = true
    ∧ (o.start_page width height).font_opened = false := by
  unfold XmlOutput.start_page
  refine ⟨?_, rfl, rfl⟩
  cases o.font_opened <;> cases o.page_opened <;> simp

/-- C24: for every call `change_font(face, size, color, bold, italic)` with
`0 ≤ color ≤ 0xFFFFFF`, a font closing tag is written first exactly when a
font tag was open, then the font tag, and `font_opened` is true afterwards;
the characters of the font tag are "    <font", the attribute `size` with
what `write(int)` writes for the size, the attribute `face` exactly when the
face is not empty, the attribute `color` exactly when the colour is not zero,
the attribute `bold="true"` exactly when `bold`, the attribute
`italic="true"` exactly when `italic`, and ">" with a line feed; the value of
the colour attribute is '#' followed by the six-character uppercase
hexadecimal representation of the colour, which read back as a hexadecimal
number gives the colour. -/
theorem change_font_tag (o : XmlOutput) (face : GString) (size color : Int)
    (bold italic : Bool) (h0 : 0 ≤ color) (h1 : color ≤ 0xFFFFFF) :
    (o.change_font face size color bold italic).file
        = o.file ++ (if o.font_opened = true then [XmlItem.font_close] else [])
          ++ [XmlItem.font_open face size color bold italic]
    ∧ (o.change_font face size color bold italic).font_opened = true
    ∧ XmlItem.render (XmlItem.font_open face size color bold italic)
        = "    <font".toList ++ xml_attribute "size".toList (write_number size)
          ++ (if face ≠ [] then xml_attribute "face".toList (c_str face) else [])
          ++ (if color ≠ 0 then xml_attribute "color".toList ('#' :: hex6 color.toNat) else [])
          ++ (if bold = true then xml_attribute "bold".toList "true".toList else [])
          ++ (if italic = true then xml_attribute "italic".toList "true".toList else [])
          ++ ">\n".toList
    ∧ (hex6 color.toNat).length = 6
    ∧ ((read_hex (hex6 color.toNat) : Nat) : Int) = color := by
  refine ⟨?_, rfl, ?_, rfl, ?_⟩
  · unfold XmlOutput.change_font
    cases o.font_opened <;> simp
  · simp only [XmlItem.render, xml_attribute]
    rw [color_number_eq color h0 h1]
    have hf : (face.length > 0) = (face ≠ []) := by
      cases face <;> simp
    simp only [hf]
    cases bold <;> cases italic <;> by_cases hc : color = 0 <;> by_cases hface : face = []
      <;> simp [hc, hface]
  · rw [read_hex_hex6 _ (by omega)]
    omega

/-- C24 at the bold face "A" of size 12 and colour 0xFF00A1, written while a
font tag is open. -/
theorem change_font_tag_witness :
    ((XmlOutput.mk [] true true).change_font ['A'] 12 0xFF00A1 true false).file
        = [XmlItem.font_close, XmlItem.font_open ['A'] 12 0xFF00A1 true false]
    ∧ XmlItem.render (XmlItem.font_open ['A'] 12 0xFF00A1 true false)
        = "    <font size=\"12\" face=\"A\" color=\"#FF00A1\" bold=\"true\">\n".toList
    ∧ read_hex "FF00A1".toList = 0xFF00A1 :=
  have h := change_font_tag (XmlOutput.mk [] true true) ['A'] 12 0xFF00A1 true false
    (by decide) (by decide)
  ⟨h.1.trans (by decide), h.2.2.1.trans (by decide!), by decide⟩

/-- C25: the address of a link is written as it is: for the link to
"http://x.org/?a=1&b=2" drawn on a page, `drawLink` hands the address to
`add_link`, and the characters written for the element carry the '&' of the
address unescaped inside the value of `href`. -/
theorem add_link_unescaped :
    (drawLink sample_page sample_uri_link).dev_output.file
        = sample_page.dev_output.file
          ++ [XmlItem.link_url { x := 10, y := 20, width := 30, height := 12 }
                "http://x.org/?a=1&b=2".toList]
    ∧ XmlItem.render (XmlItem.link_url { x := 10, y := 20, width := 30, height := 12 }
          "http://x.org/?a=1&b=2".toList)
        = ("      <link x=\"10\" y=\"20\" width=\"30\" height=\"12\" "
            ++ "href=\"http://x.org/?a=1&b=2\"/>").toList := by
  constructor
  · decide!
  · decide!

/-- C26: for a link that is ok and drawn inside a page, with a go-to action
that is ok and whose resolved destination (the one found for the name when
there is a named destination and a catalog, the one of the action otherwise)
is ok and of kind XYZ: when both the change-left and the change-top flag are
set, `drawLink` writes one link element with the destination page minus 1 (the
page is counted from 1) and the rounded device position of the destination,
and changes nothing else; otherwise it writes nothing and changes nothing. -/
theorem drawLink_xyz (dev : MbpOutputDev) (l : LinkCall) (dest found_dest : Option LinkDestInfo)
    (named : Bool) (d : LinkDestInfo) (hl : l.is_ok = true) (hp : dev.dev_page_state = true)
    (ha : l.action = LinkActionInfo.go_to true dest named found_dest)
    (hd : (if named = true then found_dest else dest) = some d) (hok : d.is_ok = true)
    (hk : d.kind = LinkDestKind.destXYZ) :
    drawLink dev l
      = if d.change_left = true ∧ d.change_top = true then
          { dev with dev_output :=
              { dev.dev_output with file := dev.dev_output.file
                  ++ [XmlItem.link_dest l.active_rect (d.page - 1) (round d.x) (round d.y)] } }
        else dev := by
  unfold drawLink
  simp only [hl, hp, ha, Bool.and_self, if_true]
  rw [hd]
  simp only [hok, hk, if_true, Bool.and_eq_true, XmlOutput.add_link]

/-- C26 at a destination on the page 3 with both flags set: the link element
carries the page 2. -/
theorem drawLink_xyz_witness :
    (drawLink sample_page sample_goto_link).dev_output.file
      = sample_page.dev_output.file
        ++ [XmlItem.link_dest { x := 10, y := 20, width := 30, height := 12 } 2 50 60] := by
  rw [drawLink_xyz sample_page sample_goto_link (some sample_dest) none false sample_dest
    rfl rfl rfl rfl rfl rfl]
  decide!

/-- C27: `add_text_block` called in a serializer state without a current
page (`page_opened` false) and with every `write` succeeding adds the text
block to the file and returns false: it reports no error. -/
theorem add_text_block_without_page :
    XmlOutput.new.page_opened = false
    ∧ (XmlOutput.new.add_text_block ['a'] { x := 1, y := 2, width := 3, height := 4 }).file
        = [XmlItem.text_block ['a'] { x := 1, y := 2, width := 3, height := 4 }]
    ∧ XmlOutput.new.add_text_block_error (fun _ => false) = false := by
  refine ⟨rfl, ?_, ?_⟩
  · unfold XmlOutput.add_text_block
    rfl
  · decide

/-- C28: `round` does not round off a negative value to the closest integer:
for x = -1, itself an integer, `(int)(x+0.5)` truncates -1/2 toward zero and
yields 0, at distance 1 from x. -/
theorem round_minus_one :
    round (-1) = 0 ∧ ¬ (|((round (-1) : Int) : ℚ) - (-1)| ≤ 1/2) := by
  have h : round (-1) = 0 := by decide!
  refine ⟨h, ?_⟩
  rw [h]
  norm_num

/-- C29: `compare_with_coalesc` is sound: when it returns true for a
fragment text `str` the pending block is valid and `str` and the pending text
are equal once every 0x20 byte is deleted from both; and its scan, run with
checked reads, never reads `str` or the pending text at an index that is not
below the length of the text (the checked scan ends as the scan does, with
some result). -/
theorem compare_with_coalesc_sound (dev : MbpOutputDev) (str : GString) :
    (compare_with_coalesc dev str = true →
      dev.dev_coalesc_valid = true
      ∧ strip_spaces str = strip_spaces dev.dev_coalesc_content)
    ∧ compare_scan_checked str dev.dev_coalesc_content
          (str.length + dev.dev_coalesc_content.length) 0 0
        = some (compare_scan str dev.dev_coalesc_content
            (str.length + dev.dev_coalesc_content.length) 0 0) := by
  refine ⟨?_, compare_scan_in_bounds _ _ _ _ _⟩
  intro h
  unfold compare_with_coalesc at h
  cases hv : dev.dev_coalesc_valid with
  | false => simp [hv] at h
  | true =>
    simp only [hv, Bool.not_true, Bool.false_eq_true, if_false, Bool.and_eq_true,
      decide_eq_true_eq] at h
    refine ⟨rfl, ?_⟩
    have := compare_scan_sound str dev.dev_coalesc_content _ 0 0 (Nat.zero_le _) (Nat.zero_le _)
      (Prod.ext h.1 h.2)
    simpa using this

/-- C29 at the pending block "Hello" and the fragment "He llo". -/
theorem compare_with_coalesc_sound_witness :
    sample_pending.dev_coalesc_valid = true
    ∧ strip_spaces ['H', 'e', ' ', 'l', 'l', 'o'] = strip_spaces sample_pending.dev_coalesc_content :=
  (compare_with_coalesc_sound sample_pending ['H', 'e', ' ', 'l', 'l', 'o']).1 (by decide!)

/-- C30: in every sequence of callbacks made of pages, each a `startPage`
followed by font updates, text, images and links in any order and then an
`endPage`, and from every state of the device: a text block that a callback
writes is the first element that the callback writes, so that it is written
in the state of the serializer at the start of the callback, and in that state
`page_opened` and `font_opened` are true; and after every non-blank
`drawString` the flag `dev_font_has_changed` is false. -/
theorem text_blocks_inside_tags (dev : MbpOutputDev) (pre post : List Callback) (c : Callback)
    (hseq : page_sequence false (pre ++ c :: post) = true) :
    (∀ t r, XmlItem.text_block t r ∈ emitted (run dev pre) (step (run dev pre) c) →
        (emitted (run dev pre) (step (run dev pre) c)).head? = some (XmlItem.text_block t r)
        ∧ (run dev pre).dev_output.page_opened = true
        ∧ (run dev pre).dev_output.font_opened = true)
    ∧ (∀ g, c = Callback.drawString g → all_blanks g.text_content = false →
        (step (run dev pre) c).dev_font_has_changed = false) := by
  obtain ⟨inside, h1, h2⟩ := run_page pre (c :: post) false dev hseq (fun hf => by cases hf)
  simp only [page_sequence] at h1
  cases hs : page_step inside c with
  | none => simp [hs] at h1
  | some next => exact (step_page (run dev pre) c inside next hs h2).2

/-- C30 at the image callback of the first of two sample pages, which writes
the pending block "Hello": the page tag and the font tag are open. -/
theorem text_blocks_inside_tags_witness :
    (emitted (run (MbpOutputDev.new XmlOutput.new ['d', 'o', 'c']) (sample_pages.take 2))
        (step (run (MbpOutputDev.new XmlOutput.new ['d', 'o', 'c']) (sample_pages.take 2))
          (Callback.drawImage sample_image))).head?
      = some (XmlItem.text_block ['H', 'e', 'l', 'l', 'o']
          { x := 100, y := 100, width := 50, height := 12 })
    ∧ (run (MbpOutputDev.new XmlOutput.new ['d', 'o', 'c'])
        (sample_pages.take 2)).dev_output.page_opened = true
    ∧ (run (MbpOutputDev.new XmlOutput.new ['d', 'o', 'c'])
        (sample_pages.take 2)).dev_output.font_opened = true :=
  (text_blocks_inside_tags (MbpOutputDev.new XmlOutput.new ['d', 'o', 'c']) (sample_pages.take 2)
    (sample_pages.drop 3) (Callback.drawImage sample_image) (by decide!)).1
    ['H', 'e', 'l', 'l', 'o'] { x := 100, y := 100, width := 50, height := 12 } (by decide!)

end Pdf2Xml
